import Mathlib

/-! Verification development for the g-timetracker history engine
(`src/src/lib/TimeLogHistoryWorker.cpp`).

The engine stores a time log in an SQLite database with two tables,
`timelog (uuid UNIQUE, start INTEGER PRIMARY KEY, category, comment,
duration, mtime)` and `removed (uuid UNIQUE, mtime)`, whose six triggers
maintain the derived `duration` column and the tombstone (last-writer-wins)
discipline.  On top of that the worker keeps in-memory scalar state (a row
count `m_size`, a category set `m_categories`, a bounded undo stack) and
implements the mutation commands insert / import / remove / edit /
editCategory / sync / undo plus read queries.

Shallow embedding conventions:
* the `timelog` table is a `List Row` kept sorted strictly ascending by
  `start` (the primary key); `removed` is an association list of
  `(uuid, mtime)` tombstones;
* uuids are `Nat` (`0` standing for the null `QUuid`), instants are `Int`
  (seconds for `start`, milliseconds for `mtime`);
* an invalid `QDateTime` is `Option.none`;
* every SQL statement is translated together with the triggers it fires;
  a statement error (constraint violation) is `Option.none` at the SQL
  layer, and exogenous storage failures are injected through a schedule
  `fs : List Bool` that each executed statement consumes one entry of
  (`true` = this execution fails, as `query.exec()` returning false does);
* emitted Qt signals are collected in a `List Ev` trace.  The model events
  `sizeChanged` and `categoriesChanged` additionally record the value the
  tracked state had just before the emission (the real signal carries only
  the new value); this instrumentation lets theorems talk about whether an
  emission reflected an actual change. -/

namespace GTT

/-- The three persisted bits of `TimeLogHistory::Fields` used by
`editData` (StartTime, Category, Comment).  DurationTime and
PrecedingStart are notification-only flags and carry no stored data. -/
structure Fields where
  startTime : Bool
  category : Bool
  comment : Bool
deriving DecidableEq, Repr

def noFields : Fields := ⟨false, false, false⟩

def allFields : Fields := ⟨true, true, true⟩

def categoryField : Fields := ⟨false, true, false⟩

/-- One committed row of the `timelog` table. -/
structure Row where
  uuid : Nat
  start : Int
  category : String
  comment : String
  duration : Int
  mtime : Int
deriving DecidableEq, Repr

/-- The database: `timelog` in its sorted representation, `removed` as an
association list of tombstones `(uuid, mtime)`. -/
structure DB where
  timelog : List Row
  removed : List (Nat × Int)
deriving DecidableEq, Repr

/-- `TimeLogEntry`.  `start = none` models an invalid (default-constructed)
start `QDateTime`.  Modelled from the spec: the sources of `TimeLogEntry`
itself are not in the provided tree, and per the spec a default-constructed
entry and a tombstone-derived record (NULL start) are invalid, so validity
is carried by `start.isSome`. -/
structure Entry where
  uuid : Nat
  start : Option Int
  category : String
  comment : String
  duration : Int
  precedingStart : Int
deriving DecidableEq, Repr

/-- Modelled from the spec: `TimeLogEntry::isValid` distinguishes real
entries from default/empty ones; records derived from tombstones carry a
NULL start and are invalid. -/
def Entry.isValid (e : Entry) : Bool := e.start.isSome

def emptyEntry : Entry := ⟨0, none, "", "", 0, 0⟩

/-- `TimeLogSyncData`: an entry together with its modification time;
`mtime = none` models an invalid `QDateTime` mTime (the write layer then
substitutes the current time). -/
structure SyncData extends Entry where
  mtime : Option Int
deriving DecidableEq, Repr

def SyncData.isValid (d : SyncData) : Bool := d.toEntry.isValid

def SyncData.mtD (d : SyncData) : Int := d.mtime.getD 0

def emptySync : SyncData := ⟨emptyEntry, none⟩

/-- The implicit `TimeLogEntry → TimeLogSyncData` conversion used at call
sites of the data layer: the mTime member is default-constructed
(invalid). -/
def toSync (e : Entry) : SyncData := ⟨e, none⟩

/-- The signal trace.  `sizeChanged` and `categoriesChanged` record the
previous value of the tracked state next to the emitted new value (model
instrumentation, see the file header). -/
inductive Ev where
  | error
  | dataInserted (e : SyncData)
  | dataImported (es : List Entry)
  | dataRemoved (e : SyncData)
  | dataUpdated (es : List Entry)
  | dataOutdated
  | dataSynced
  | sizeChanged (oldSize newSize : Int)
  | categoriesChanged (oldCats newCats : Finset String)
  | undoCountChanged (n : Nat)
  | historyRequestCompleted (es : List Entry) (id : Int)
  | syncStatsAvailable (rOld rNew iOld iNew uOld uNew : List SyncData)
deriving DecidableEq

/-- Kind tag of an undo frame (`Undo::Type`). -/
inductive UndoKind where
  | uInsert
  | uRemove
  | uEdit
  | uEditCategory
deriving DecidableEq, Repr

/-- One undo frame (`TimeLogHistoryWorker::Undo`): captured entry
snapshots and, for Edit/EditCategory, a parallel list of field masks. -/
structure Frame where
  kind : UndoKind
  data : List Entry
  fields : List Fields
deriving DecidableEq, Repr

/-- Worker state: database, in-memory `m_size`, `m_categories` and the
undo stack (oldest frame first, as in `QStack` with `push` appending and
`takeFirst` trimming). -/
structure W where
  db : DB
  size : Int
  cats : Finset String
  undoStack : List Frame
deriving DecidableEq

def maxUndoSize : Nat := 10

def initW : W := ⟨⟨[], []⟩, 0, ∅, []⟩

/-! Basic lookups on the tables. -/

def starts (l : List Row) : List Int := l.map (·.start)

/-- SQL `SELECT .. FROM timelog WHERE start < s ORDER BY start DESC
LIMIT 1` on the sorted representation: the last row below `s`. -/
def maxBelow (l : List Row) (s : Int) : Option Row :=
  (l.filter (fun r => r.start < s)).getLast?

/-- SQL `SELECT .. FROM timelog WHERE start > s ORDER BY start ASC
LIMIT 1`: the first row above `s`. -/
def minAbove (l : List Row) (s : Int) : Option Row :=
  (l.filter (fun r => s < r.start)).head?

/-- SQL `UPDATE timelog SET duration = d WHERE start = s`.  `start` is the
primary key, so at most one row matches; the `check_update_timelog`
BEFORE-UPDATE guard never suppresses this because mtime is unchanged. -/
def setDurAt (l : List Row) (s d : Int) : List Row :=
  l.map (fun r => if r.start = s then { r with duration := d } else r)

/-- Insert a row into the sorted representation at its `start` position. -/
def insertByStart (l : List Row) (x : Row) : List Row :=
  l.takeWhile (fun a => a.start < x.start) ++ x :: l.dropWhile (fun a => a.start < x.start)

/-- `SELECT mtime FROM removed WHERE uuid = u` (uuid is UNIQUE there). -/
def findTomb (rem : List (Nat × Int)) (u : Nat) : Option Int :=
  (rem.find? (fun t => t.1 == u)).map (·.2)

/-- `SELECT DISTINCT category FROM timelog` (the rebuild query of
`updateCategories`). -/
def dbCats (db : DB) : Finset String := (db.timelog.map (·.category)).toFinset

/-! The triggers of `setupTriggers`, translated statement by statement. -/

/-- The recurring UPDATE shape `SET duration=(s - start) WHERE start =
(SELECT start .. WHERE start < s ORDER BY start DESC LIMIT 1)`: the
predecessor of `s` gets the gap up to `s` (no row is touched when the
subquery is empty, i.e. NULL). -/
def predFix (tl : List Row) (s : Int) : List Row :=
  match maxBelow tl s with
  | some p => setDurAt tl p.start (s - p.start)
  | none => tl

/-- The recurring UPDATE shape `SET duration=IFNULL((SELECT start ..
WHERE start > s ..) - s, -1) WHERE start = s`: the row at `s` gets the gap
to its successor, `-1` when it has none. -/
def selfFix (tl : List Row) (s : Int) : List Row :=
  match minAbove tl s with
  | some nx => setDurAt tl s (nx.start - s)
  | none => setDurAt tl s (-1)

/-- Body of the `insert_timelog` trigger (AFTER INSERT ON timelog), run on
the table that already contains the new row with start `s`: first give the
predecessor its new duration `NEW.start - start`, then derive the new
row's duration (`next.start - NEW.start`, or `-1` if it is last).  The
trigger's final `DELETE FROM removed` is performed by the caller. -/
def insTrigRepair (tl : List Row) (s : Int) : List Row := selfFix (predFix tl s) s

/-- Body of the `delete_timelog` trigger (AFTER DELETE ON timelog), run on
the table with the row at `oldS` already gone: the predecessor of the
deleted row gets `next-of-old.start - start`, or `-1` if no next row. -/
def delTrigRepair (tl : List Row) (oldS : Int) : List Row :=
  match maxBelow tl oldS with
  | none => tl
  | some p => match minAbove tl oldS with
    | some nx => setDurAt tl p.start (nx.start - p.start)
    | none => setDurAt tl p.start (-1)

/-- Statement 2 of the `update_timelog` trigger: repair the
predecessor-of-old when it differs from the predecessor-of-new (the
`NULLIF` in the source, whose SQLite NULL semantics the option matching
spells out), giving it the gap to the first row above `oldS` (`IFNULL` to
`-1` when none exists). -/
def updStmt2 (tl : List Row) (oldS newS : Int) : List Row :=
  let target : Option Int :=
    match (maxBelow tl oldS).map (·.start), (maxBelow tl newS).map (·.start) with
    | some a, some b => if a = b then none else some a
    | some a, none => some a
    | none, _ => none
  match target with
  | none => tl
  | some a =>
    match minAbove tl oldS with
    | some nx => setDurAt tl a (nx.start - a)
    | none => setDurAt tl a (-1)

/-- Body of the `update_timelog` trigger (AFTER UPDATE OF start ON
timelog), run on the table with the row already moved from `oldS` to
`newS`: statement 1 repairs the predecessor-of-new, statement 2 the
predecessor-of-old when distinct, statement 3 the moved row itself. -/
def updTrigRepair (tl : List Row) (oldS newS : Int) : List Row :=
  selfFix (updStmt2 (predFix tl newS) oldS newS) newS

/-! The SQL statements issued by the worker, each together with the
triggers it fires. -/

/-- `DELETE FROM timelog WHERE uuid = u` plus the `delete_timelog`
trigger.  `uuid` is UNIQUE, so at most one row is deleted (the embedding
erases the first match). -/
def sqlDeleteByUuid (tl : List Row) (u : Nat) : List Row :=
  match tl.find? (fun r => r.uuid == u) with
  | none => tl
  | some x => delTrigRepair (tl.eraseP (fun r => r.uuid == u)) x.start

/-- The raw `INSERT INTO timelog (uuid, start, category, comment, mtime)`
plus the `insert_timelog` AFTER trigger.  `none` models a constraint
violation (duplicate uuid or duplicate start).  The SQL leaves `duration`
NULL at first; trigger statement 2 always assigns it, so the placeholder
`0` below is always overwritten. -/
def sqlInsertTimelogRaw (db : DB) (u : Nat) (s : Int) (cat com : String) (mt : Int) :
    Option (DB × Int) :=
  if db.timelog.any (fun r => r.uuid == u) || db.timelog.any (fun r => r.start == s) then none
  else
    let tl := insertByStart db.timelog ⟨u, s, cat, com, 0, mt⟩
    some (⟨insTrigRepair tl s, db.removed.filter (fun t => !(t.1 == u))⟩, 1)

/-- `INSERT INTO timelog ...` including the `check_insert_timelog` BEFORE
trigger: RAISE(IGNORE) when a tombstone for the uuid has strictly greater
mtime (`NEW.mtime < mtime`), which makes the statement succeed with zero
affected rows. -/
def sqlInsertTimelog (db : DB) (u : Nat) (s : Int) (cat com : String) (mt : Int) :
    Option (DB × Int) :=
  match findTomb db.removed u with
  | some tm => if mt < tm then some (db, 0) else sqlInsertTimelogRaw db u s cat com mt
  | none => sqlInsertTimelogRaw db u s cat com mt

/-- `INSERT OR REPLACE INTO removed (uuid, mtime)` with the
`check_insert_removed` BEFORE trigger (RAISE(IGNORE) when strictly staler
than the existing tombstone) and the `insert_removed` AFTER trigger
(cascade delete of the live row, which fires `delete_timelog`). -/
def sqlInsertRemoved (db : DB) (u : Nat) (mt : Int) : DB × Int :=
  match findTomb db.removed u with
  | some tm =>
    if mt < tm then (db, 0)
    else (⟨sqlDeleteByUuid db.timelog u,
           db.removed.map (fun t => if t.1 = u then (u, mt) else t)⟩, 1)
  | none => (⟨sqlDeleteByUuid db.timelog u, db.removed ++ [(u, mt)]⟩, 1)

/-- `UPDATE timelog SET ... , mtime=? WHERE uuid = u` (the statement of
`editData`) with the `check_update_timelog` BEFORE guard (RAISE(IGNORE)
when `NEW.mtime < OLD.mtime`) and, when `start` is among the assigned
columns, the `update_timelog` AFTER trigger.  `none` models a primary-key
violation (moving onto an occupied start). -/
def sqlUpdateTimelog (db : DB) (u : Nat) (f : Fields) (s : Int) (cat com : String) (mt : Int) :
    Option (DB × Int) :=
  match db.timelog.find? (fun r => r.uuid == u) with
  | none => some (db, 0)
  | some x =>
    if mt < x.mtime then some (db, 0)
    else
      let ns := if f.startTime then s else x.start
      let x' : Row := ⟨x.uuid, ns, if f.category then cat else x.category,
                       if f.comment then com else x.comment, x.duration, mt⟩
      if f.startTime ∧ ns ≠ x.start ∧ db.timelog.any (fun r => r.start == ns) then none
      else if f.startTime then
        let tl := insertByStart (db.timelog.eraseP (fun r => r.uuid == u)) x'
        some (⟨updTrigRepair tl x.start ns, db.removed⟩, 1)
      else
        some (⟨db.timelog.map (fun r => if r.uuid = u then x' else r), db.removed⟩, 1)

/-- `UPDATE timelog SET category=?, mtime=? WHERE category=?` (the bulk
statement of `editCategoryData`).  Each touched row passes through the
`check_update_timelog` BEFORE guard, so rows whose mtime lies in the
future of `mt` are skipped; `start` is not assigned, so `update_timelog`
does not fire. -/
def sqlRenameCategory (db : DB) (oldN newN : String) (mt : Int) : DB :=
  ⟨db.timelog.map (fun r =>
     if r.category = oldN ∧ ¬ mt < r.mtime then { r with category := newN, mtime := mt } else r),
   db.removed⟩

/-! The worker's in-memory helpers. -/

/-- Result of a data-layer call: success flag, new worker state, emitted
events, remaining failure schedule. -/
structure Out where
  ok : Bool
  w : W
  evs : List Ev
  fs : List Bool
deriving DecidableEq

/-- Consume one entry of the failure schedule (one `query.exec()`). -/
def stepFail (fs : List Bool) : Bool × List Bool := (fs.headD false, fs.tail)

/-- `setSize`: store and emit only when the value changed. -/
def setSize (w : W) (n : Int) : W × List Ev :=
  if w.size = n then (w, [])
  else ({ w with size := n }, [.sizeChanged w.size n])

/-- `addToCategories`: insert and emit only when the category was new. -/
def addToCategories (w : W) (c : String) : W × List Ev :=
  if c ∈ w.cats then (w, [])
  else ({ w with cats := insert c w.cats }, [.categoriesChanged w.cats (insert c w.cats)])

/-- `removeFromCategories`: erase and emit only when present. -/
def removeFromCategories (w : W) (c : String) : W × List Ev :=
  if c ∈ w.cats then
    ({ w with cats := w.cats.erase c }, [.categoriesChanged w.cats (w.cats.erase c)])
  else (w, [])

/-- `processFail`: clear the undo stack, emit `undoCountChanged(0)` and
`dataOutdated`. -/
def processFail (w : W) : W × List Ev :=
  ({ w with undoStack := [] }, [.undoCountChanged 0, .dataOutdated])

/-- `insertData(TimeLogSyncData)`: one INSERT execution (consumes one
failure-schedule entry), then `setSize(m_size + numRowsAffected)` and
`addToCategories(data.category)`. -/
def insertData1 (w : W) (d : SyncData) (now : Int) (fs : List Bool) : Out :=
  let p := stepFail fs
  if p.1 then ⟨false, w, [.error], p.2⟩
  else
    match sqlInsertTimelog w.db d.uuid (d.start.getD 0) d.category d.comment (d.mtime.getD now) with
    | none => ⟨false, w, [.error], p.2⟩
    | some (db', n) =>
      let q := setSize { w with db := db' } (w.size + n)
      let q2 := addToCategories q.1 d.category
      ⟨true, q2.1, q.2 ++ q2.2, p.2⟩

/-- `removeData`: the INSERT OR REPLACE into `removed`, then
`setSize(m_size - numRowsAffected)`. -/
def removeData (w : W) (d : SyncData) (now : Int) (fs : List Bool) : Out :=
  let p := stepFail fs
  if p.1 then ⟨false, w, [.error], p.2⟩
  else
    let r := sqlInsertRemoved w.db d.uuid (d.mtime.getD now)
    let q := setSize { w with db := r.1 } (w.size - r.2)
    ⟨true, q.1, q.2, p.2⟩

/-- `editData`: the UPDATE execution, then `addToCategories` when the
Category field is among the assigned ones. -/
def editData (w : W) (d : SyncData) (f : Fields) (now : Int) (fs : List Bool) : Out :=
  let p := stepFail fs
  if p.1 then ⟨false, w, [.error], p.2⟩
  else
    match sqlUpdateTimelog w.db d.uuid f (d.start.getD 0) d.category d.comment
        (d.mtime.getD now) with
    | none => ⟨false, w, [.error], p.2⟩
    | some (db', _) =>
      let w1 := { w with db := db' }
      if f.category then
        let q := addToCategories w1 d.category
        ⟨true, q.1, q.2, p.2⟩
      else ⟨true, w1, [], p.2⟩

/-- `updateCategories` (full-range rebuild): one SELECT execution, then
swap in the distinct-category set and emit `categoriesChanged`
unconditionally. -/
def updateCategories (w : W) (fs : List Bool) : Out :=
  let p := stepFail fs
  if p.1 then ⟨false, w, [.error], p.2⟩
  else ⟨true, { w with cats := dbCats w.db },
        [.categoriesChanged w.cats (dbCats w.db)], p.2⟩

/-- `editCategoryData`: count the rows in the old category (one SELECT
execution); when none, `removeFromCategories(oldName)` and report failure
without emitting `error`; otherwise run the bulk UPDATE (one execution)
and rebuild the category set. -/
def editCategoryData (w : W) (oldN newN : String) (now : Int) (fs : List Bool) : Out :=
  let p1 := stepFail fs
  if p1.1 then ⟨false, w, [.error], p1.2⟩
  else if ¬ w.db.timelog.any (fun r => r.category == oldN) then
    let q := removeFromCategories w oldN
    ⟨false, q.1, q.2, p1.2⟩
  else
    let p2 := stepFail p1.2
    if p2.1 then ⟨false, w, [.error], p2.2⟩
    else
      let w1 := { w with db := sqlRenameCategory w.db oldN newN now }
      updateCategories w1 p2.2

/-! Read queries. -/

/-- The projection of `selectFields`: a row plus its `precedingStart`
(the start of the previous row, or 0 if none). -/
def selectRow (db : DB) (r : Row) : Entry :=
  ⟨r.uuid, some r.start, r.category, r.comment, r.duration,
   ((maxBelow db.timelog r.start).map (·.start)).getD 0⟩

/-- `getEntry(uuid)`: the live row for the uuid, or a default-constructed
(invalid) entry. -/
def getEntry (db : DB) (u : Nat) : Entry :=
  match db.timelog.find? (fun r => r.uuid == u) with
  | some r => selectRow db r
  | none => emptyEntry

/-- `getEntries(category)`: all live rows of a category. -/
def getEntries (db : DB) (cat : String) : List Entry :=
  (db.timelog.filter (fun r => r.category == cat)).map (selectRow db)

/-- The per-row record produced by `getSyncAffected` / `getSyncData`:
live rows keep uuid/start/category/comment/mtime, tombstones have NULL
start/category/comment.  `durationTime` and `precedingStart` are not
selected and stay default (0). -/
def liveSync (r : Row) : SyncData :=
  ⟨⟨r.uuid, some r.start, r.category, r.comment, 0, 0⟩, some r.mtime⟩

def tombSync (u : Nat) (tm : Int) : SyncData := ⟨⟨u, none, "", "", 0, 0⟩, some tm⟩

/-- `getSyncAffected(uuid)`: of the live row and the tombstone for the
uuid, the one with the greater mtime (`ORDER BY mtime DESC LIMIT 1`; the
disjointness invariant makes at most one exist, and a tie keeps the live
row). -/
def getSyncAffected (db : DB) (u : Nat) : Option SyncData :=
  match (db.timelog.find? (fun r => r.uuid == u)).map liveSync,
        (findTomb db.removed u).map (tombSync u) with
  | none, none => none
  | some a, none => some a
  | none, some b => some b
  | some a, some b => if a.mtD < b.mtD then some b else some a

/-- `getHistoryBefore`'s result list: `WHERE start < until ORDER BY start
DESC LIMIT limit`, then reversed into ascending order. -/
def getHistoryBeforeRes (db : DB) (limit : Nat) (untl : Int) : List Entry :=
  ((((db.timelog.filter (fun r => r.start < untl)).reverse.take limit).map
      (selectRow db))).reverse

/-- The `getHistoryBefore` command: it emits the result list through
`historyRequestCompleted` with the caller's request id. -/
def getHistoryBeforeCmd (w : W) (id : Int) (limit : Nat) (untl : Int) : W × List Ev :=
  (w, [.historyRequestCompleted (getHistoryBeforeRes w.db limit untl) id])

/-! Notification planner. -/

/-- `notifyInsertUpdates`: the UNION window `start <= newStart DESC LIMIT
2` with `start > newStart ASC LIMIT 1`, emitted ascending (the filter over
the sorted table realises the UNION's dedup plus the final ORDER BY). -/
def notifyInsertUpdates (db : DB) (s : Int) : List Ev :=
  let below := (db.timelog.filter (fun r => r.start ≤ s)).reverse.take 2
  let above := (db.timelog.filter (fun r => s < r.start)).take 1
  let rows := db.timelog.filter (fun r => below.contains r || above.contains r)
  if rows.isEmpty then [] else [.dataUpdated (rows.map (selectRow db))]

/-- `notifyRemoveUpdates`: the two ex-neighbours of the removed start. -/
def notifyRemoveUpdates (db : DB) (s : Int) : List Ev :=
  let below := (db.timelog.filter (fun r => r.start < s)).reverse.take 1
  let above := (db.timelog.filter (fun r => s < r.start)).take 1
  let rows := db.timelog.filter (fun r => below.contains r || above.contains r)
  if rows.isEmpty then [] else [.dataUpdated (rows.map (selectRow db))]

/-- `notifyEditUpdates`: with StartTime in the mask, the four-way UNION
window around the new and the old start; otherwise the single row at the
entry's start. -/
def notifyEditUpdates (db : DB) (f : Fields) (s : Int) (oldS : Option Int) : List Ev :=
  if f.startTime then
    let w1 := (db.timelog.filter (fun r => r.start ≤ s)).reverse.take 2
    let w2 := (db.timelog.filter (fun r => s < r.start)).take 1
    let w3 := (db.timelog.filter (fun r => r.start < oldS.getD 0)).reverse.take 1
    let w4 := (db.timelog.filter (fun r => oldS.getD 0 < r.start)).take 1
    let rows := db.timelog.filter (fun r =>
      w1.contains r || w2.contains r || w3.contains r || w4.contains r)
    if rows.isEmpty then [] else [.dataUpdated (rows.map (selectRow db))]
  else
    let rows := db.timelog.filter (fun r => r.start == s)
    if rows.isEmpty then [] else [.dataUpdated (rows.map (selectRow db))]

/-! The mid-level entry operations. -/

/-- `insertEntry`: on success emit `dataInserted` and the insert window;
on failure `processFail`. -/
def insertEntry (w : W) (d : SyncData) (now : Int) (fs : List Bool) : Out :=
  let o := insertData1 w d now fs
  if o.ok then
    ⟨true, o.w, o.evs ++ [.dataInserted d] ++ notifyInsertUpdates o.w.db (d.start.getD 0), o.fs⟩
  else
    let q := processFail o.w
    ⟨false, q.1, o.evs ++ q.2, o.fs⟩

/-- `removeEntry`: on success emit `dataRemoved` and the remove window;
on failure `processFail`. -/
def removeEntry (w : W) (d : SyncData) (now : Int) (fs : List Bool) : Out :=
  let o := removeData w d now fs
  if o.ok then
    ⟨true, o.w, o.evs ++ [.dataRemoved d] ++ notifyRemoveUpdates o.w.db (d.start.getD 0), o.fs⟩
  else
    let q := processFail o.w
    ⟨false, q.1, o.evs ++ q.2, o.fs⟩

/-- `editEntry`: reject an empty field mask (warning only, no signals);
with StartTime in the mask pre-read the old entry and `processFail` when
the uuid is unknown; then `editData` and, on success, the edit window. -/
def editEntry (w : W) (d : SyncData) (f : Fields) (now : Int) (fs : List Bool) : Out :=
  if f = noFields then ⟨false, w, [], fs⟩
  else if f.startTime ∧ ¬ (getEntry w.db d.uuid).isValid then
    let q := processFail w
    ⟨false, q.1, q.2, fs⟩
  else
    let oldS : Option Int := if f.startTime then (getEntry w.db d.uuid).start else none
    let o := editData w d f now fs
    if o.ok then
      ⟨true, o.w, o.evs ++ notifyEditUpdates o.w.db f (d.start.getD 0) oldS, o.fs⟩
    else
      let q := processFail o.w
      ⟨false, q.1, o.evs ++ q.2, o.fs⟩

/-- `editEntries` (used by undo of EditCategory): apply the captured
entries in order, stopping at the first failure. -/
def editEntries (w : W) (ds : List Entry) (flds : List Fields) (now : Int) (fs : List Bool) :
    W × List Ev × List Bool :=
  match ds, flds with
  | d :: ds', f :: fl' =>
    let o := editEntry w (toSync d) f now fs
    if o.ok then
      let r := editEntries o.w ds' fl' now o.fs
      (r.1, o.evs ++ r.2.1, r.2.2)
    else (o.w, o.evs, o.fs)
  | _, _ => (w, [], fs)

/-- The loop body of `insertData(QVector)`: insert each entry; on a
sub-failure roll the database back to `db0` (the in-memory size and
category updates are not rolled back, as in the source); at the end the
COMMIT consumes one schedule entry. -/
def insertDataGo (w : W) (db0 : DB) (ds : List Entry) (now : Int) (fs : List Bool) : Out :=
  match ds with
  | [] =>
    let p := stepFail fs
    if p.1 then ⟨false, { w with db := db0 }, [.error], p.2⟩
    else ⟨true, w, [], p.2⟩
  | d :: ds' =>
    let o := insertData1 w (toSync d) now fs
    if o.ok then
      let o' := insertDataGo o.w db0 ds' now o.fs
      ⟨o'.ok, o'.w, o.evs ++ o'.evs, o'.fs⟩
    else ⟨false, { o.w with db := db0 }, o.evs, o.fs⟩

/-- `insertData(QVector)`: one transaction around the bulk insert. -/
def insertDataV (w : W) (ds : List Entry) (now : Int) (fs : List Bool) : Out :=
  insertDataGo w w.db ds now fs

/-! The sync engine. -/

/-- The `removedData` classification loop of `sync`: skip when the
locally-authoritative record has mtime greater or equal, otherwise collect
`(removedNew, removedOld)` (with a default-constructed record when there
is no local one). -/
def classifyRemoved (db : DB) (rem : List SyncData) : List SyncData × List SyncData :=
  match rem with
  | [] => ([], [])
  | e :: es =>
    let r := classifyRemoved db es
    match getSyncAffected db e.uuid with
    | some a => if e.mtD ≤ a.mtD then r else (e :: r.1, a :: r.2)
    | none => (e :: r.1, emptySync :: r.2)

/-- The `updatedData` classification loop of `sync`: skip when local wins;
classify as insert when there is no local record or it is a tombstone,
as update when the local record is a live row.  Result:
`(insertedNew, insertedOld, updatedNew, updatedOld)`. -/
def classifyUpdated (db : DB) (upd : List SyncData) :
    List SyncData × List SyncData × List SyncData × List SyncData :=
  match upd with
  | [] => ([], [], [], [])
  | e :: es =>
    let r := classifyUpdated db es
    match getSyncAffected db e.uuid with
    | some a =>
      if e.mtD ≤ a.mtD then r
      else if a.isValid then (r.1, r.2.1, e :: r.2.2.1, a :: r.2.2.2)
      else (e :: r.1, a :: r.2.1, r.2.2.1, r.2.2.2)
    | none => (e :: r.1, emptySync :: r.2.1, r.2.2.1, r.2.2.2)

/-- `removedMerged`: the local old record with the peer's uuid and mtime
substituted (the rows actually tombstoned). -/
def removedMerged (rNew rOld : List SyncData) : List SyncData :=
  (List.zip rOld rNew).map (fun p => { p.1 with uuid := p.2.uuid, mtime := p.2.mtime })

/-- The removed-phase loop of `syncData`. -/
def syncRemLoop (w : W) (rs : List SyncData) (now : Int) (fs : List Bool) : Out :=
  match rs with
  | [] => ⟨true, w, [], fs⟩
  | r :: rs' =>
    let o := removeData w r now fs
    if o.ok then
      let o' := syncRemLoop o.w rs' now o.fs
      ⟨o'.ok, o'.w, o.evs ++ o'.evs, o'.fs⟩
    else ⟨false, o.w, o.evs, o.fs⟩

/-- The inserted-phase loop of `syncData`. -/
def syncInsLoop (w : W) (rs : List SyncData) (now : Int) (fs : List Bool) : Out :=
  match rs with
  | [] => ⟨true, w, [], fs⟩
  | r :: rs' =>
    let o := insertData1 w r now fs
    if o.ok then
      let o' := syncInsLoop o.w rs' now o.fs
      ⟨o'.ok, o'.w, o.evs ++ o'.evs, o'.fs⟩
    else ⟨false, o.w, o.evs, o.fs⟩

/-- The updated-phase loop of `syncData` (each update with
`AllFieldsMask`). -/
def syncUpdLoop (w : W) (rs : List SyncData) (now : Int) (fs : List Bool) : Out :=
  match rs with
  | [] => ⟨true, w, [], fs⟩
  | r :: rs' =>
    let o := editData w r allFields now fs
    if o.ok then
      let o' := syncUpdLoop o.w rs' now o.fs
      ⟨o'.ok, o'.w, o.evs ++ o'.evs, o'.fs⟩
    else ⟨false, o.w, o.evs, o.fs⟩

/-- Diff of two sync records into a notification field mask. -/
def diffFields (n o : SyncData) : Fields :=
  ⟨n.start ≠ o.start, n.category ≠ o.category, n.comment ≠ o.comment⟩

/-- The post-commit notifications of `syncData`: `dataRemoved` for each
valid removed record, their remove windows, `dataInserted` plus insert
windows, and diffed update notifications using the old start. -/
def postSyncEvents (db : DB) (removed inserted updNew updOld : List SyncData) : List Ev :=
  (removed.filter (·.isValid)).map (.dataRemoved ·)
  ++ ((removed.filter (·.isValid)).map (fun r => notifyRemoveUpdates db (r.start.getD 0))).flatten
  ++ inserted.map (.dataInserted ·)
  ++ (inserted.map (fun r => notifyInsertUpdates db (r.start.getD 0))).flatten
  ++ ((List.zip updNew updOld).map (fun p =>
        notifyEditUpdates db (diffFields p.1 p.2) (p.1.start.getD 0) p.2.start)).flatten

/-- `syncData`: one transaction over the three merge loops; rollback on
any sub-failure or on COMMIT failure (one schedule entry); post-commit
notifications on success. -/
def syncDataFn (w : W) (removed inserted updNew updOld : List SyncData) (now : Int)
    (fs : List Bool) : Out :=
  let db0 := w.db
  let o1 := syncRemLoop w removed now fs
  if ¬ o1.ok then ⟨false, { o1.w with db := db0 }, o1.evs, o1.fs⟩ else
  let o2 := syncInsLoop o1.w inserted now o1.fs
  if ¬ o2.ok then ⟨false, { o2.w with db := db0 }, o1.evs ++ o2.evs, o2.fs⟩ else
  let o3 := syncUpdLoop o2.w updNew now o2.fs
  if ¬ o3.ok then ⟨false, { o3.w with db := db0 }, o1.evs ++ o2.evs ++ o3.evs, o3.fs⟩ else
  let p := stepFail o3.fs
  if p.1 then ⟨false, { o3.w with db := db0 }, o1.evs ++ o2.evs ++ o3.evs ++ [.error], p.2⟩
  else ⟨true, o3.w, o1.evs ++ o2.evs ++ o3.evs
    ++ postSyncEvents o3.w.db removed inserted updNew updOld, p.2⟩

/-- `pushUndo`: append the frame; past `maxUndoSize` trim the oldest
frame without emitting, otherwise emit the new count. -/
def pushUndo (w : W) (fr : Frame) : W × List Ev :=
  let st := w.undoStack ++ [fr]
  if maxUndoSize < st.length then ({ w with undoStack := st.tail }, [])
  else ({ w with undoStack := st }, [.undoCountChanged st.length])

/-! The command interface. -/

inductive Cmd where
  | cInsert (d : Entry)
  | cImport (ds : List Entry)
  | cRemove (d : Entry)
  | cEdit (d : Entry) (f : Fields)
  | cEditCategory (oldN newN : String)
  | cSync (upd rem : List SyncData)
  | cUndo
deriving DecidableEq

/-- One worker command dispatched at wall-clock time `now` (milliseconds;
`start` values bind the corresponding seconds) with failure schedule
`fs`. -/
def runCmd (w : W) (c : Cmd) (now : Int) (fs : List Bool) : W × List Ev :=
  match c with
  | .cInsert d =>
    let q := pushUndo w ⟨.uInsert, [d], []⟩
    let o := insertEntry q.1 (toSync d) now fs
    (o.w, q.2 ++ o.evs)
  | .cImport ds =>
    let o := insertDataV w ds now fs
    if o.ok then (o.w, o.evs ++ [.dataImported ds])
    else
      let q := processFail o.w
      (q.1, o.evs ++ q.2)
  | .cRemove d =>
    let prev := getEntry w.db d.uuid
    let q := pushUndo w ⟨.uRemove, [prev], []⟩
    let o := removeEntry q.1 (toSync d) now fs
    (o.w, q.2 ++ o.evs)
  | .cEdit d f =>
    let prev := getEntry w.db d.uuid
    let q := pushUndo w ⟨.uEdit, [prev], [f]⟩
    let o := editEntry q.1 (toSync d) f now fs
    (o.w, q.2 ++ o.evs)
  | .cEditCategory oldN newN =>
    if newN = "" then (w, [.error])
    else if oldN = newN then (w, [])
    else
      let es := getEntries w.db oldN
      let q := pushUndo w ⟨.uEditCategory, es, es.map (fun _ => categoryField)⟩
      let o := editCategoryData q.1 oldN newN now fs
      if o.ok then (o.w, q.2 ++ o.evs ++ [.dataOutdated])
      else
        let q' := processFail o.w
        (q'.1, q.2 ++ o.evs ++ q'.2)
  | .cSync upd rem =>
    let cr := classifyRemoved w.db rem
    let cu := classifyUpdated w.db upd
    let stats := [Ev.syncStatsAvailable cr.2 cr.1 cu.2.1 cu.1 cu.2.2.2 cu.2.2.1]
    let o := syncDataFn w (removedMerged cr.1 cr.2) cu.1 cu.2.2.1 cu.2.2.2 now fs
    if o.ok then (o.w, stats ++ o.evs ++ [.dataSynced])
    else (o.w, stats ++ o.evs)
  | .cUndo =>
    match w.undoStack.getLast? with
    | none => (w, [])
    | some fr =>
      let w1 := { w with undoStack := w.undoStack.dropLast }
      match fr.kind with
      | .uInsert =>
        let o := removeEntry w1 (toSync (fr.data.headD emptyEntry)) now fs
        (o.w, o.evs ++ [.undoCountChanged o.w.undoStack.length])
      | .uRemove =>
        let o := insertEntry w1 (toSync (fr.data.headD emptyEntry)) now fs
        (o.w, o.evs ++ [.undoCountChanged o.w.undoStack.length])
      | .uEdit =>
        let o := editEntry w1 (toSync (fr.data.headD emptyEntry)) (fr.fields.headD noFields)
          now fs
        (o.w, o.evs ++ [.undoCountChanged o.w.undoStack.length])
      | .uEditCategory =>
        let r := editEntries w1 fr.data fr.fields now fs
        (r.1, r.2.1 ++ [.undoCountChanged r.1.undoStack.length])

/-- One dispatched command with its wall-clock time and failure
schedule. -/
structure Step where
  cmd : Cmd
  now : Int
  fs : List Bool

/-- Run a command sequence from the freshly-initialised worker on an empty
database. -/
def execSteps (steps : List Step) : W :=
  steps.foldl (fun w st => (runCmd w st.cmd st.now st.fs).1) initW

/-! The invariants. -/

/-- Strict ordering of two rows by `start`. -/
def ltS (a b : Row) : Prop := a.start < b.start

/-- The derived-duration relation between two adjacent rows. -/
def DR (a b : Row) : Prop := a.duration = b.start - a.start

/-- The table is sorted strictly ascending by `start` (so `start` is
unique). -/
def sortedT (l : List Row) : Prop := List.Chain' ltS l

/-- All durations are canonical: each row's duration is the gap to its
successor, and the last row is open-ended (`-1`). -/
def durOk (l : List Row) : Prop :=
  List.Chain' DR l ∧ ∀ x ∈ l.getLast?, x.duration = -1

/-- Database invariant: sorted starts, canonical durations, unique uuids
in both tables, and uuid-disjointness of `timelog` and `removed`. -/
def InvDB (db : DB) : Prop :=
  sortedT db.timelog ∧ durOk db.timelog ∧
  (db.timelog.map (·.uuid)).Nodup ∧ (db.removed.map (·.1)).Nodup ∧
  ∀ r ∈ db.timelog, ∀ t ∈ db.removed, r.uuid ≠ t.1

/-- Worker invariant: the database invariant plus the undo-stack bound. -/
def InvW (w : W) : Prop := InvDB w.db ∧ w.undoStack.length ≤ maxUndoSize

/-! Toolkit: evaluating the SQL lookups on decomposed sorted lists. -/

instance : IsTrans Row ltS := ⟨fun _ _ _ h1 h2 => lt_trans h1 h2⟩

instance : DecidableRel ltS := fun a b => Int.decLt a.start b.start

instance (l : List Row) : Decidable (sortedT l) :=
  inferInstanceAs (Decidable (List.Chain' ltS l))

theorem sortedT_pairwise {l : List Row} (h : sortedT l) : List.Pairwise ltS l :=
  List.chain'_iff_pairwise.mp h

theorem pairwise_sortedT {l : List Row} (h : List.Pairwise ltS l) : sortedT l :=
  List.chain'_iff_pairwise.mpr h

theorem starts_setDurAt (l : List Row) (s d : Int) : starts (setDurAt l s d) = starts l := by
  unfold starts setDurAt
  rw [List.map_map]
  apply List.map_congr_left
  intro r _
  by_cases h : r.start = s <;> simp [h]

theorem uuids_setDurAt (l : List Row) (s d : Int) :
    (setDurAt l s d).map (·.uuid) = l.map (·.uuid) := by
  unfold setDurAt
  rw [List.map_map]
  apply List.map_congr_left
  intro r _
  by_cases h : r.start = s <;> simp [h]

theorem setDurAt_append (l₁ l₂ : List Row) (s d : Int) :
    setDurAt (l₁ ++ l₂) s d = setDurAt l₁ s d ++ setDurAt l₂ s d :=
  List.map_append _ _ _

theorem setDurAt_of_forall_ne {l : List Row} {s : Int} (d : Int)
    (h : ∀ r ∈ l, r.start ≠ s) : setDurAt l s d = l := by
  unfold setDurAt
  conv_rhs => rw [← List.map_id l]
  apply List.map_congr_left
  intro r hr
  simp [h r hr]

theorem setDurAt_surgical (l₁ l₂ : List Row) (y : Row) (d : Int)
    (h₁ : ∀ r ∈ l₁, r.start ≠ y.start) (h₂ : ∀ r ∈ l₂, r.start ≠ y.start) :
    setDurAt (l₁ ++ y :: l₂) y.start d = l₁ ++ { y with duration := d } :: l₂ := by
  rw [setDurAt_append, setDurAt_of_forall_ne d h₁]
  congr 1
  show setDurAt (y :: l₂) y.start d = _
  unfold setDurAt
  simp only [List.map_cons, if_pos rfl]
  congr 1
  exact setDurAt_of_forall_ne d h₂

theorem filter_eval_mid {p : Row → Bool} (l₁ l₂ : List Row)
    (h₁ : ∀ r ∈ l₁, p r = true) (h₂ : ∀ r ∈ l₂, p r = false) :
    (l₁ ++ l₂).filter p = l₁ := by
  rw [List.filter_append, List.filter_eq_self.mpr h₁, List.filter_eq_nil_iff.mpr ?_,
    List.append_nil]
  intro a ha
  simp [h₂ a ha]

theorem maxBelow_eval (l₁ l₂ : List Row) (s : Int)
    (h₁ : ∀ r ∈ l₁, r.start < s) (h₂ : ∀ r ∈ l₂, ¬ r.start < s) :
    maxBelow (l₁ ++ l₂) s = l₁.getLast? := by
  unfold maxBelow
  rw [filter_eval_mid l₁ l₂ (by intro r hr; simpa using h₁ r hr)
    (by intro r hr; simpa using h₂ r hr)]

theorem minAbove_eval (l₁ l₂ : List Row) (s : Int)
    (h₁ : ∀ r ∈ l₁, ¬ s < r.start) (h₂ : ∀ r ∈ l₂, s < r.start) :
    minAbove (l₁ ++ l₂) s = l₂.head? := by
  unfold minAbove
  rw [List.filter_append, List.filter_eq_nil_iff.mpr (by intro a ha; simpa using h₁ a ha),
    List.filter_eq_self.mpr (by intro a ha; simpa using h₂ a ha), List.nil_append]

theorem insertByStart_eval (l₁ l₂ : List Row) (x : Row)
    (h₁ : ∀ r ∈ l₁, r.start < x.start) (h₂ : ∀ r ∈ l₂, x.start < r.start) :
    insertByStart (l₁ ++ l₂) x = l₁ ++ x :: l₂ := by
  unfold insertByStart
  induction l₁ with
  | nil =>
    simp only [List.nil_append]
    cases l₂ with
    | nil => rfl
    | cons b t =>
      have hb : ¬ b.start < x.start := not_lt_of_gt (h₂ b (by simp))
      rw [List.takeWhile_cons_of_neg (by simpa using hb),
        List.dropWhile_cons_of_neg (by simpa using hb)]
      simp
  | cons a t ih =>
    have ha : a.start < x.start := h₁ a (by simp)
    simp only [List.cons_append]
    rw [List.takeWhile_cons_of_pos (by simpa using ha),
      List.dropWhile_cons_of_pos (by simpa using ha)]
    have := ih (fun r hr => h₁ r (by simp [hr]))
    simp only [List.cons_append, List.append_assoc] at this ⊢
    rw [this]

/-- Range facts from a sorted list decomposed around a middle element, and
sortedness of the list with the middle element removed. -/
theorem sortedT_mid (l₁ l₂ : List Row) (x : Row) (h : sortedT (l₁ ++ x :: l₂)) :
    (∀ r ∈ l₁, r.start < x.start) ∧ (∀ r ∈ l₂, x.start < r.start) ∧ sortedT (l₁ ++ l₂) := by
  have hp := sortedT_pairwise h
  rw [List.pairwise_append] at hp
  obtain ⟨hp₁, hp₂, hcross⟩ := hp
  rw [List.pairwise_cons] at hp₂
  refine ⟨fun r hr => hcross r hr x (by simp), fun r hr => hp₂.1 r hr, ?_⟩
  apply pairwise_sortedT
  rw [List.pairwise_append]
  exact ⟨hp₁, hp₂.2, fun a ha b hb => hcross a ha b (by simp [hb])⟩

/-- A sorted list splits at any start value into the strictly-below part
and the rest. -/
theorem sorted_split (l : List Row) (s : Int) (hs : sortedT l) :
    ∃ l₁ l₂, l = l₁ ++ l₂ ∧ (∀ r ∈ l₁, r.start < s) ∧ (∀ r ∈ l₂, ¬ r.start < s) := by
  refine ⟨l.takeWhile (fun a => decide (a.start < s)), l.dropWhile (fun a => decide (a.start < s)),
    (List.takeWhile_append_dropWhile _ _).symm, ?_, ?_⟩
  · intro r hr
    have := List.mem_takeWhile_imp hr
    simpa using this
  · induction l with
    | nil => simp
    | cons a t ih =>
      by_cases ha : a.start < s
      · rw [List.dropWhile_cons_of_pos (by simpa using ha)]
        exact ih (hs.tail)
      · rw [List.dropWhile_cons_of_neg (by simpa using ha)]
        intro r hr
        rcases List.mem_cons.mp hr with h | h
        · subst h; exact ha
        · have hp := sortedT_pairwise hs
          rw [List.pairwise_cons] at hp
          have := hp.1 r h
          intro hlt
          exact ha (lt_trans this hlt)

/-! Toolkit: the derived-duration chain. -/

theorem DR_congr_right {a b b' : Row} (h : DR a b) (hs : b.start = b'.start) : DR a b' := by
  unfold DR at *
  rw [← hs]
  exact h

/-- Edges into a node survive a duration rewrite of that node. -/
theorem lastEdge_congr {l₁ : List Row} {b b' : Row}
    (h : ∀ a ∈ l₁.getLast?, DR a b) (hs : b.start = b'.start) :
    ∀ a ∈ l₁.getLast?, DR a b' :=
  fun a ha => DR_congr_right (h a ha) hs

theorem chain'_DR_concat_mod {P : List Row} {p q : Row} (hst : q.start = p.start)
    (h : List.Chain' DR (P ++ [p])) : List.Chain' DR (P ++ [q]) := by
  rw [List.chain'_append] at h ⊢
  refine ⟨h.1, List.chain'_singleton _, ?_⟩
  intro a ha b hb
  simp only [List.head?_cons, Option.mem_def, Option.some.injEq] at hb
  subst hb
  exact DR_congr_right (h.2.2 a ha p (by simp)) hst.symm

/-! Canonicity of the trigger repairs. -/

/-- Assemble canonicity of a table of the form `A ++ z :: C` from its
pieces. -/
theorem durOk_build (A : List Row) (z : Row) (C : List Row)
    (hcA : List.Chain' DR A) (hcC : List.Chain' DR C)
    (hAz : ∀ a ∈ A.getLast?, DR a z)
    (hzC : ∀ c ∈ C.head?, DR z c)
    (hzLast : C = [] → z.duration = -1)
    (hlastC : ∀ y ∈ C.getLast?, y.duration = -1) :
    durOk (A ++ z :: C) := by
  constructor
  · rw [List.chain'_append]
    refine ⟨hcA, List.chain'_cons'.mpr ⟨hzC, hcC⟩, ?_⟩
    intro a ha b hb
    simp only [List.head?_cons, Option.mem_def, Option.some.injEq] at hb
    subst hb
    exact hAz a ha
  · intro y hy
    rw [List.getLast?_append_of_ne_nil _ (by simp)] at hy
    cases C with
    | nil =>
      simp only [List.getLast?_singleton, Option.mem_def, Option.some.injEq] at hy
      subst hy
      exact hzLast rfl
    | cons c Cs =>
      rw [List.getLast?_cons_cons] at hy
      exact hlastC y hy

/-! Evaluating the repair stages on decomposed lists. -/

theorem predFix_eval_none (l : List Row) (s : Int) (h : ∀ r ∈ l, ¬ r.start < s) :
    predFix l s = l := by
  unfold predFix maxBelow
  rw [List.filter_eq_nil_iff.mpr (by intro a ha; simpa using h a ha)]
  rfl

theorem predFix_eval_concat (l₁ l₂ : List Row) (p : Row) (s : Int)
    (hlt : ∀ r ∈ l₁ ++ [p], r.start < s) (hge : ∀ r ∈ l₂, ¬ r.start < s)
    (hne₁ : ∀ r ∈ l₁, r.start ≠ p.start) (hne₂ : ∀ r ∈ l₂, r.start ≠ p.start) :
    predFix ((l₁ ++ [p]) ++ l₂) s = (l₁ ++ [{ p with duration := s - p.start }]) ++ l₂ := by
  unfold predFix
  rw [maxBelow_eval _ _ _ hlt hge, List.getLast?_concat]
  show setDurAt ((l₁ ++ [p]) ++ l₂) p.start (s - p.start) = _
  have := setDurAt_surgical l₁ l₂ p (s - p.start) hne₁ hne₂
  simp only [List.append_assoc, List.singleton_append] at this ⊢
  exact this

theorem selfFix_eval_last (l₁ : List Row) (z : Row)
    (h₁ : ∀ r ∈ l₁, ¬ z.start < r.start) (hne₁ : ∀ r ∈ l₁, r.start ≠ z.start) :
    selfFix (l₁ ++ [z]) z.start = l₁ ++ [{ z with duration := -1 }] := by
  unfold selfFix
  have hma : minAbove (l₁ ++ [z]) z.start = none := by
    have := minAbove_eval (l₁ ++ [z]) [] z.start ?_ (by simp)
    · simpa using this
    · intro r hr
      rcases List.mem_append.mp hr with hr | hr
      · exact h₁ r hr
      · simp only [List.mem_singleton] at hr
        subst hr
        exact lt_irrefl _
  rw [hma]
  show setDurAt (l₁ ++ [z]) z.start (-1) = _
  exact setDurAt_surgical l₁ [] z (-1) hne₁ (by simp)

theorem selfFix_eval_mid (l₁ : List Row) (z q : Row) (Q : List Row)
    (h₁ : ∀ r ∈ l₁, ¬ z.start < r.start) (h₂ : ∀ r ∈ q :: Q, z.start < r.start)
    (hne₁ : ∀ r ∈ l₁, r.start ≠ z.start) :
    selfFix (l₁ ++ z :: q :: Q) z.start
      = l₁ ++ { z with duration := q.start - z.start } :: q :: Q := by
  unfold selfFix
  have hma : minAbove (l₁ ++ z :: q :: Q) z.start = some q := by
    have := minAbove_eval (l₁ ++ [z]) (q :: Q) z.start ?_ h₂
    · simpa using this
    · intro r hr
      rcases List.mem_append.mp hr with hr | hr
      · exact h₁ r hr
      · simp only [List.mem_singleton] at hr
        subst hr
        exact lt_irrefl _
  rw [hma]
  show setDurAt (l₁ ++ z :: q :: Q) z.start (q.start - z.start) = _
  exact setDurAt_surgical l₁ (q :: Q) z _ hne₁ (fun r hr => ne_of_gt (h₂ r hr))

theorem updStmt2_skip (tl : List Row) (oldS newS : Int)
    (h : (maxBelow tl oldS).map (·.start) = (maxBelow tl newS).map (·.start)) :
    updStmt2 tl oldS newS = tl := by
  unfold updStmt2
  rw [← h]
  cases (maxBelow tl oldS).map (·.start) with
  | none => rfl
  | some a => simp

theorem updStmt2_skip_none (tl : List Row) (oldS newS : Int)
    (h : maxBelow tl oldS = none) : updStmt2 tl oldS newS = tl := by
  unfold updStmt2
  rw [h]
  rfl

theorem updStmt2_hit_some (tl : List Row) (oldS newS : Int) (a nx : Row)
    (hmb : maxBelow tl oldS = some a)
    (hne : ∀ b ∈ (maxBelow tl newS).map (·.start), b ≠ a.start)
    (hma : minAbove tl oldS = some nx) :
    updStmt2 tl oldS newS = setDurAt tl a.start (nx.start - a.start) := by
  unfold updStmt2
  rw [hmb, hma]
  cases h2 : (maxBelow tl newS).map (·.start) with
  | none => rfl
  | some b =>
    have hb : b ≠ a.start := hne b (by simp [h2])
    simp only [Option.map_some']
    rw [if_neg (fun he : a.start = b => hb he.symm)]

theorem updStmt2_hit_none (tl : List Row) (oldS newS : Int) (a : Row)
    (hmb : maxBelow tl oldS = some a)
    (hne : ∀ b ∈ (maxBelow tl newS).map (·.start), b ≠ a.start)
    (hma : minAbove tl oldS = none) :
    updStmt2 tl oldS newS = setDurAt tl a.start (-1) := by
  unfold updStmt2
  rw [hmb, hma]
  cases h2 : (maxBelow tl newS).map (·.start) with
  | none => rfl
  | some b =>
    have hb : b ≠ a.start := hne b (by simp [h2])
    simp only [Option.map_some']
    rw [if_neg (fun he : a.start = b => hb he.symm)]

/-- When the start value does not move, statement 2 of `update_timelog`
touches no row and the whole repair coincides with the insert repair. -/
theorem updTrigRepair_eq_self (tl : List Row) (s : Int) :
    updTrigRepair tl s s = insTrigRepair tl s := by
  unfold updTrigRepair insTrigRepair
  rw [updStmt2_skip _ _ _ rfl]

/-- `insert_timelog` restores canonical durations.  The hypotheses only
constrain the two flanks separately; the edge between them, which the
repair overwrites, is not needed, so the lemma also serves the
start-update trigger when the start value does not move. -/
theorem durOk_insRepair (l₁ l₂ : List Row) (x : Row)
    (hsrt₁ : sortedT l₁)
    (h₁ : ∀ r ∈ l₁, r.start < x.start) (h₂ : ∀ r ∈ l₂, x.start < r.start)
    (hc₁ : List.Chain' DR l₁) (hc₂ : List.Chain' DR l₂)
    (hlast : ∀ y ∈ l₂.getLast?, y.duration = -1) :
    durOk (insTrigRepair (l₁ ++ x :: l₂) x.start) := by
  unfold insTrigRepair
  have hgex : ∀ r ∈ x :: l₂, ¬ r.start < x.start := by
    intro r hr
    rcases List.mem_cons.mp hr with h | h
    · subst h; exact lt_irrefl _
    · exact not_lt_of_gt (h₂ r h)
  rcases l₁.eq_nil_or_concat' with hnil | ⟨P, p, hP⟩
  · subst hnil
    rw [show ([] : List Row) ++ x :: l₂ = x :: l₂ from rfl,
      predFix_eval_none _ _ hgex]
    cases l₂ with
    | nil =>
      rw [show (x :: [] : List Row) = [] ++ [x] from rfl, selfFix_eval_last [] x
        (by simp) (by simp)]
      exact ⟨List.chain'_singleton _, by simp⟩
    | cons q Q =>
      rw [show (x :: q :: Q : List Row) = [] ++ x :: q :: Q from rfl,
        selfFix_eval_mid [] x q Q (by simp) h₂ (by simp)]
      have hb := durOk_build [] { x with duration := q.start - x.start } (q :: Q)
        List.chain'_nil hc₂ (by simp) ?_ (by simp) hlast
      · simpa using hb
      · intro c hcp
        simp only [List.head?_cons, Option.mem_def, Option.some.injEq] at hcp
        subst hcp
        show _ = q.start - _
        rfl
  · subst hP
    have hPlt : ∀ r ∈ P, r.start < p.start := by
      have hp := sortedT_pairwise hsrt₁
      rw [List.pairwise_append] at hp
      intro r hr
      exact hp.2.2 r hr p (by simp)
    have hpx : p.start < x.start := h₁ p (by simp)
    have hpf : predFix ((P ++ [p]) ++ x :: l₂) x.start
        = (P ++ [{ p with duration := x.start - p.start }]) ++ x :: l₂ :=
      predFix_eval_concat P (x :: l₂) p x.start h₁ hgex
        (fun r hr => ne_of_lt (hPlt r hr))
        (by
          intro r hr
          rcases List.mem_cons.mp hr with h | h
          · subst h; exact ne_of_gt hpx
          · exact ne_of_gt (lt_trans hpx (h₂ r h)))
    rw [hpf]
    set p' : Row := { p with duration := x.start - p.start } with hp'
    have hnget : ∀ r ∈ P ++ [p'], ¬ x.start < r.start := by
      intro r hr
      rcases List.mem_append.mp hr with hr | hr
      · exact not_lt_of_gt (lt_trans (hPlt r hr) hpx)
      · simp only [List.mem_singleton] at hr
        subst hr
        exact not_lt_of_gt hpx
    have hnes : ∀ r ∈ P ++ [p'], r.start ≠ x.start := by
      intro r hr
      rcases List.mem_append.mp hr with hr | hr
      · exact ne_of_lt (lt_trans (hPlt r hr) hpx)
      · simp only [List.mem_singleton] at hr
        subst hr
        exact ne_of_lt hpx
    have hchainP : List.Chain' DR (P ++ [p']) :=
      chain'_DR_concat_mod (P := P) (p := p) (q := p') rfl hc₁
    have hAz : ∀ a ∈ (P ++ [p']).getLast?, ∀ z : Row, z.start = x.start → DR a z := by
      intro a ha z hz
      simp only [List.getLast?_concat, Option.mem_def, Option.some.injEq] at ha
      subst ha
      show p'.duration = z.start - p'.start
      rw [hz]
    cases l₂ with
    | nil =>
      rw [show (P ++ [p']) ++ x :: ([] : List Row) = (P ++ [p']) ++ [x] from rfl,
        selfFix_eval_last (P ++ [p']) x hnget hnes]
      exact durOk_build (P ++ [p']) _ [] hchainP List.chain'_nil
        (fun a ha => hAz a ha _ rfl) (by simp) (fun _ => rfl) (by simp)
    | cons q Q =>
      rw [selfFix_eval_mid (P ++ [p']) x q Q hnget h₂ hnes]
      refine durOk_build (P ++ [p']) _ (q :: Q) hchainP hc₂
        (fun a ha => hAz a ha _ rfl) ?_ (by simp) hlast
      intro c hcp
      simp only [List.head?_cons, Option.mem_def, Option.some.injEq] at hcp
      subst hcp
      show _ = q.start - _
      rfl

/-- `delete_timelog` restores canonical durations: removing a row from a
canonical table and running the trigger's UPDATE yields a canonical
table. -/
theorem durOk_delRepair (l₁ l₂ : List Row) (x : Row)
    (hsrt : sortedT (l₁ ++ x :: l₂)) (hOk : durOk (l₁ ++ x :: l₂)) :
    durOk (delTrigRepair (l₁ ++ l₂) x.start) := by
  obtain ⟨h₁, h₂, hsrt'⟩ := sortedT_mid l₁ l₂ x hsrt
  have hmb : maxBelow (l₁ ++ l₂) x.start = l₁.getLast? :=
    maxBelow_eval _ _ _ h₁ (fun r hr => not_lt_of_gt (h₂ r hr))
  unfold delTrigRepair
  rw [hmb]
  have hin := hOk.1
  rw [List.chain'_append] at hin
  rcases l₁.eq_nil_or_concat' with hnil | ⟨P, p, hP⟩
  · subst hnil
    simp only [List.getLast?_nil, List.nil_append]
    constructor
    · exact (List.chain'_cons'.mp hin.2.1).2
    · intro y hy
      cases l₂ with
      | nil => simp at hy
      | cons q Q =>
        apply hOk.2
        simp only [List.nil_append, List.getLast?_cons_cons]
        simpa using hy
  · subst hP
    simp only [List.getLast?_concat]
    have hma : minAbove ((P ++ [p]) ++ l₂) x.start = l₂.head? :=
      minAbove_eval _ _ _ (fun r hr => not_lt_of_gt (h₁ r hr)) h₂
    rw [hma]
    have hPlt : ∀ r ∈ P, r.start < p.start := by
      have hp := sortedT_pairwise (l := (P ++ [p]) ++ x :: l₂) hsrt
      rw [List.pairwise_append] at hp
      have hp1 := hp.1
      rw [List.pairwise_append] at hp1
      intro r hr
      exact hp1.2.2 r hr p (by simp)
    have hccP : List.Chain' DR (P ++ [p]) := hin.1
    have hppx : p.start < x.start := h₁ p (by simp)
    cases l₂ with
    | nil =>
      simp only [List.head?_nil]
      have hsur : setDurAt ((P ++ [p]) ++ ([] : List Row)) p.start (-1)
          = P ++ [{ p with duration := -1 }] := by
        have := setDurAt_surgical P [] p (-1) (fun r hr => ne_of_lt (hPlt r hr)) (by simp)
        simpa using this
      rw [hsur]
      constructor
      · exact chain'_DR_concat_mod (P := P) (p := p)
          (q := { p with duration := -1 }) rfl hccP
      · intro y hy
        simp only [List.getLast?_concat, Option.mem_def, Option.some.injEq] at hy
        subst hy
        rfl
    | cons q Q =>
      simp only [List.head?_cons]
      have hsur : setDurAt ((P ++ [p]) ++ q :: Q) p.start (q.start - p.start)
          = (P ++ [{ p with duration := q.start - p.start }]) ++ q :: Q := by
        have := setDurAt_surgical P (q :: Q) p (q.start - p.start)
          (fun r hr => ne_of_lt (hPlt r hr))
          (fun r hr => ne_of_gt (lt_trans hppx (h₂ r hr)))
        simp only [List.append_assoc, List.cons_append, List.singleton_append] at this ⊢
        exact this
      rw [hsur]
      constructor
      · rw [List.chain'_append]
        refine ⟨chain'_DR_concat_mod (P := P) (p := p)
          (q := { p with duration := q.start - p.start }) rfl hccP,
          (List.chain'_cons'.mp hin.2.1).2, ?_⟩
        intro a ha b hb
        simp only [List.getLast?_concat, Option.mem_def, Option.some.injEq] at ha
        simp only [List.head?_cons, Option.mem_def, Option.some.injEq] at hb
        subst ha; subst hb
        show _ = q.start - p.start
        rfl
      · intro y hy
        rw [List.getLast?_append_of_ne_nil _ (by simp)] at hy
        apply hOk.2
        rw [List.getLast?_append_of_ne_nil _ (by simp)]
        simp only [List.getLast?_cons_cons]
        simpa using hy



/-- Final stage of the trigger repairs: the moved/new row's own duration
fix followed by reassembly of canonicity. -/
theorem durOk_selfFix_build (A : List Row) (x' : Row) (C : List Row)
    (hA : ∀ r ∈ A, r.start < x'.start) (hC : ∀ r ∈ C, x'.start < r.start)
    (hcA : List.Chain' DR A)
    (hAz : ∀ a ∈ A.getLast?, ∀ z : Row, z.start = x'.start → DR a z)
    (hcC : List.Chain' DR C) (hlastC : ∀ y ∈ C.getLast?, y.duration = -1) :
    durOk (selfFix (A ++ x' :: C) x'.start) := by
  cases C with
  | nil =>
    rw [show A ++ x' :: ([] : List Row) = A ++ [x'] from rfl,
      selfFix_eval_last A x' (fun r hr => not_lt_of_gt (hA r hr))
        (fun r hr => ne_of_lt (hA r hr))]
    exact durOk_build A _ [] hcA List.chain'_nil (fun a ha => hAz a ha _ rfl)
      (by simp) (fun _ => rfl) (by simp)
  | cons c Cs =>
    rw [selfFix_eval_mid A x' c Cs (fun r hr => not_lt_of_gt (hA r hr)) hC
      (fun r hr => ne_of_lt (hA r hr))]
    refine durOk_build A _ (c :: Cs) hcA hcC (fun a ha => hAz a ha _ rfl) ?_ (by simp) hlastC
    intro y hy
    simp only [List.head?_cons, Option.mem_def, Option.some.injEq] at hy
    subst hy
    show _ = c.start - _
    rfl

/-- `update_timelog` restores canonical durations when the row moves to a
later start.  `P` is below the old start, `B` strictly between old and
new, `C` above the new start; the table being repaired is the moved one,
`(P ++ B) ++ x' :: C`. -/
theorem durOk_updRepair_gt (P B C : List Row) (x x' : Row)
    (hxx : x.start < x'.start)
    (hP : ∀ r ∈ P, r.start < x.start)
    (hB1 : ∀ r ∈ B, x.start < r.start) (hB2 : ∀ r ∈ B, r.start < x'.start)
    (hC : ∀ r ∈ C, x'.start < r.start)
    (hsrtP : sortedT P) (hsrtB : sortedT B)
    (hcP : List.Chain' DR P) (hcB : List.Chain' DR B) (hcC : List.Chain' DR C)
    (hlastC : ∀ y ∈ C.getLast?, y.duration = -1) :
    durOk (updTrigRepair ((P ++ B) ++ x' :: C) x.start x'.start) := by
  unfold updTrigRepair
  rcases B.eq_nil_or_concat' with hBnil | ⟨B₀, m, hB⟩
  · subst hBnil
    rw [List.append_nil]
    rcases P.eq_nil_or_concat' with hPnil | ⟨P₀, p, hP₀⟩
    · subst hPnil
      rw [List.nil_append, predFix_eval_none (x' :: C) x'.start ?_]
      · rw [updStmt2_skip_none _ _ _ ?_]
        · have hb := durOk_selfFix_build [] x' C (by simp) hC List.chain'_nil
            (by simp) hcC hlastC
          simpa using hb
        · unfold maxBelow
          rw [List.filter_eq_nil_iff.mpr ?_]
          · rfl
          · intro r hr
            rcases List.mem_cons.mp hr with h | h
            · subst h
              simp [not_lt_of_gt hxx]
            · simp [not_lt_of_gt (lt_trans hxx (hC r h))]
      · intro r hr
        rcases List.mem_cons.mp hr with h | h
        · subst h
          exact lt_irrefl _
        · exact not_lt_of_gt (hC r h)
    · subst hP₀
      have hplt : p.start < x.start := hP p (by simp)
      have hP₀lt : ∀ r ∈ P₀, r.start < p.start := by
        have hpw := sortedT_pairwise hsrtP
        rw [List.pairwise_append] at hpw
        intro r hr
        exact hpw.2.2 r hr p (by simp)
      have hpf : predFix ((P₀ ++ [p]) ++ x' :: C) x'.start
          = (P₀ ++ [{ p with duration := x'.start - p.start }]) ++ x' :: C := by
        apply predFix_eval_concat P₀ (x' :: C) p x'.start
        · intro r hr
          rcases List.mem_append.mp hr with hr | hr
          · exact lt_trans (lt_trans (hP₀lt r hr) hplt) hxx
          · simp only [List.mem_singleton] at hr
            subst hr
            exact lt_trans hplt hxx
        · intro r hr
          rcases List.mem_cons.mp hr with h | h
          · subst h
            exact lt_irrefl _
          · exact not_lt_of_gt (hC r h)
        · exact fun r hr => ne_of_lt (hP₀lt r hr)
        · intro r hr
          rcases List.mem_cons.mp hr with h | h
          · subst h
            exact ne_of_gt (lt_trans hplt hxx)
          · exact ne_of_gt (lt_trans (lt_trans hplt hxx) (hC r h))
      rw [hpf]
      set p₁ : Row := { p with duration := x'.start - p.start } with hp₁
      have hmbo : maxBelow ((P₀ ++ [p₁]) ++ x' :: C) x.start = some p₁ := by
        rw [maxBelow_eval (P₀ ++ [p₁]) (x' :: C) x.start ?_ ?_]
        · exact List.getLast?_concat _
        · intro r hr
          rcases List.mem_append.mp hr with hr | hr
          · exact lt_trans (hP₀lt r hr) hplt
          · simp only [List.mem_singleton] at hr
            subst hr
            exact hplt
        · intro r hr
          rcases List.mem_cons.mp hr with h | h
          · subst h
            exact not_lt_of_gt hxx
          · exact not_lt_of_gt (lt_trans hxx (hC r h))
      have hmbn : maxBelow ((P₀ ++ [p₁]) ++ x' :: C) x'.start = some p₁ := by
        rw [maxBelow_eval (P₀ ++ [p₁]) (x' :: C) x'.start ?_ ?_]
        · exact List.getLast?_concat _
        · intro r hr
          rcases List.mem_append.mp hr with hr | hr
          · exact lt_trans (lt_trans (hP₀lt r hr) hplt) hxx
          · simp only [List.mem_singleton] at hr
            subst hr
            exact lt_trans hplt hxx
        · intro r hr
          rcases List.mem_cons.mp hr with h | h
          · subst h
            exact lt_irrefl _
          · exact not_lt_of_gt (hC r h)
      rw [updStmt2_skip _ _ _ (by rw [hmbo, hmbn])]
      apply durOk_selfFix_build (P₀ ++ [p₁]) x' C ?_ hC
        (chain'_DR_concat_mod (P := P₀) (p := p) (q := p₁) rfl hcP) ?_ hcC hlastC
      · intro r hr
        rcases List.mem_append.mp hr with hr | hr
        · exact lt_trans (lt_trans (hP₀lt r hr) hplt) hxx
        · simp only [List.mem_singleton] at hr
          subst hr
          exact lt_trans hplt hxx
      · intro a ha z hz
        simp only [List.getLast?_concat, Option.mem_def, Option.some.injEq] at ha
        subst ha
        show p₁.duration = z.start - p₁.start
        rw [hz]
  · subst hB
    have hm1 : x.start < m.start := hB1 m (by simp)
    have hm2 : m.start < x'.start := hB2 m (by simp)
    have hB₀lt : ∀ r ∈ B₀, r.start < m.start := by
      have hpw := sortedT_pairwise hsrtB
      rw [List.pairwise_append] at hpw
      intro r hr
      exact hpw.2.2 r hr m (by simp)
    have hassoc : (P ++ (B₀ ++ [m])) ++ x' :: C = ((P ++ B₀) ++ [m]) ++ x' :: C := by
      simp [List.append_assoc]
    rw [hassoc]
    have hpf : predFix (((P ++ B₀) ++ [m]) ++ x' :: C) x'.start
        = ((P ++ B₀) ++ [{ m with duration := x'.start - m.start }]) ++ x' :: C := by
      apply predFix_eval_concat (P ++ B₀) (x' :: C) m x'.start
      · intro r hr
        rcases List.mem_append.mp hr with hr | hr
        · rcases List.mem_append.mp hr with hr | hr
          · exact lt_trans (hP r hr) hxx
          · exact hB2 r (by simp [hr])
        · simp only [List.mem_singleton] at hr
          subst hr
          exact hm2
      · intro r hr
        rcases List.mem_cons.mp hr with h | h
        · subst h
          exact lt_irrefl _
        · exact not_lt_of_gt (hC r h)
      · intro r hr
        rcases List.mem_append.mp hr with hr | hr
        · exact ne_of_lt (lt_trans (hP r hr) hm1)
        · exact ne_of_lt (hB₀lt r hr)
      · intro r hr
        rcases List.mem_cons.mp hr with h | h
        · subst h
          exact ne_of_gt hm2
        · exact ne_of_gt (lt_trans hm2 (hC r h))
    rw [hpf]
    set m₁ : Row := { m with duration := x'.start - m.start } with hm₁
    have hrest' : ∀ r ∈ (B₀ ++ [m₁]) ++ x' :: C, x.start < r.start := by
      intro r hr
      rcases List.mem_append.mp hr with hr | hr
      · rcases List.mem_append.mp hr with hr | hr
        · exact hB1 r (by simp [hr])
        · simp only [List.mem_singleton] at hr
          subst hr
          exact hm1
      · rcases List.mem_cons.mp hr with h | h
        · subst h
          exact hxx
        · exact lt_trans hxx (hC r h)
    have hmbo : maxBelow (((P ++ B₀) ++ [m₁]) ++ x' :: C) x.start = P.getLast? := by
      have he : ((P ++ B₀) ++ [m₁]) ++ x' :: C = P ++ ((B₀ ++ [m₁]) ++ x' :: C) := by
        simp [List.append_assoc]
      rw [he]
      exact maxBelow_eval P _ x.start hP (fun r hr => not_lt_of_gt (hrest' r hr))
    have hmbn : maxBelow (((P ++ B₀) ++ [m₁]) ++ x' :: C) x'.start = some m₁ := by
      rw [maxBelow_eval ((P ++ B₀) ++ [m₁]) (x' :: C) x'.start ?_ ?_]
      · exact List.getLast?_concat _
      · intro r hr
        rcases List.mem_append.mp hr with hr | hr
        · rcases List.mem_append.mp hr with hr | hr
          · exact lt_trans (hP r hr) hxx
          · exact hB2 r (by simp [hr])
        · simp only [List.mem_singleton] at hr
          subst hr
          exact hm2
      · intro r hr
        rcases List.mem_cons.mp hr with h | h
        · subst h
          exact lt_irrefl _
        · exact not_lt_of_gt (hC r h)
    obtain ⟨b, hbh⟩ : ∃ b, (B₀ ++ [m₁]).head? = some b := by
      cases B₀ with
      | nil => exact ⟨m₁, rfl⟩
      | cons a t => exact ⟨a, rfl⟩
    have hmao : minAbove (((P ++ B₀) ++ [m₁]) ++ x' :: C) x.start = some b := by
      have he : ((P ++ B₀) ++ [m₁]) ++ x' :: C = P ++ ((B₀ ++ [m₁]) ++ x' :: C) := by
        simp [List.append_assoc]
      rw [he, minAbove_eval P _ x.start (fun r hr => not_lt_of_gt (hP r hr)) hrest',
        List.head?_append_of_ne_nil _ (by simp)]
      exact hbh
    have hchainBm : List.Chain' DR (B₀ ++ [m₁]) :=
      chain'_DR_concat_mod (P := B₀) (p := m) (q := m₁) rfl hcB
    have hAzm : ∀ a ∈ (B₀ ++ [m₁]).getLast?, ∀ z : Row, z.start = x'.start → DR a z := by
      intro a ha z hz
      simp only [List.getLast?_concat, Option.mem_def, Option.some.injEq] at ha
      subst ha
      show m₁.duration = z.start - m₁.start
      rw [hz]
    rcases P.eq_nil_or_concat' with hPnil | ⟨P₀, p, hP₀⟩
    · subst hPnil
      rw [updStmt2_skip_none _ _ _ (by rw [hmbo]; rfl)]
      have hb := durOk_selfFix_build (B₀ ++ [m₁]) x' C ?_ hC hchainBm hAzm hcC hlastC
      · simpa using hb
      · intro r hr
        rcases List.mem_append.mp hr with hr | hr
        · exact lt_trans (hB₀lt r hr) hm2
        · simp only [List.mem_singleton] at hr
          subst hr
          exact hm2
    · subst hP₀
      have hplt : p.start < x.start := hP p (by simp)
      have hP₀lt : ∀ r ∈ P₀, r.start < p.start := by
        have hpw := sortedT_pairwise hsrtP
        rw [List.pairwise_append] at hpw
        intro r hr
        exact hpw.2.2 r hr p (by simp)
      have hmbo' : maxBelow ((((P₀ ++ [p]) ++ B₀) ++ [m₁]) ++ x' :: C) x.start = some p := by
        rw [hmbo]
        exact List.getLast?_concat _
      have hstmt2 : updStmt2 ((((P₀ ++ [p]) ++ B₀) ++ [m₁]) ++ x' :: C) x.start x'.start
          = setDurAt ((((P₀ ++ [p]) ++ B₀) ++ [m₁]) ++ x' :: C) p.start (b.start - p.start) := by
        apply updStmt2_hit_some _ _ _ p b hmbo' ?_ hmao
        intro bb hbb
        rw [hmbn] at hbb
        simp only [Option.map_some', Option.mem_def, Option.some.injEq] at hbb
        subst hbb
        show m₁.start ≠ p.start
        exact ne_of_gt (lt_trans hplt hm1)
      rw [hstmt2]
      have hbmem : b.start ∈ ((B₀ ++ [m₁]).map (·.start)) := by
        have : b ∈ B₀ ++ [m₁] := List.mem_of_mem_head? hbh
        exact List.mem_map_of_mem _ this
      have hbgt : x.start < b.start := by
        rcases List.mem_map.mp hbmem with ⟨r, hr, hrs⟩
        rw [← hrs]
        rcases List.mem_append.mp hr with hr | hr
        · exact hB1 r (by simp [hr])
        · simp only [List.mem_singleton] at hr
          subst hr
          exact hm1
      have hsur : setDurAt ((((P₀ ++ [p]) ++ B₀) ++ [m₁]) ++ x' :: C) p.start (b.start - p.start)
          = ((P₀ ++ [{ p with duration := b.start - p.start }]) ++ (B₀ ++ [m₁])) ++ x' :: C := by
        have he : (((P₀ ++ [p]) ++ B₀) ++ [m₁]) ++ x' :: C
            = P₀ ++ p :: ((B₀ ++ [m₁]) ++ x' :: C) := by
          simp [List.append_assoc]
        rw [he, setDurAt_surgical P₀ ((B₀ ++ [m₁]) ++ x' :: C) p (b.start - p.start)
          (fun r hr => ne_of_lt (hP₀lt r hr)) ?_]
        · simp [List.append_assoc]
        · intro r hr
          rcases List.mem_append.mp hr with hr | hr
          · rcases List.mem_append.mp hr with hr | hr
            · exact ne_of_gt (lt_trans hplt (hB1 r (by simp [hr])))
            · simp only [List.mem_singleton] at hr
              subst hr
              exact ne_of_gt (lt_trans hplt hm1)
          · rcases List.mem_cons.mp hr with h | h
            · subst h
              exact ne_of_gt (lt_trans hplt hxx)
            · exact ne_of_gt (lt_trans (lt_trans hplt hxx) (hC r h))
      rw [hsur]
      set p₂ : Row := { p with duration := b.start - p.start } with hp₂
      apply durOk_selfFix_build ((P₀ ++ [p₂]) ++ (B₀ ++ [m₁])) x' C ?_ hC ?_ ?_ hcC hlastC
      · intro r hr
        rcases List.mem_append.mp hr with hr | hr
        · rcases List.mem_append.mp hr with hr | hr
          · exact lt_trans (lt_trans (hP₀lt r hr) hplt) hxx
          · simp only [List.mem_singleton] at hr
            subst hr
            exact lt_trans hplt hxx
        · rcases List.mem_append.mp hr with hr | hr
          · exact lt_trans (hB₀lt r hr) hm2
          · simp only [List.mem_singleton] at hr
            subst hr
            exact hm2
      · rw [List.chain'_append]
        refine ⟨chain'_DR_concat_mod (P := P₀) (p := p) (q := p₂) rfl hcP, hchainBm, ?_⟩
        intro a ha y hy
        simp only [List.getLast?_concat, Option.mem_def, Option.some.injEq] at ha
        subst ha
        rw [hbh] at hy
        simp only [Option.mem_def, Option.some.injEq] at hy
        subst hy
        show p₂.duration = b.start - p₂.start
        rfl
      · intro a ha z hz
        rw [List.getLast?_append_of_ne_nil _ (by simp)] at ha
        exact hAzm a ha z hz


theorem mem_of_getLast?_eq {l : List Row} {a : Row} (h : l.getLast? = some a) : a ∈ l := by
  obtain ⟨hne, he⟩ := List.mem_getLast?_eq_getLast (show a ∈ l.getLast? by rw [h]; rfl)
  rw [he]
  exact List.getLast_mem hne

/-- Stages 2 and 3 of `update_timelog` for a move to an earlier start,
after statement 1 has been evaluated: `Am` is the (possibly repaired)
part below the new start, `B` strictly between new and old, `Q` above the
old start. -/
theorem durOk_updLt_inner (Am B Q : List Row) (x x' : Row)
    (hxx : x'.start < x.start)
    (hAm : ∀ r ∈ Am, r.start < x'.start)
    (hB1 : ∀ r ∈ B, x'.start < r.start) (hB2 : ∀ r ∈ B, r.start < x.start)
    (hQ : ∀ r ∈ Q, x.start < r.start)
    (hsrtB : sortedT B)
    (hcAm : List.Chain' DR Am)
    (hAz : ∀ a ∈ Am.getLast?, ∀ z : Row, z.start = x'.start → DR a z)
    (hcB : List.Chain' DR B) (hcQ : List.Chain' DR Q)
    (hlastQ : ∀ y ∈ Q.getLast?, y.duration = -1) :
    durOk (selfFix (updStmt2 (Am ++ x' :: (B ++ Q)) x.start x'.start) x'.start) := by
  have hnewlt : ∀ r ∈ Am ++ [x'], r.start < x.start := by
    intro r hr
    rcases List.mem_append.mp hr with hr | hr
    · exact lt_trans (hAm r hr) hxx
    · simp only [List.mem_singleton] at hr
      subst hr
      exact hxx
  have hmbn : maxBelow (Am ++ x' :: (B ++ Q)) x'.start = Am.getLast? := by
    apply maxBelow_eval Am (x' :: (B ++ Q)) x'.start hAm
    intro r hr
    rcases List.mem_cons.mp hr with h | h
    · subst h
      exact lt_irrefl _
    · rcases List.mem_append.mp h with h | h
      · exact not_lt_of_gt (hB1 r h)
      · exact not_lt_of_gt (lt_trans hxx (hQ r h))
  have hmbn' : ∀ bb ∈ (maxBelow (Am ++ x' :: (B ++ Q)) x'.start).map (·.start),
      bb < x'.start := by
    intro bb hbb
    rw [hmbn] at hbb
    rcases hbb2 : Am.getLast? with _ | aa
    · rw [hbb2] at hbb
      simp at hbb
    · rw [hbb2] at hbb
      simp only [Option.map_some', Option.mem_def, Option.some.injEq] at hbb
      subst hbb
      exact hAm aa (mem_of_getLast?_eq hbb2)
  have hassocQ : Am ++ x' :: (B ++ Q) = ((Am ++ [x']) ++ B) ++ Q := by
    simp [List.append_assoc]
  have hmbo : maxBelow (Am ++ x' :: (B ++ Q)) x.start = ((Am ++ [x']) ++ B).getLast? := by
    rw [hassocQ]
    apply maxBelow_eval ((Am ++ [x']) ++ B) Q x.start
    · intro r hr
      rcases List.mem_append.mp hr with hr | hr
      · exact hnewlt r hr
      · exact hB2 r hr
    · exact fun r hr => not_lt_of_gt (hQ r hr)
  have hmao : minAbove (Am ++ x' :: (B ++ Q)) x.start = Q.head? := by
    rw [hassocQ]
    apply minAbove_eval ((Am ++ [x']) ++ B) Q x.start
    · intro r hr
      rcases List.mem_append.mp hr with hr | hr
      · exact not_lt_of_gt (hnewlt r hr)
      · exact not_lt_of_gt (hB2 r hr)
    · exact hQ
  rcases B.eq_nil_or_concat' with hBnil | ⟨B₀, mB, hB⟩
  · subst hBnil
    have hmbo' : maxBelow (Am ++ x' :: (([] : List Row) ++ Q)) x.start = some x' := by
      rw [hmbo]
      simp
    have hnex : ∀ bb ∈ (maxBelow (Am ++ x' :: (([] : List Row) ++ Q)) x'.start).map (·.start),
        bb ≠ x'.start := fun bb hbb => ne_of_lt (hmbn' bb hbb)
    cases hq : Q.head? with
    | none =>
      rw [List.head?_eq_none_iff] at hq
      subst hq
      rw [updStmt2_hit_none _ _ _ x' hmbo' hnex (hmao.trans rfl)]
      have hsur : setDurAt (Am ++ x' :: (([] : List Row) ++ [])) x'.start (-1)
          = Am ++ { x' with duration := -1 } :: [] := by
        have := setDurAt_surgical Am [] x' (-1)
          (fun r hr => ne_of_lt (hAm r hr)) (by simp)
        simpa using this
      rw [hsur]
      have hb := durOk_selfFix_build Am { x' with duration := -1 } []
        hAm (by simp) hcAm (fun a ha z hz => hAz a ha z hz) List.chain'_nil (by simp)
      simpa using hb
    | some q =>
      obtain ⟨Qs, hQs⟩ : ∃ Qs, Q = q :: Qs := by
        cases Q with
        | nil => simp at hq
        | cons aa t =>
          simp only [List.head?_cons, Option.some.injEq] at hq
          subst hq
          exact ⟨t, rfl⟩
      subst hQs
      rw [updStmt2_hit_some _ _ _ x' q hmbo' hnex (by rw [hmao]; rfl)]
      have hsur : setDurAt (Am ++ x' :: (([] : List Row) ++ q :: Qs)) x'.start
            (q.start - x'.start)
          = Am ++ { x' with duration := q.start - x'.start } :: q :: Qs := by
        have := setDurAt_surgical Am (q :: Qs) x' (q.start - x'.start)
          (fun r hr => ne_of_lt (hAm r hr))
          (fun r hr => ne_of_gt (lt_trans hxx (hQ r (by simp [hr]))))
        simpa using this
      rw [hsur]
      exact durOk_selfFix_build Am _ (q :: Qs) hAm
        (fun r hr => lt_trans hxx (hQ r hr)) hcAm (fun a ha z hz => hAz a ha z hz)
        hcQ hlastQ
  · subst hB
    have hmB1 : x'.start < mB.start := hB1 mB (by simp)
    have hmB2 : mB.start < x.start := hB2 mB (by simp)
    have hB₀lt : ∀ r ∈ B₀, r.start < mB.start := by
      have hpw := sortedT_pairwise hsrtB
      rw [List.pairwise_append] at hpw
      intro r hr
      exact hpw.2.2 r hr mB (by simp)
    have hmbo' : maxBelow (Am ++ x' :: ((B₀ ++ [mB]) ++ Q)) x.start = some mB := by
      rw [hmbo]
      rw [show (Am ++ [x']) ++ (B₀ ++ [mB]) = ((Am ++ [x']) ++ B₀) ++ [mB] by
        simp [List.append_assoc]]
      exact List.getLast?_concat _
    have hnex : ∀ bb ∈ (maxBelow (Am ++ x' :: ((B₀ ++ [mB]) ++ Q)) x'.start).map (·.start),
        bb ≠ mB.start :=
      fun bb hbb => ne_of_lt (lt_trans (hmbn' bb hbb) hmB1)
    have hsurgen : ∀ d : Int, setDurAt (Am ++ x' :: ((B₀ ++ [mB]) ++ Q)) mB.start d
        = Am ++ x' :: ((B₀ ++ [{ mB with duration := d }]) ++ Q) := by
      intro d
      have he : Am ++ x' :: ((B₀ ++ [mB]) ++ Q)
          = (Am ++ x' :: B₀) ++ mB :: Q := by
        simp [List.append_assoc]
      rw [he, setDurAt_surgical (Am ++ x' :: B₀) Q mB d ?_
        (fun r hr => ne_of_gt (lt_trans hmB2 (hQ r hr)))]
      · simp [List.append_assoc]
      · intro r hr
        rcases List.mem_append.mp hr with hr | hr
        · exact ne_of_lt (lt_trans (hAm r hr) hmB1)
        · rcases List.mem_cons.mp hr with h | h
          · subst h
            exact ne_of_lt hmB1
          · exact ne_of_lt (hB₀lt r h)
    have hchainB : ∀ d : Int, (∀ y ∈ Q.head?, ({ mB with duration := d } : Row).duration
          = y.start - mB.start) → (Q = [] → d = -1) →
        List.Chain' DR (B₀ ++ { mB with duration := d } :: Q)
          ∧ ∀ y ∈ (B₀ ++ { mB with duration := d } :: Q).getLast?, y.duration = -1 := by
      intro d hd hdnil
      constructor
      · rw [List.chain'_append]
        refine ⟨(List.chain'_append.mp hcB).1, List.chain'_cons'.mpr ⟨?_, hcQ⟩, ?_⟩
        · intro y hy
          exact hd y hy
        · intro a ha y hy
          simp only [List.head?_cons, Option.mem_def, Option.some.injEq] at hy
          subst hy
          have hedge := (List.chain'_append.mp hcB).2.2
          exact DR_congr_right (hedge a ha mB (by simp)) rfl
      · intro y hy
        rw [List.getLast?_append_of_ne_nil _ (by simp)] at hy
        cases Q with
        | nil =>
          simp only [List.getLast?_singleton, Option.mem_def, Option.some.injEq] at hy
          subst hy
          exact hdnil rfl
        | cons qq Qs =>
          rw [List.getLast?_cons_cons] at hy
          exact hlastQ y hy
    cases hq : Q.head? with
    | none =>
      rw [List.head?_eq_none_iff] at hq
      subst hq
      rw [updStmt2_hit_none _ _ _ mB hmbo' hnex (hmao.trans rfl), hsurgen (-1)]
      obtain ⟨hcBQ, hlastBQ⟩ := hchainB (-1) (by simp) (fun _ => rfl)
      refine durOk_selfFix_build Am x' ((B₀ ++ [{ mB with duration := -1 }]) ++ [])
        hAm ?_ hcAm hAz (by simp only [List.append_nil]; exact hcBQ)
        (by simp only [List.append_nil]; exact hlastBQ)
      intro r hr
      simp only [List.append_nil] at hr
      rcases List.mem_append.mp hr with hr | hr
      · exact hB1 r (by simp [hr])
      · simp only [List.mem_singleton] at hr
        subst hr
        exact hmB1
    | some q =>
      rw [updStmt2_hit_some _ _ _ mB q hmbo' hnex (by rw [hmao]; exact hq),
        hsurgen (q.start - mB.start)]
      obtain ⟨hcBQ, hlastBQ⟩ := hchainB (q.start - mB.start)
        (by
          intro y hy
          rw [hq] at hy
          simp only [Option.mem_def, Option.some.injEq] at hy
          subst hy
          rfl)
        (by intro hQnil; rw [hQnil] at hq; simp at hq)
      refine durOk_selfFix_build Am x' ((B₀ ++ [{ mB with duration := q.start - mB.start }]) ++ Q)
        hAm ?_ hcAm hAz (by simpa [List.append_assoc] using hcBQ) ?_
      · intro r hr
        rcases List.mem_append.mp hr with hr | hr
        · rcases List.mem_append.mp hr with hr | hr
          · exact hB1 r (by simp [hr])
          · simp only [List.mem_singleton] at hr
            subst hr
            exact hmB1
        · exact lt_trans hxx (hQ r hr)
      · intro y hy
        apply hlastBQ y
        simpa [List.append_assoc] using hy

/-- `update_timelog` restores canonical durations when the row moves to an
earlier start: `A` is below the new start, `B` strictly between new and
old, `Q` above the old start; the repaired table is `A ++ x' :: (B ++
Q)`. -/
theorem durOk_updRepair_lt (A B Q : List Row) (x x' : Row)
    (hxx : x'.start < x.start)
    (hA : ∀ r ∈ A, r.start < x'.start)
    (hB1 : ∀ r ∈ B, x'.start < r.start) (hB2 : ∀ r ∈ B, r.start < x.start)
    (hQ : ∀ r ∈ Q, x.start < r.start)
    (hsrtA : sortedT A) (hsrtB : sortedT B)
    (hcA : List.Chain' DR A) (hcB : List.Chain' DR B) (hcQ : List.Chain' DR Q)
    (hlastQ : ∀ y ∈ Q.getLast?, y.duration = -1) :
    durOk (updTrigRepair (A ++ x' :: (B ++ Q)) x.start x'.start) := by
  unfold updTrigRepair
  have hge : ∀ r ∈ x' :: (B ++ Q), ¬ r.start < x'.start := by
    intro r hr
    rcases List.mem_cons.mp hr with h | h
    · subst h
      exact lt_irrefl _
    · rcases List.mem_append.mp h with h | h
      · exact not_lt_of_gt (hB1 r h)
      · exact not_lt_of_gt (lt_trans hxx (hQ r h))
  rcases A.eq_nil_or_concat' with hAnil | ⟨A₀, a, hA₀⟩
  · subst hAnil
    rw [show ([] : List Row) ++ x' :: (B ++ Q) = x' :: (B ++ Q) from rfl,
      predFix_eval_none _ _ hge]
    have hb := durOk_updLt_inner [] B Q x x' hxx (by simp) hB1 hB2 hQ hsrtB
      List.chain'_nil (by simp) hcB hcQ hlastQ
    simpa using hb
  · subst hA₀
    have hax : a.start < x'.start := hA a (by simp)
    have hA₀lt : ∀ r ∈ A₀, r.start < a.start := by
      have hpw := sortedT_pairwise hsrtA
      rw [List.pairwise_append] at hpw
      intro r hr
      exact hpw.2.2 r hr a (by simp)
    have hne2 : ∀ r ∈ x' :: (B ++ Q), r.start ≠ a.start := by
      intro r hr
      rcases List.mem_cons.mp hr with h | h
      · subst h
        exact ne_of_gt hax
      · rcases List.mem_append.mp h with h | h
        · exact ne_of_gt (lt_trans hax (hB1 r h))
        · exact ne_of_gt (lt_trans hax (lt_trans hxx (hQ r h)))
    have hpf := predFix_eval_concat A₀ (x' :: (B ++ Q)) a x'.start hA hge
      (fun r hr => ne_of_lt (hA₀lt r hr)) hne2
    rw [hpf]
    set a₁ : Row := { a with duration := x'.start - a.start } with ha₁
    have hAm : ∀ r ∈ A₀ ++ [a₁], r.start < x'.start := by
      intro r hr
      rcases List.mem_append.mp hr with hr | hr
      · exact lt_trans (hA₀lt r hr) hax
      · simp only [List.mem_singleton] at hr
        subst hr
        exact hax
    have hcAm : List.Chain' DR (A₀ ++ [a₁]) :=
      chain'_DR_concat_mod (P := A₀) (p := a) (q := a₁) rfl hcA
    have hAz : ∀ aa ∈ (A₀ ++ [a₁]).getLast?, ∀ z : Row, z.start = x'.start → DR aa z := by
      intro aa ha z hz
      simp only [List.getLast?_concat, Option.mem_def, Option.some.injEq] at ha
      subst ha
      show a₁.duration = z.start - a₁.start
      rw [hz]
    exact durOk_updLt_inner (A₀ ++ [a₁]) B Q x x' hxx hAm hB1 hB2 hQ hsrtB
      hcAm hAz hcB hcQ hlastQ


/-- `update_timelog` restores canonical durations: moving a row of a
sorted canonical table to a fresh start (the raw UPDATE, represented as
erase-plus-sorted-reinsert) and running the trigger's three repairs yields
a canonical table. -/
theorem durOk_updRepair (l₁ l₂ : List Row) (x x' : Row)
    (hsrt : sortedT (l₁ ++ x :: l₂)) (hOk : durOk (l₁ ++ x :: l₂))
    (hfresh : ∀ r ∈ l₁ ++ l₂, r.start ≠ x'.start) :
    durOk (updTrigRepair (insertByStart (l₁ ++ l₂) x') x.start x'.start) := by
  obtain ⟨h₁, h₂, hsrt'⟩ := sortedT_mid l₁ l₂ x hsrt
  have hparts := hOk.1
  rw [List.chain'_append] at hparts
  have hc₁ : List.Chain' DR l₁ := hparts.1
  have hc₂ : List.Chain' DR l₂ := (List.chain'_cons'.mp hparts.2.1).2
  have hlast₂ : ∀ y ∈ l₂.getLast?, y.duration = -1 := by
    intro y hy
    apply hOk.2
    rw [List.getLast?_append_of_ne_nil _ (by simp)]
    cases l₂ with
    | nil => simp at hy
    | cons c cs =>
      rw [List.getLast?_cons_cons]
      exact hy
  have hpw := sortedT_pairwise hsrt
  rw [List.pairwise_append] at hpw
  have hsrt₁ : sortedT l₁ := pairwise_sortedT hpw.1
  have hsrt₂ : sortedT l₂ := pairwise_sortedT (List.pairwise_cons.mp hpw.2.1).2
  rcases lt_trichotomy x'.start x.start with hlt | heq | hgt
  · obtain ⟨A, B, hAB, hA, hBge⟩ := sorted_split l₁ x'.start hsrt₁
    subst hAB
    have hB1 : ∀ r ∈ B, x'.start < r.start := by
      intro r hr
      exact lt_of_le_of_ne (not_lt.mp (hBge r hr))
        (Ne.symm (hfresh r (List.mem_append_left _ (List.mem_append_right _ hr))))
    have hB2 : ∀ r ∈ B, r.start < x.start := fun r hr =>
      h₁ r (List.mem_append_right _ hr)
    have hApw := sortedT_pairwise hsrt₁
    rw [List.pairwise_append] at hApw
    have hcparts := List.chain'_append.mp hc₁
    have hins : insertByStart ((A ++ B) ++ l₂) x' = A ++ x' :: (B ++ l₂) := by
      rw [List.append_assoc]
      apply insertByStart_eval A (B ++ l₂) x' hA
      intro r hr
      rcases List.mem_append.mp hr with hr | hr
      · exact hB1 r hr
      · exact lt_trans hlt (h₂ r hr)
    rw [hins]
    exact durOk_updRepair_lt A B l₂ x x' hlt hA hB1 hB2 h₂
      (pairwise_sortedT hApw.1) (pairwise_sortedT hApw.2.1)
      hcparts.1 hcparts.2.1 hc₂ hlast₂
  · have hins : insertByStart (l₁ ++ l₂) x' = l₁ ++ x' :: l₂ := by
      apply insertByStart_eval l₁ l₂ x'
      · intro r hr
        rw [heq]
        exact h₁ r hr
      · intro r hr
        rw [heq]
        exact h₂ r hr
    rw [hins, show x.start = x'.start from heq.symm, updTrigRepair_eq_self]
    apply durOk_insRepair l₁ l₂ x' hsrt₁ ?_ ?_ hc₁ hc₂ hlast₂
    · intro r hr
      rw [heq]
      exact h₁ r hr
    · intro r hr
      rw [heq]
      exact h₂ r hr
  · obtain ⟨B, C, hBC, hBlt, hCge⟩ := sorted_split l₂ x'.start hsrt₂
    subst hBC
    have hC : ∀ r ∈ C, x'.start < r.start := by
      intro r hr
      exact lt_of_le_of_ne (not_lt.mp (hCge r hr))
        (Ne.symm (hfresh r (List.mem_append_right _ (List.mem_append_right _ hr))))
    have hB1 : ∀ r ∈ B, x.start < r.start := fun r hr =>
      h₂ r (List.mem_append_left _ hr)
    have hBpw := sortedT_pairwise hsrt₂
    rw [List.pairwise_append] at hBpw
    have hcparts := List.chain'_append.mp hc₂
    have hlastC : ∀ y ∈ C.getLast?, y.duration = -1 := by
      intro y hy
      apply hlast₂
      cases C with
      | nil => simp at hy
      | cons c cs =>
        rw [List.getLast?_append_of_ne_nil _ (by simp)]
        exact hy
    have hins : insertByStart (l₁ ++ (B ++ C)) x' = (l₁ ++ B) ++ x' :: C := by
      rw [← List.append_assoc]
      apply insertByStart_eval (l₁ ++ B) C x' ?_ hC
      intro r hr
      rcases List.mem_append.mp hr with hr | hr
      · exact lt_trans (h₁ r hr) hgt
      · exact hBlt r hr
    rw [hins]
    exact durOk_updRepair_gt l₁ B C x x' hgt h₁ hB1 hBlt hC hsrt₁
      (pairwise_sortedT hBpw.1) hc₁ hcparts.1 hcparts.2.1 hlastC



/-! Starts and uuids are untouched by the repairs; sortedness transports
along them. -/

theorem starts_predFix (tl : List Row) (s : Int) : starts (predFix tl s) = starts tl := by
  unfold predFix
  cases maxBelow tl s with
  | none => rfl
  | some p => exact starts_setDurAt _ _ _

theorem starts_selfFix (tl : List Row) (s : Int) : starts (selfFix tl s) = starts tl := by
  unfold selfFix
  cases minAbove tl s with
  | none => exact starts_setDurAt _ _ _
  | some nx => exact starts_setDurAt _ _ _

theorem starts_updStmt2 (tl : List Row) (oldS newS : Int) :
    starts (updStmt2 tl oldS newS) = starts tl := by
  unfold updStmt2
  cases (maxBelow tl oldS).map (·.start) with
  | none => rfl
  | some a =>
    cases (maxBelow tl newS).map (·.start) with
    | none =>
      cases minAbove tl oldS with
      | none => exact starts_setDurAt _ _ _
      | some nx => exact starts_setDurAt _ _ _
    | some b =>
      by_cases hab : a = b
      · simp only [if_pos hab]
      · simp only [if_neg hab]
        cases minAbove tl oldS with
        | none => exact starts_setDurAt _ _ _
        | some nx => exact starts_setDurAt _ _ _

theorem starts_insTrigRepair (tl : List Row) (s : Int) :
    starts (insTrigRepair tl s) = starts tl := by
  unfold insTrigRepair
  rw [starts_selfFix, starts_predFix]

theorem starts_delTrigRepair (tl : List Row) (s : Int) :
    starts (delTrigRepair tl s) = starts tl := by
  unfold delTrigRepair
  cases maxBelow tl s with
  | none => rfl
  | some p =>
    cases minAbove tl s with
    | none => exact starts_setDurAt _ _ _
    | some nx => exact starts_setDurAt _ _ _

theorem starts_updTrigRepair (tl : List Row) (oldS newS : Int) :
    starts (updTrigRepair tl oldS newS) = starts tl := by
  unfold updTrigRepair
  rw [starts_selfFix, starts_updStmt2, starts_predFix]

theorem uuids_predFix (tl : List Row) (s : Int) :
    (predFix tl s).map (·.uuid) = tl.map (·.uuid) := by
  unfold predFix
  cases maxBelow tl s with
  | none => rfl
  | some p => exact uuids_setDurAt _ _ _

theorem uuids_selfFix (tl : List Row) (s : Int) :
    (selfFix tl s).map (·.uuid) = tl.map (·.uuid) := by
  unfold selfFix
  cases minAbove tl s with
  | none => exact uuids_setDurAt _ _ _
  | some nx => exact uuids_setDurAt _ _ _

theorem uuids_updStmt2 (tl : List Row) (oldS newS : Int) :
    (updStmt2 tl oldS newS).map (·.uuid) = tl.map (·.uuid) := by
  unfold updStmt2
  cases (maxBelow tl oldS).map (·.start) with
  | none => rfl
  | some a =>
    cases (maxBelow tl newS).map (·.start) with
    | none =>
      cases minAbove tl oldS with
      | none => exact uuids_setDurAt _ _ _
      | some nx => exact uuids_setDurAt _ _ _
    | some b =>
      by_cases hab : a = b
      · simp only [if_pos hab]
      · simp only [if_neg hab]
        cases minAbove tl oldS with
        | none => exact uuids_setDurAt _ _ _
        | some nx => exact uuids_setDurAt _ _ _

theorem uuids_insTrigRepair (tl : List Row) (s : Int) :
    (insTrigRepair tl s).map (·.uuid) = tl.map (·.uuid) := by
  unfold insTrigRepair
  rw [uuids_selfFix, uuids_predFix]

theorem uuids_delTrigRepair (tl : List Row) (s : Int) :
    (delTrigRepair tl s).map (·.uuid) = tl.map (·.uuid) := by
  unfold delTrigRepair
  cases maxBelow tl s with
  | none => rfl
  | some p =>
    cases minAbove tl s with
    | none => exact uuids_setDurAt _ _ _
    | some nx => exact uuids_setDurAt _ _ _

theorem uuids_updTrigRepair (tl : List Row) (oldS newS : Int) :
    (updTrigRepair tl oldS newS).map (·.uuid) = tl.map (·.uuid) := by
  unfold updTrigRepair
  rw [uuids_selfFix, uuids_updStmt2, uuids_predFix]

theorem sortedT_of_starts_eq {l l' : List Row} (h : starts l' = starts l)
    (hs : sortedT l) : sortedT l' := by
  have hs' : List.Chain' (· < · : Int → Int → Prop) (starts l) :=
    (List.chain'_map (fun r : Row => r.start)).mpr hs
  have hs'' : List.Chain' (· < · : Int → Int → Prop) (starts l') := by
    rw [h]
    exact hs'
  exact (List.chain'_map (fun r : Row => r.start)).mp hs''

theorem sortedT_insert_mid (l₁ l₂ : List Row) (x : Row)
    (hs : sortedT (l₁ ++ l₂)) (h₁ : ∀ r ∈ l₁, r.start < x.start)
    (h₂ : ∀ r ∈ l₂, x.start < r.start) :
    sortedT (l₁ ++ x :: l₂) := by
  have hpw := sortedT_pairwise hs
  rw [List.pairwise_append] at hpw
  apply pairwise_sortedT
  rw [List.pairwise_append]
  refine ⟨hpw.1, ?_, ?_⟩
  · rw [List.pairwise_cons]
    exact ⟨fun r hr => h₂ r hr, hpw.2.1⟩
  · intro a ha b hb
    rcases List.mem_cons.mp hb with hb | hb
    · subst hb
      exact h₁ a ha
    · exact hpw.2.2 a ha b hb

/-- The first match of `find?` together with the effect of `eraseP`. -/
theorem find_eraseP_decomp (l : List Row) (pB : Row → Bool) (x : Row)
    (h : l.find? pB = some x) :
    ∃ P Q, l = P ++ x :: Q ∧ (∀ a ∈ P, pB a = false) ∧ l.eraseP pB = P ++ Q := by
  induction l with
  | nil => simp at h
  | cons a t ih =>
    by_cases ha : pB a
    · rw [List.find?_cons_of_pos _ ha] at h
      injection h with h
      subst h
      exact ⟨[], t, rfl, by simp, by simp [List.eraseP_cons_of_pos ha]⟩
    · rw [List.find?_cons_of_neg _ (by simpa using ha)] at h
      obtain ⟨P, Q, he, hP, her⟩ := ih h
      refine ⟨a :: P, Q, by rw [he]; rfl, ?_, ?_⟩
      · intro b hb
        rcases List.mem_cons.mp hb with hb | hb
        · subst hb
          simpa using ha
        · exact hP b hb
      · rw [List.eraseP_cons_of_neg (by simpa using ha), her]
        rfl


/-! Invariant preservation of the SQL statements. -/

theorem findTomb_eq_none_iff {rem : List (Nat × Int)} {u : Nat} :
    findTomb rem u = none ↔ ∀ t ∈ rem, t.1 ≠ u := by
  unfold findTomb
  simp [List.find?_eq_none]

theorem nodup_mid_of_nodup {l₁ l₂ : List Row} {x : Row}
    (h : ((l₁ ++ x :: l₂).map (·.uuid)).Nodup) :
    x.uuid ∉ (l₁ ++ l₂).map (·.uuid) ∧ ((l₁ ++ l₂).map (·.uuid)).Nodup := by
  rw [List.map_append, List.map_cons, List.nodup_middle, List.nodup_cons,
    ← List.map_append] at h
  exact h

theorem chain'_DR_pointwise (g : Row → Row) :
    ∀ {l : List Row}, (∀ r ∈ l, (g r).start = r.start ∧ (g r).duration = r.duration) →
      List.Chain' DR l → List.Chain' DR (l.map g)
  | [], _, _ => by simp
  | [a], _, _ => by simp
  | a :: b :: t, h, hc => by
    rw [List.map_cons, List.map_cons, List.chain'_cons]
    rw [List.chain'_cons] at hc
    constructor
    · show (g a).duration = (g b).start - (g a).start
      rw [(h a (by simp)).1, (h a (by simp)).2, (h b (by simp)).1]
      exact hc.1
    · rw [← List.map_cons]
      exact chain'_DR_pointwise g (fun r hr => h r (by simp [List.mem_cons.mp hr])) hc.2

/-- A pointwise rewrite of rows preserving start, duration and uuid
preserves the database invariant (the shape of the UPDATE statements that
do not assign `start`). -/
theorem InvDB_pointwise {db : DB} (g : Row → Row)
    (h : ∀ r ∈ db.timelog, (g r).start = r.start ∧ (g r).duration = r.duration ∧
      (g r).uuid = r.uuid)
    (hInv : InvDB db) : InvDB ⟨db.timelog.map g, db.removed⟩ := by
  obtain ⟨hsrt, hOk, hndT, hndR, hdis⟩ := hInv
  have hstarts : starts (db.timelog.map g) = starts db.timelog := by
    unfold starts
    rw [List.map_map]
    apply List.map_congr_left
    intro r hr
    exact (h r hr).1
  have huuids : (db.timelog.map g).map (·.uuid) = db.timelog.map (·.uuid) := by
    rw [List.map_map]
    apply List.map_congr_left
    intro r hr
    exact (h r hr).2.2
  refine ⟨sortedT_of_starts_eq hstarts hsrt, ?_, ?_, hndR, ?_⟩
  · constructor
    · exact chain'_DR_pointwise g (fun r hr => ⟨(h r hr).1, (h r hr).2.1⟩) hOk.1
    · intro y hy
      rw [List.getLast?_map] at hy
      cases hg : db.timelog.getLast? with
      | none =>
        rw [hg] at hy
        simp at hy
      | some y₀ =>
        rw [hg] at hy
        simp only [Option.map_some', Option.mem_def, Option.some.injEq] at hy
        subst hy
        rw [(h y₀ (mem_of_getLast?_eq hg)).2.1]
        exact hOk.2 y₀ (by rw [hg]; rfl)
  · rw [huuids]
    exact hndT
  · intro r hr t ht
    have : r.uuid ∈ (db.timelog.map g).map (·.uuid) := List.mem_map_of_mem _ hr
    rw [huuids] at this
    rcases List.mem_map.mp this with ⟨r₀, hr₀, hre⟩
    rw [← hre]
    exact hdis r₀ hr₀ t ht

theorem InvDB_sqlRenameCategory {db : DB} (oldN newN : String) (mt : Int)
    (hInv : InvDB db) : InvDB (sqlRenameCategory db oldN newN mt) := by
  unfold sqlRenameCategory
  apply InvDB_pointwise _ ?_ hInv
  intro r _
  dsimp only
  split
  · exact ⟨rfl, rfl, rfl⟩
  · exact ⟨rfl, rfl, rfl⟩

theorem sqlDeleteByUuid_ok (tl : List Row) (u : Nat)
    (hsrt : sortedT tl) (hOk : durOk tl) (hnd : (tl.map (·.uuid)).Nodup) :
    sortedT (sqlDeleteByUuid tl u) ∧ durOk (sqlDeleteByUuid tl u) ∧
      ((sqlDeleteByUuid tl u).map (·.uuid)).Nodup ∧
      (∀ r ∈ sqlDeleteByUuid tl u, r.uuid ≠ u) ∧
      (∀ r ∈ sqlDeleteByUuid tl u, r.uuid ∈ tl.map (·.uuid)) := by
  unfold sqlDeleteByUuid
  cases hf : tl.find? (fun r => r.uuid == u) with
  | none =>
    have hne : ∀ r ∈ tl, r.uuid ≠ u := by
      intro r hr
      have := List.find?_eq_none.mp hf r hr
      simpa using this
    exact ⟨hsrt, hOk, hnd, hne, fun r hr => List.mem_map_of_mem _ hr⟩
  | some x =>
    obtain ⟨P, Q, he, hP, her⟩ := find_eraseP_decomp tl _ x hf
    have hxu : x.uuid = u := by
      have := List.find?_some hf
      simpa using this
    subst he
    rw [her]
    obtain ⟨hxout, hndPQ⟩ := nodup_mid_of_nodup hnd
    have huu : (delTrigRepair (P ++ Q) x.start).map (·.uuid) = (P ++ Q).map (·.uuid) :=
      uuids_delTrigRepair _ _
    have hmemu : ∀ r ∈ delTrigRepair (P ++ Q) x.start, r.uuid ∈ (P ++ Q).map (·.uuid) := by
    -- placeholder
      intro r hr
      rw [← huu]
      exact List.mem_map_of_mem _ hr
    refine ⟨?_, ?_, ?_, ?_, ?_⟩
    · exact sortedT_of_starts_eq (starts_delTrigRepair _ _) (sortedT_mid P Q x hsrt).2.2
    · exact durOk_delRepair P Q x hsrt hOk
    · rw [huu]
      exact hndPQ
    · intro r hr hru
      apply hxout
      rw [hxu, ← hru]
      exact hmemu r hr
    · intro r hr
      have := hmemu r hr
      simp only [List.map_append, List.mem_append, List.map_cons, List.mem_cons] at this ⊢
      rcases this with h | h
      · exact Or.inl h
      · exact Or.inr (Or.inr h)

theorem sortedT_insertByStart (tl : List Row) (x : Row)
    (hsrt : sortedT tl) (hfresh : ∀ r ∈ tl, r.start ≠ x.start) :
    ∃ l₁ l₂, tl = l₁ ++ l₂ ∧ (∀ r ∈ l₁, r.start < x.start) ∧
      (∀ r ∈ l₂, x.start < r.start) ∧
      insertByStart tl x = l₁ ++ x :: l₂ ∧ sortedT (l₁ ++ x :: l₂) := by
  obtain ⟨l₁, l₂, he, h₁, h₂⟩ := sorted_split tl x.start hsrt
  have h₂' : ∀ r ∈ l₂, x.start < r.start := by
    intro r hr
    refine lt_of_le_of_ne (not_lt.mp (h₂ r hr)) (Ne.symm ?_)
    rw [he] at hfresh
    exact hfresh r (List.mem_append_right _ hr)
  subst he
  exact ⟨l₁, l₂, rfl, h₁, h₂', insertByStart_eval l₁ l₂ x h₁ h₂',
    sortedT_insert_mid l₁ l₂ x hsrt h₁ h₂'⟩


theorem InvDB_sqlInsertTimelogRaw {db : DB} {u : Nat} {s : Int} {cat com : String}
    {mt : Int} {db' : DB} {n : Int} (hInv : InvDB db)
    (h : sqlInsertTimelogRaw db u s cat com mt = some (db', n)) : InvDB db' := by
  obtain ⟨hsrt, hOk, hndT, hndR, hdis⟩ := hInv
  unfold sqlInsertTimelogRaw at h
  by_cases hed : (db.timelog.any (fun r => r.uuid == u) ||
      db.timelog.any (fun r => r.start == s)) = true
  · rw [if_pos hed] at h
    exact absurd h (by simp)
  · rw [if_neg hed] at h
    simp only [Option.some.injEq, Prod.mk.injEq] at h
    obtain ⟨hdb, _⟩ := h
    subst hdb
    simp only [Bool.or_eq_true, List.any_eq_true, beq_iff_eq, not_or, not_exists,
      not_and] at hed
    obtain ⟨hfU, hfS⟩ := hed
    obtain ⟨l₁, l₂, he, h₁, h₂, hins, hsrt'⟩ :=
      sortedT_insertByStart db.timelog ⟨u, s, cat, com, 0, mt⟩ hsrt
        (fun r hr => hfS r hr)
    refine ⟨?_, ?_, ?_, ?_, ?_⟩
    · exact sortedT_of_starts_eq (starts_insTrigRepair _ _) (by rw [hins]; exact hsrt')
    · show durOk (insTrigRepair (insertByStart db.timelog ⟨u, s, cat, com, 0, mt⟩) s)
      rw [hins]
      rw [he] at hOk hsrt
      refine durOk_insRepair l₁ l₂ _ ((List.chain'_append.mp hsrt).1) h₁ h₂
        ((List.chain'_append.mp hOk.1).1) ((List.chain'_append.mp hOk.1).2.1) ?_
      cases l₂ with
      | nil => simp
      | cons b t =>
        intro y hy
        apply hOk.2
        rw [List.getLast?_append_of_ne_nil _ (by simp)]
        exact hy
    · show ((insTrigRepair (insertByStart db.timelog ⟨u, s, cat, com, 0, mt⟩) s).map
        (·.uuid)).Nodup
      rw [uuids_insTrigRepair, hins, List.map_append, List.map_cons, List.nodup_middle,
        ← List.map_append, ← he, List.nodup_cons]
      refine ⟨?_, hndT⟩
      intro hmem
      rcases List.mem_map.mp hmem with ⟨r, hr, hre⟩
      exact hfU r hr hre
    · show ((db.removed.filter (fun t => !(t.1 == u))).map (·.1)).Nodup
      exact List.Nodup.sublist ((List.filter_sublist db.removed).map _) hndR
    · intro r hr t ht
      rw [List.mem_filter] at ht
      have htu : t.1 ≠ u := by simpa using ht.2
      have hru : r.uuid ∈ (insTrigRepair (insertByStart db.timelog
          ⟨u, s, cat, com, 0, mt⟩) s).map (·.uuid) := List.mem_map_of_mem _ hr
      rw [uuids_insTrigRepair, hins, List.map_append, List.map_cons] at hru
      rcases List.mem_append.mp hru with hm | hm
      · have hmm : r.uuid ∈ db.timelog.map (·.uuid) := by
          rw [he, List.map_append]
          exact List.mem_append_left _ hm
        rcases List.mem_map.mp hmm with ⟨r₀, hr₀, hre⟩
        rw [← hre]
        exact hdis r₀ hr₀ t ht.1
      · rcases List.mem_cons.mp hm with hm | hm
        · rw [hm]
          exact fun heq => htu heq.symm
        · have hmm : r.uuid ∈ db.timelog.map (·.uuid) := by
            rw [he, List.map_append]
            exact List.mem_append_right _ hm
          rcases List.mem_map.mp hmm with ⟨r₀, hr₀, hre⟩
          rw [← hre]
          exact hdis r₀ hr₀ t ht.1

theorem InvDB_sqlInsertTimelog {db : DB} {u : Nat} {s : Int} {cat com : String}
    {mt : Int} {db' : DB} {n : Int} (hInv : InvDB db)
    (h : sqlInsertTimelog db u s cat com mt = some (db', n)) : InvDB db' := by
  unfold sqlInsertTimelog at h
  split at h
  · split at h
    · simp only [Option.some.injEq, Prod.mk.injEq] at h
      rw [← h.1]
      exact hInv
    · exact InvDB_sqlInsertTimelogRaw hInv h
  · exact InvDB_sqlInsertTimelogRaw hInv h


theorem InvDB_sqlInsertRemoved {db : DB} {u : Nat} {mt : Int} (hInv : InvDB db) :
    InvDB (sqlInsertRemoved db u mt).1 := by
  obtain ⟨hsrt, hOk, hndT, hndR, hdis⟩ := hInv
  obtain ⟨hsrt', hOk', hndT', hnu', hsub'⟩ :=
    sqlDeleteByUuid_ok db.timelog u hsrt hOk hndT
  unfold sqlInsertRemoved
  split
  · split
    · exact ⟨hsrt, hOk, hndT, hndR, hdis⟩
    · refine ⟨hsrt', hOk', hndT', ?_, ?_⟩
      · have hmap : (db.removed.map (fun t => if t.1 = u then (u, mt) else t)).map (·.1) =
            db.removed.map (·.1) := by
          rw [List.map_map]
          apply List.map_congr_left
          intro t _
          dsimp only [Function.comp]
          split
          · next hq => exact hq.symm
          · rfl
        rw [hmap]
        exact hndR
      · intro r hr t ht
        rcases List.mem_map.mp ht with ⟨t₀, ht₀, hte⟩
        by_cases hq : t₀.1 = u
        · rw [← hte, if_pos hq]
          exact hnu' r hr
        · rw [← hte, if_neg hq]
          rcases List.mem_map.mp (hsub' r hr) with ⟨r₀, hr₀, hre⟩
          rw [← hre]
          exact hdis r₀ hr₀ t₀ ht₀
  · next hf =>
    have hnou : ∀ t ∈ db.removed, t.1 ≠ u := findTomb_eq_none_iff.mp hf
    refine ⟨hsrt', hOk', hndT', ?_, ?_⟩
    · rw [List.map_append]
      rw [List.nodup_append]
      refine ⟨hndR, by simp, ?_⟩
      intro a ha hb
      rcases List.mem_map.mp ha with ⟨t₀, ht₀, hte⟩
      simp only [List.map_cons, List.map_nil, List.mem_singleton] at hb
      exact hnou t₀ ht₀ (hte.trans hb)
    · intro r hr t ht
      rcases List.mem_append.mp ht with ht | ht
      · rcases List.mem_map.mp (hsub' r hr) with ⟨r₀, hr₀, hre⟩
        rw [← hre]
        exact hdis r₀ hr₀ t ht
      · simp only [List.mem_singleton] at ht
        rw [ht]
        exact hnu' r hr


/-- The start-assigning branch of the UPDATE statement (row moved, then
the `update_timelog` trigger) preserves the database invariant. -/
theorem InvDB_upd_start {db : DB} {u : Nat} {x : Row} (x' : Row) (hInv : InvDB db)
    (hfind : db.timelog.find? (fun r => r.uuid == u) = some x)
    (hx'u : x'.uuid = x.uuid)
    (hfr : x'.start = x.start ∨ ∀ r ∈ db.timelog, r.start ≠ x'.start) :
    InvDB ⟨updTrigRepair (insertByStart (db.timelog.eraseP (fun r => r.uuid == u)) x')
      x.start x'.start, db.removed⟩ := by
  obtain ⟨hsrt, hOk, hndT, hndR, hdis⟩ := hInv
  have hxmem : x ∈ db.timelog := List.mem_of_find?_eq_some hfind
  obtain ⟨P, Q, he, hP, her⟩ := find_eraseP_decomp db.timelog _ x hfind
  have hsrtM : sortedT (P ++ x :: Q) := he ▸ hsrt
  have hOkM : durOk (P ++ x :: Q) := he ▸ hOk
  have hndM : ((P ++ x :: Q).map (·.uuid)).Nodup := he ▸ hndT
  obtain ⟨hm₁, hm₂, hsrtPQ⟩ := sortedT_mid P Q x hsrtM
  obtain ⟨hxout, hndPQ⟩ := nodup_mid_of_nodup hndM
  have hfresh : ∀ r ∈ P ++ Q, r.start ≠ x'.start := by
    rcases hfr with hne | hall
    · intro r hr
      rw [hne]
      rcases List.mem_append.mp hr with hm | hm
      · exact ne_of_lt (hm₁ r hm)
      · exact ne_of_gt (hm₂ r hm)
    · intro r hr
      apply hall
      rw [he]
      rcases List.mem_append.mp hr with hm | hm
      · exact List.mem_append_left _ hm
      · exact List.mem_append_right _ (List.mem_cons_of_mem _ hm)
  obtain ⟨A, B, heAB, hA, hB, hins, hsrtI⟩ :=
    sortedT_insertByStart (P ++ Q) x' hsrtPQ hfresh
  rw [her]
  refine ⟨?_, ?_, ?_, hndR, ?_⟩
  · exact sortedT_of_starts_eq (starts_updTrigRepair _ _ _) (by rw [hins]; exact hsrtI)
  · exact durOk_updRepair P Q x x' hsrtM hOkM hfresh
  · show ((updTrigRepair (insertByStart (P ++ Q) x') x.start x'.start).map (·.uuid)).Nodup
    rw [uuids_updTrigRepair, hins, List.map_append, List.map_cons,
      List.nodup_middle, ← List.map_append, ← heAB, List.nodup_cons]
    refine ⟨?_, hndPQ⟩
    rw [hx'u]
    exact hxout
  · intro r hr t ht
    have hru : r.uuid ∈ (updTrigRepair (insertByStart (P ++ Q) x') x.start
        x'.start).map (·.uuid) := List.mem_map_of_mem _ hr
    rw [uuids_updTrigRepair, hins, List.map_append, List.map_cons] at hru
    have hPQ : r.uuid ∈ (P ++ Q).map (·.uuid) → r.uuid ≠ t.1 := by
      intro hmm
      have hmm' : r.uuid ∈ db.timelog.map (·.uuid) := by
        rw [he, List.map_append, List.map_cons]
        rw [List.map_append] at hmm
        rcases List.mem_append.mp hmm with hm | hm
        · exact List.mem_append_left _ hm
        · exact List.mem_append_right _ (List.mem_cons_of_mem _ hm)
      rcases List.mem_map.mp hmm' with ⟨r₀, hr₀, hre⟩
      rw [← hre]
      exact hdis r₀ hr₀ t ht
    rcases List.mem_append.mp hru with hm | hm
    · exact hPQ (by rw [heAB, List.map_append]; exact List.mem_append_left _ hm)
    · rcases List.mem_cons.mp hm with hm | hm
      · rw [hm, hx'u]
        exact hdis x hxmem t ht
      · exact hPQ (by rw [heAB, List.map_append]; exact List.mem_append_right _ hm)

/-- The in-place branch of the UPDATE statement (no start assignment, no
AFTER trigger) preserves the database invariant. -/
theorem InvDB_upd_nostart {db : DB} {u : Nat} {x : Row} (x' : Row) (hInv : InvDB db)
    (hfind : db.timelog.find? (fun r => r.uuid == u) = some x)
    (hx'u : x'.uuid = x.uuid) (hx's : x'.start = x.start)
    (hx'd : x'.duration = x.duration) :
    InvDB ⟨db.timelog.map (fun r => if r.uuid = u then x' else r), db.removed⟩ := by
  have hxmem : x ∈ db.timelog := List.mem_of_find?_eq_some hfind
  have hxu : x.uuid = u := by simpa using List.find?_some hfind
  apply InvDB_pointwise _ ?_ hInv
  intro r hr
  dsimp only
  by_cases hq : r.uuid = u
  · rw [if_pos hq]
    have hrx : r = x :=
      List.inj_on_of_nodup_map hInv.2.2.1 hr hxmem (by rw [hq, hxu])
    subst hrx
    exact ⟨hx's, hx'd, hx'u⟩
  · rw [if_neg hq]
    exact ⟨rfl, rfl, rfl⟩

theorem InvDB_sqlUpdateTimelog {db : DB} {u : Nat} {f : Fields} {s : Int}
    {cat com : String} {mt : Int} {db' : DB} {n : Int} (hInv : InvDB db)
    (h : sqlUpdateTimelog db u f s cat com mt = some (db', n)) : InvDB db' := by
  unfold sqlUpdateTimelog at h
  split at h
  · simp only [Option.some.injEq, Prod.mk.injEq] at h
    rw [← h.1]
    exact hInv
  · next x hfind =>
    split at h
    · simp only [Option.some.injEq, Prod.mk.injEq] at h
      rw [← h.1]
      exact hInv
    · by_cases hft : f.startTime = true
      · simp only [hft, eq_self_iff_true, if_true, true_and] at h
        by_cases hgd : s ≠ x.start ∧ (db.timelog.any fun r => r.start == s) = true
        · rw [if_pos hgd] at h
          exact absurd h (by simp)
        · rw [if_neg hgd] at h
          simp only [Option.some.injEq, Prod.mk.injEq] at h
          rw [← h.1]
          by_cases hs : s = x.start
          · exact InvDB_upd_start _ hInv hfind rfl (Or.inl hs)
          · have hall : ∀ r ∈ db.timelog, r.start ≠ s := by
              intro r hr heq
              exact hgd ⟨hs, List.any_eq_true.mpr ⟨r, hr, by simp [heq]⟩⟩
            exact InvDB_upd_start _ hInv hfind rfl (Or.inr hall)
      · simp only [Bool.not_eq_true] at hft
        simp only [hft, Bool.false_eq_true, if_false, false_and] at h
        simp only [Option.some.injEq, Prod.mk.injEq] at h
        rw [← h.1]
        exact InvDB_upd_nostart _ hInv hfind rfl rfl rfl


/-! Invariant preservation of the worker operations. -/

theorem setSize_db (w : W) (n : Int) : (setSize w n).1.db = w.db := by
  unfold setSize
  split <;> rfl

theorem setSize_stack (w : W) (n : Int) : (setSize w n).1.undoStack = w.undoStack := by
  unfold setSize
  split <;> rfl

theorem addToCategories_db (w : W) (c : String) : (addToCategories w c).1.db = w.db := by
  unfold addToCategories
  split <;> rfl

theorem addToCategories_stack (w : W) (c : String) :
    (addToCategories w c).1.undoStack = w.undoStack := by
  unfold addToCategories
  split <;> rfl

theorem removeFromCategories_db (w : W) (c : String) :
    (removeFromCategories w c).1.db = w.db := by
  unfold removeFromCategories
  split <;> rfl

theorem removeFromCategories_stack (w : W) (c : String) :
    (removeFromCategories w c).1.undoStack = w.undoStack := by
  unfold removeFromCategories
  split <;> rfl

theorem InvW_processFail {w : W} (hw : InvDB w.db) : InvW (processFail w).1 :=
  ⟨hw, by show ([] : List Frame).length ≤ maxUndoSize; decide⟩

theorem InvW_insertData1 {w : W} {d : SyncData} {now : Int} {fs : List Bool}
    (hw : InvW w) : InvW (insertData1 w d now fs).w := by
  unfold insertData1
  dsimp only
  split
  · exact hw
  · split
    · exact hw
    · next db' n heq =>
      refine ⟨?_, ?_⟩
      · rw [addToCategories_db, setSize_db]
        exact InvDB_sqlInsertTimelog hw.1 heq
      · rw [addToCategories_stack, setSize_stack]
        exact hw.2


theorem InvW_removeData {w : W} {d : SyncData} {now : Int} {fs : List Bool}
    (hw : InvW w) : InvW (removeData w d now fs).w := by
  unfold removeData
  dsimp only
  split
  · exact hw
  · refine ⟨?_, ?_⟩
    · rw [setSize_db]
      exact InvDB_sqlInsertRemoved hw.1
    · rw [setSize_stack]
      exact hw.2

theorem InvW_editData {w : W} {d : SyncData} {f : Fields} {now : Int} {fs : List Bool}
    (hw : InvW w) : InvW (editData w d f now fs).w := by
  unfold editData
  dsimp only
  split
  · exact hw
  · split
    · exact hw
    · next db' n heq =>
      split
      · refine ⟨?_, ?_⟩
        · rw [addToCategories_db]
          exact InvDB_sqlUpdateTimelog hw.1 heq
        · rw [addToCategories_stack]
          exact hw.2
      · exact ⟨InvDB_sqlUpdateTimelog hw.1 heq, hw.2⟩

theorem InvW_updateCategories {w : W} {fs : List Bool} (hw : InvW w) :
    InvW (updateCategories w fs).w := by
  unfold updateCategories
  dsimp only
  split
  · exact hw
  · exact ⟨hw.1, hw.2⟩

theorem InvW_editCategoryData {w : W} {oldN newN : String} {now : Int} {fs : List Bool}
    (hw : InvW w) : InvW (editCategoryData w oldN newN now fs).w := by
  unfold editCategoryData
  dsimp only
  split
  · exact hw
  · split
    · refine ⟨?_, ?_⟩
      · rw [removeFromCategories_db]
        exact hw.1
      · rw [removeFromCategories_stack]
        exact hw.2
    · split
      · exact hw
      · exact InvW_updateCategories ⟨InvDB_sqlRenameCategory oldN newN now hw.1, hw.2⟩

theorem InvW_pushUndo {w : W} (fr : Frame) (hw : InvW w) : InvW (pushUndo w fr).1 := by
  unfold pushUndo
  dsimp only
  split
  · next hlen =>
    refine ⟨hw.1, ?_⟩
    simpa using hw.2
  · next hlen =>
    exact ⟨hw.1, not_lt.mp hlen⟩

theorem InvW_insertEntry {w : W} {d : SyncData} {now : Int} {fs : List Bool}
    (hw : InvW w) : InvW (insertEntry w d now fs).w := by
  unfold insertEntry
  dsimp only
  split
  · exact InvW_insertData1 hw
  · exact InvW_processFail (InvW_insertData1 hw).1

theorem InvW_removeEntry {w : W} {d : SyncData} {now : Int} {fs : List Bool}
    (hw : InvW w) : InvW (removeEntry w d now fs).w := by
  unfold removeEntry
  dsimp only
  split
  · exact InvW_removeData hw
  · exact InvW_processFail (InvW_removeData hw).1

theorem InvW_editEntry {w : W} {d : SyncData} {f : Fields} {now : Int} {fs : List Bool}
    (hw : InvW w) : InvW (editEntry w d f now fs).w := by
  unfold editEntry
  dsimp only
  split
  · exact hw
  · split
    · exact InvW_processFail hw.1
    · split
      · exact InvW_editData hw
      · exact InvW_processFail (InvW_editData hw).1


theorem InvW_editEntries :
    ∀ (ds : List Entry) (flds : List Fields) (w : W) (now : Int) (fs : List Bool),
      InvW w → InvW (editEntries w ds flds now fs).1
  | [], _, w, now, fs, hw => hw
  | _ :: _, [], w, now, fs, hw => hw
  | d :: ds', f :: fl', w, now, fs, hw => by
    unfold editEntries
    dsimp only
    split
    · exact InvW_editEntries ds' fl' _ now _ (InvW_editEntry hw)
    · exact InvW_editEntry hw

theorem InvW_insertDataGo {db0 : DB} (hdb0 : InvDB db0) :
    ∀ (ds : List Entry) (w : W) (now : Int) (fs : List Bool),
      InvW w → InvW (insertDataGo w db0 ds now fs).w
  | [], w, now, fs, hw => by
    unfold insertDataGo
    dsimp only
    split
    · exact ⟨hdb0, hw.2⟩
    · exact hw
  | d :: ds', w, now, fs, hw => by
    unfold insertDataGo
    dsimp only
    split
    · exact InvW_insertDataGo hdb0 ds' _ now _ (InvW_insertData1 hw)
    · exact ⟨hdb0, (InvW_insertData1 hw).2⟩

theorem InvW_insertDataV {w : W} {ds : List Entry} {now : Int} {fs : List Bool}
    (hw : InvW w) : InvW (insertDataV w ds now fs).w :=
  InvW_insertDataGo hw.1 ds w now fs hw

theorem InvW_syncRemLoop :
    ∀ (rs : List SyncData) (w : W) (now : Int) (fs : List Bool),
      InvW w → InvW (syncRemLoop w rs now fs).w
  | [], w, now, fs, hw => hw
  | r :: rs', w, now, fs, hw => by
    unfold syncRemLoop
    dsimp only
    split
    · exact InvW_syncRemLoop rs' _ now _ (InvW_removeData hw)
    · exact InvW_removeData hw

theorem InvW_syncInsLoop :
    ∀ (rs : List SyncData) (w : W) (now : Int) (fs : List Bool),
      InvW w → InvW (syncInsLoop w rs now fs).w
  | [], w, now, fs, hw => hw
  | r :: rs', w, now, fs, hw => by
    unfold syncInsLoop
    dsimp only
    split
    · exact InvW_syncInsLoop rs' _ now _ (InvW_insertData1 hw)
    · exact InvW_insertData1 hw

theorem InvW_syncUpdLoop :
    ∀ (rs : List SyncData) (w : W) (now : Int) (fs : List Bool),
      InvW w → InvW (syncUpdLoop w rs now fs).w
  | [], w, now, fs, hw => hw
  | r :: rs', w, now, fs, hw => by
    unfold syncUpdLoop
    dsimp only
    split
    · exact InvW_syncUpdLoop rs' _ now _ (InvW_editData hw)
    · exact InvW_editData hw

theorem InvW_syncDataFn {w : W} {removed inserted updNew updOld : List SyncData}
    {now : Int} {fs : List Bool} (hw : InvW w) :
    InvW (syncDataFn w removed inserted updNew updOld now fs).w := by
  have h1 := InvW_syncRemLoop removed w now fs hw
  unfold syncDataFn
  dsimp only
  split
  · exact ⟨hw.1, h1.2⟩
  · have h2 := InvW_syncInsLoop inserted (syncRemLoop w removed now fs).w now
      (syncRemLoop w removed now fs).fs h1
    split
    · exact ⟨hw.1, h2.2⟩
    · have h3 := InvW_syncUpdLoop updNew
        (syncInsLoop (syncRemLoop w removed now fs).w inserted now
          (syncRemLoop w removed now fs).fs).w now
        (syncInsLoop (syncRemLoop w removed now fs).w inserted now
          (syncRemLoop w removed now fs).fs).fs h2
      split
      · exact ⟨hw.1, h3.2⟩
      · split
        · exact ⟨hw.1, h3.2⟩
        · exact h3

theorem InvW_runCmd {w : W} {c : Cmd} {now : Int} {fs : List Bool} (hw : InvW w) :
    InvW (runCmd w c now fs).1 := by
  unfold runCmd
  cases c with
  | cInsert d =>
    exact InvW_insertEntry (InvW_pushUndo _ hw)
  | cImport ds =>
    dsimp only
    split
    · exact InvW_insertDataV hw
    · exact InvW_processFail (InvW_insertDataV hw).1
  | cRemove d =>
    exact InvW_removeEntry (InvW_pushUndo _ hw)
  | cEdit d f =>
    exact InvW_editEntry (InvW_pushUndo _ hw)
  | cEditCategory oldN newN =>
    dsimp only
    split
    · exact hw
    · split
      · exact hw
      · split
        · exact InvW_editCategoryData (InvW_pushUndo _ hw)
        · exact InvW_processFail (InvW_editCategoryData (InvW_pushUndo _ hw)).1
  | cSync upd rem =>
    dsimp only
    split
    · exact InvW_syncDataFn hw
    · exact InvW_syncDataFn hw
  | cUndo =>
    dsimp only
    split
    · exact hw
    · next fr heq =>
      have hw1 : InvW { w with undoStack := w.undoStack.dropLast } :=
        ⟨hw.1, le_trans (List.length_dropLast _ ▸ Nat.sub_le _ _) hw.2⟩
      split
      · exact InvW_removeEntry hw1
      · exact InvW_insertEntry hw1
      · exact InvW_editEntry hw1
      · exact InvW_editEntries _ _ _ now fs hw1

theorem InvW_initW : InvW initW := by
  refine ⟨⟨?_, ⟨?_, ?_⟩, ?_, ?_, ?_⟩, ?_⟩ <;> simp [initW, sortedT, durOk, maxUndoSize]

theorem InvW_foldSteps :
    ∀ (steps : List Step) (w : W), InvW w →
      InvW (steps.foldl (fun w st => (runCmd w st.cmd st.now st.fs).1) w)
  | [], _, hw => hw
  | _ :: steps, _, hw => InvW_foldSteps steps _ (InvW_runCmd hw)

theorem InvW_execSteps (steps : List Step) : InvW (execSteps steps) :=
  InvW_foldSteps steps initW InvW_initW


/-! Derived statements of the duration invariant. -/

theorem filter_dur_neg1 :
    ∀ (A : List Row) (z : Row), sortedT (A ++ [z]) → List.Chain' DR (A ++ [z]) →
      z.duration = -1 →
      (A ++ [z]).filter (fun r => r.duration == -1) = [z]
  | [], z, _, _, hz => by
    simp [hz]
  | a :: A', z, hs, hc, hz => by
    rw [List.cons_append] at hs hc ⊢
    rw [sortedT, List.chain'_cons'] at hs
    rw [List.chain'_cons'] at hc
    cases hh : (A' ++ [z]).head? with
    | none =>
      rw [List.head?_eq_none_iff] at hh
      exact absurd hh (by simp)
    | some y =>
      have hlt : a.start < y.start := hs.1 y (by rw [hh]; rfl)
      have hdr : a.duration = y.start - a.start := hc.1 y (by rw [hh]; rfl)
      rw [List.filter_cons_of_neg (by simp; omega)]
      exact filter_dur_neg1 A' z hs.2 hc.2 hz

/-- Claim C1: on every worker state reachable by a command sequence from
the empty database, the duration column is canonical: at most one live row
has duration `-1`, exactly one iff the table is non-empty, such a row has
maximum start, and every adjacent pair satisfies
`A.duration = B.start - A.start`. -/
theorem durations_canonical (steps : List Step) :
    ((execSteps steps).db.timelog.filter (fun r => r.duration == -1)).length ≤ 1
    ∧ (((execSteps steps).db.timelog.filter (fun r => r.duration == -1)).length = 1
        ↔ (execSteps steps).db.timelog ≠ [])
    ∧ (∀ r ∈ (execSteps steps).db.timelog, r.duration = -1 →
        ∀ q ∈ (execSteps steps).db.timelog, q.start ≤ r.start)
    ∧ ∀ (i : Nat) (h : i + 1 < (execSteps steps).db.timelog.length),
        ((execSteps steps).db.timelog.get ⟨i, by omega⟩).duration
          = ((execSteps steps).db.timelog.get ⟨i + 1, h⟩).start
            - ((execSteps steps).db.timelog.get ⟨i, by omega⟩).start := by
  obtain ⟨⟨hsrt, hOk, _, _, _⟩, _⟩ := InvW_execSteps steps
  have hadj : ∀ (i : Nat) (h : i + 1 < (execSteps steps).db.timelog.length),
      ((execSteps steps).db.timelog.get ⟨i, by omega⟩).duration
        = ((execSteps steps).db.timelog.get ⟨i + 1, h⟩).start
          - ((execSteps steps).db.timelog.get ⟨i, by omega⟩).start := by
    intro i h
    exact List.chain'_iff_get.mp hOk.1 i (by omega)
  rcases (execSteps steps).db.timelog.eq_nil_or_concat' with hnil | ⟨A, z, hAz⟩
  · rw [hnil]
    refine ⟨by simp, by simp, by simp, ?_⟩
    rw [← hnil]
    exact hadj
  · have hz : z.duration = -1 := hOk.2 z (by rw [hAz, List.getLast?_concat]; rfl)
    have hfil : (execSteps steps).db.timelog.filter (fun r => r.duration == -1) = [z] := by
      rw [hAz]
      exact filter_dur_neg1 A z (hAz ▸ hsrt) (hAz ▸ hOk.1) hz
    refine ⟨by rw [hfil]; simp, ⟨fun _ => by rw [hAz]; simp, fun _ => by rw [hfil]; simp⟩,
      ?_, hadj⟩
    intro r hr hrd q hq
    have hrz : r = z := by
      have : r ∈ (execSteps steps).db.timelog.filter (fun r => r.duration == -1) :=
        List.mem_filter.mpr ⟨hr, by simp [hrd]⟩
      rw [hfil] at this
      simpa using this
    subst hrz
    rw [hAz] at hq
    rcases List.mem_append.mp hq with hm | hm
    · have hp := sortedT_pairwise (hAz ▸ hsrt)
      rw [List.pairwise_append] at hp
      exact le_of_lt (hp.2.2 q hm r (by simp))
    · simp only [List.mem_singleton] at hm
      rw [hm]

/-- Witness for C1: a two-insert run, checked at the adjacent pair. -/
theorem durations_canonical_witness :
    0 + 1 < (execSteps [⟨.cInsert ⟨1, some 10, "a", "", 0, 0⟩, 1000, []⟩,
        ⟨.cInsert ⟨2, some 20, "a", "", 0, 0⟩, 1001, []⟩]).db.timelog.length
    ∧ ((execSteps [⟨.cInsert ⟨1, some 10, "a", "", 0, 0⟩, 1000, []⟩,
        ⟨.cInsert ⟨2, some 20, "a", "", 0, 0⟩, 1001, []⟩]).db.timelog.get
          ⟨0, by decide⟩).duration
        = ((execSteps [⟨.cInsert ⟨1, some 10, "a", "", 0, 0⟩, 1000, []⟩,
            ⟨.cInsert ⟨2, some 20, "a", "", 0, 0⟩, 1001, []⟩]).db.timelog.get
              ⟨0 + 1, by decide⟩).start
          - ((execSteps [⟨.cInsert ⟨1, some 10, "a", "", 0, 0⟩, 1000, []⟩,
              ⟨.cInsert ⟨2, some 20, "a", "", 0, 0⟩, 1001, []⟩]).db.timelog.get
                ⟨0, by decide⟩).start :=
  ⟨by decide,
   (durations_canonical [⟨.cInsert ⟨1, some 10, "a", "", 0, 0⟩, 1000, []⟩,
      ⟨.cInsert ⟨2, some 20, "a", "", 0, 0⟩, 1001, []⟩]).2.2.2 0 (by decide)⟩


/-- Claim C9: the undo stack is bounded at `maxUndoSize = 10` frames on
every reachable state; a push onto a full stack trims the oldest frame and
emits nothing, a push onto a non-full stack appends and emits the new
count. -/
theorem undo_stack_bounded (w : W) (fr : Frame)
    (hw : w.undoStack.length ≤ maxUndoSize) :
    (∀ steps : List Step, (execSteps steps).undoStack.length ≤ maxUndoSize)
    ∧ (pushUndo w fr).1.undoStack.length ≤ maxUndoSize
    ∧ (w.undoStack.length = maxUndoSize →
        (pushUndo w fr).1.undoStack = w.undoStack.tail ++ [fr]
        ∧ (pushUndo w fr).2 = [])
    ∧ (w.undoStack.length < maxUndoSize →
        (pushUndo w fr).1.undoStack = w.undoStack ++ [fr]
        ∧ (pushUndo w fr).2 = [.undoCountChanged (w.undoStack.length + 1)]) := by
  refine ⟨fun steps => (InvW_execSteps steps).2, ?_, ?_, ?_⟩
  · unfold pushUndo
    dsimp only
    split
    · next hlen => simpa using hw
    · next hlen => exact not_lt.mp hlen
  · intro hfull
    unfold pushUndo
    dsimp only
    rw [if_pos (by simp [hfull, maxUndoSize])]
    refine ⟨?_, rfl⟩
    show (w.undoStack ++ [fr]).tail = w.undoStack.tail ++ [fr]
    apply List.tail_append_of_ne_nil
    intro hnil
    rw [hnil] at hfull
    exact absurd hfull (by decide)
  · intro hlt
    unfold pushUndo
    dsimp only
    rw [if_neg (by simp; omega)]
    exact ⟨rfl, by simp⟩

/-- Witness for C9: pushing onto a full stack of ten frames keeps ten
frames and emits nothing. -/
theorem undo_stack_bounded_witness :
    (pushUndo ⟨⟨[], []⟩, 0, ∅, List.replicate 10 ⟨.uInsert, [], []⟩⟩
        ⟨.uRemove, [], []⟩).1.undoStack.length ≤ maxUndoSize
    ∧ (pushUndo ⟨⟨[], []⟩, 0, ∅, List.replicate 10 ⟨.uInsert, [], []⟩⟩
        ⟨.uRemove, [], []⟩).2 = [] := by
  have h := undo_stack_bounded ⟨⟨[], []⟩, 0, ∅, List.replicate 10 ⟨.uInsert, [], []⟩⟩
    ⟨.uRemove, [], []⟩ (by decide)
  exact ⟨h.2.1, (h.2.2.1 (by decide)).2⟩


/-- Claim C8: on a sorted table, `getHistoryBefore(id, L, t)` delivers,
through `historyRequestCompleted` with the caller's id, exactly the `L`
rows of largest start strictly below `t` (all of them when fewer exist),
ascending by start: the result is the tail-window of the filtered table,
its length is `min L` count, it is strictly ascending, and every omitted
candidate start lies below every delivered one. -/
theorem getHistoryBefore_correct (w : W) (id : Int) (L : Nat) (t : Int)
    (hs : sortedT w.db.timelog) :
    getHistoryBeforeCmd w id L t
      = (w, [.historyRequestCompleted (getHistoryBeforeRes w.db L t) id])
    ∧ getHistoryBeforeRes w.db L t
        = ((w.db.timelog.filter (fun r => r.start < t)).drop
            ((w.db.timelog.filter (fun r => r.start < t)).length - L)).map (selectRow w.db)
    ∧ (getHistoryBeforeRes w.db L t).length
        = min L (w.db.timelog.filter (fun r => r.start < t)).length
    ∧ List.Chain' (fun a b : Entry => a.start.getD 0 < b.start.getD 0)
        (getHistoryBeforeRes w.db L t)
    ∧ ∀ r ∈ (w.db.timelog.filter (fun r => r.start < t)).take
          ((w.db.timelog.filter (fun r => r.start < t)).length - L),
        ∀ q ∈ (w.db.timelog.filter (fun r => r.start < t)).drop
          ((w.db.timelog.filter (fun r => r.start < t)).length - L),
        r.start < q.start := by
  have hres : getHistoryBeforeRes w.db L t
      = ((w.db.timelog.filter (fun r => r.start < t)).drop
          ((w.db.timelog.filter (fun r => r.start < t)).length - L)).map (selectRow w.db) := by
    unfold getHistoryBeforeRes
    rw [List.take_reverse, ← List.map_reverse, List.reverse_reverse]
  have hpF : (w.db.timelog.filter (fun r => r.start < t)).Pairwise ltS :=
    (sortedT_pairwise hs).sublist (List.filter_sublist _)
  refine ⟨rfl, hres, ?_, ?_, ?_⟩
  · rw [hres, List.length_map, List.length_drop]
    omega
  · rw [hres]
    apply (List.chain'_map (selectRow w.db)).mpr
    have hd : ((w.db.timelog.filter (fun r => r.start < t)).drop
        ((w.db.timelog.filter (fun r => r.start < t)).length - L)).Pairwise ltS :=
      hpF.sublist (List.drop_sublist _ _)
    exact List.Chain'.imp (fun a b h => h) (pairwise_sortedT hd)
  · intro r hr q hq
    have hpF2 : (((w.db.timelog.filter (fun x => x.start < t)).take
          ((w.db.timelog.filter (fun x => x.start < t)).length - L))
        ++ ((w.db.timelog.filter (fun x => x.start < t)).drop
          ((w.db.timelog.filter (fun x => x.start < t)).length - L))).Pairwise ltS := by
      rw [List.take_append_drop]
      exact hpF
    exact (List.pairwise_append.mp hpF2).2.2 r hr q hq

/-- Witness for C8: three rows, limit 2, cutoff 18 — the result has the
two largest starts below 18. -/
theorem getHistoryBefore_correct_witness :
    (getHistoryBeforeRes ⟨[(⟨1, 5, "a", "", 5, 0⟩ : Row), ⟨2, 10, "a", "", 5, 0⟩,
        ⟨3, 15, "a", "", -1, 0⟩], []⟩ 2 18).length
      = min 2 (((⟨[(⟨1, 5, "a", "", 5, 0⟩ : Row), ⟨2, 10, "a", "", 5, 0⟩,
          ⟨3, 15, "a", "", -1, 0⟩], []⟩ : DB)).timelog.filter (fun r => r.start < 18)).length :=
  (getHistoryBefore_correct
    ⟨⟨[(⟨1, 5, "a", "", 5, 0⟩ : Row), ⟨2, 10, "a", "", 5, 0⟩, ⟨3, 15, "a", "", -1, 0⟩], []⟩,
      3, ∅, []⟩ 7 2 18 (by simp [sortedT, ltS, List.chain'_cons])).2.2.1


/-! Evaluation helpers for the remove command. -/

theorem pushUndo_db (w : W) (fr : Frame) : (pushUndo w fr).1.db = w.db := by
  unfold pushUndo
  dsimp only
  split <;> rfl

theorem pushUndo_size (w : W) (fr : Frame) : (pushUndo w fr).1.size = w.size := by
  unfold pushUndo
  dsimp only
  split <;> rfl

theorem setSize_size (w : W) (n : Int) : (setSize w n).1.size = n := by
  unfold setSize
  split
  · next h => exact h
  · rfl

theorem error_not_mem_pushUndo (w : W) (fr : Frame) : Ev.error ∉ (pushUndo w fr).2 := by
  unfold pushUndo
  dsimp only
  split <;> simp

theorem error_not_mem_setSize (w : W) (n : Int) : Ev.error ∉ (setSize w n).2 := by
  unfold setSize
  split <;> simp

theorem error_not_mem_notifyRemove (db : DB) (s : Int) :
    Ev.error ∉ notifyRemoveUpdates db s := by
  unfold notifyRemoveUpdates
  dsimp only
  split <;> simp

theorem removeData_eval (w : W) (d : SyncData) (now : Int) (fs : List Bool)
    (hfs : fs.headD false = false) :
    removeData w d now fs =
      ⟨true, (setSize { w with db := (sqlInsertRemoved w.db d.uuid (d.mtime.getD now)).1 }
          (w.size - (sqlInsertRemoved w.db d.uuid (d.mtime.getD now)).2)).1,
        (setSize { w with db := (sqlInsertRemoved w.db d.uuid (d.mtime.getD now)).1 }
          (w.size - (sqlInsertRemoved w.db d.uuid (d.mtime.getD now)).2)).2,
        fs.tail⟩ := by
  unfold removeData
  dsimp only
  rw [show (stepFail fs).1 = false from hfs]
  simp only [Bool.false_eq_true, if_false]
  rfl

theorem removeEntry_eval (w : W) (d : SyncData) (now : Int) (fs : List Bool)
    (hfs : fs.headD false = false) :
    removeEntry w d now fs =
      ⟨true, (removeData w d now fs).w,
        (removeData w d now fs).evs ++ [.dataRemoved d]
          ++ notifyRemoveUpdates (removeData w d now fs).w.db (d.start.getD 0),
        (removeData w d now fs).fs⟩ := by
  unfold removeEntry
  dsimp only
  rw [removeData_eval w d now fs hfs]
  rfl

theorem find?_append_none {α : Type} {p : α → Bool} {l₁ l₂ : List α}
    (h : l₁.find? p = none) : (l₁ ++ l₂).find? p = l₂.find? p := by
  induction l₁ with
  | nil => rfl
  | cons a t ih =>
    have ha : ¬ p a = true := by
      intro hp
      rw [List.find?_cons_of_pos _ hp] at h
      exact absurd h (by simp)
    rw [List.find?_cons_of_neg _ ha] at h
    rw [List.cons_append, List.find?_cons_of_neg _ ha]
    exact ih h

theorem findTomb_map_replace {rem : List (Nat × Int)} {u : Nat} {tm : Int} (mt : Int)
    (h : findTomb rem u = some tm) :
    findTomb (rem.map (fun t => if t.1 = u then (u, mt) else t)) u = some mt := by
  induction rem with
  | nil => simp [findTomb] at h
  | cons t rs ih =>
    by_cases ht : t.1 = u
    · unfold findTomb
      rw [List.map_cons, if_pos ht, List.find?_cons_of_pos _ (by simp)]
      rfl
    · unfold findTomb at h ⊢
      rw [List.find?_cons_of_neg _ (by simpa using ht)] at h
      rw [List.map_cons, if_neg ht, List.find?_cons_of_neg _ (by simpa using ht)]
      exact ih h

theorem findTomb_append_self {rem : List (Nat × Int)} {u : Nat} (mt : Int)
    (h : findTomb rem u = none) :
    findTomb (rem ++ [(u, mt)]) u = some mt := by
  unfold findTomb at h ⊢
  rw [find?_append_none ?_]
  · rw [List.find?_cons_of_pos _ (by simp)]
    rfl
  · cases hf : rem.find? (fun t => t.1 == u) with
    | none => rfl
    | some x =>
      rw [hf] at h
      exact absurd h (by simp)


/-- Claim C10 (amended): removing an entry whose uuid has no live row does
not report an unknown-uuid error: it pushes an undo frame capturing the
invalid pre-image, emits `dataRemoved` and no `error`, and writes a
tombstone with `mtime = now` (decrementing the size counter by the one
tombstone row written) — unless an existing tombstone carries `mtime`
greater than `now`, in which case the tombstone write is suppressed and
the database and size stay unchanged. -/
theorem remove_unknown_uuid (w : W) (d : Entry) (now : Int) (fs : List Bool)
    (hnl : w.db.timelog.find? (fun r => r.uuid == d.uuid) = none)
    (hfs : fs.headD false = false) :
    (getEntry w.db d.uuid).isValid = false
    ∧ (runCmd w (.cRemove d) now fs).1.undoStack
        = (pushUndo w ⟨.uRemove, [getEntry w.db d.uuid], []⟩).1.undoStack
    ∧ Ev.dataRemoved (toSync d) ∈ (runCmd w (.cRemove d) now fs).2
    ∧ Ev.error ∉ (runCmd w (.cRemove d) now fs).2
    ∧ (∀ tm, findTomb w.db.removed d.uuid = some tm → now < tm →
        (runCmd w (.cRemove d) now fs).1.db = w.db
        ∧ (runCmd w (.cRemove d) now fs).1.size = w.size)
    ∧ ((∀ tm ∈ findTomb w.db.removed d.uuid, ¬ now < tm) →
        findTomb (runCmd w (.cRemove d) now fs).1.db.removed d.uuid = some now
        ∧ (runCmd w (.cRemove d) now fs).1.size = w.size - 1
        ∧ (runCmd w (.cRemove d) now fs).1.db.timelog = w.db.timelog) := by
  have hgv : (getEntry w.db d.uuid).isValid = false := by
    unfold getEntry
    rw [hnl]
    rfl
  have hrun1 : (runCmd w (.cRemove d) now fs).1
      = (removeEntry (pushUndo w ⟨.uRemove, [getEntry w.db d.uuid], []⟩).1
          (toSync d) now fs).w := rfl
  have hrun2 : (runCmd w (.cRemove d) now fs).2
      = (pushUndo w ⟨.uRemove, [getEntry w.db d.uuid], []⟩).2
        ++ (removeEntry (pushUndo w ⟨.uRemove, [getEntry w.db d.uuid], []⟩).1
            (toSync d) now fs).evs := rfl
  rw [removeEntry_eval _ _ _ _ hfs] at hrun1 hrun2
  rw [removeData_eval _ _ _ _ hfs] at hrun1 hrun2
  dsimp only at hrun1 hrun2
  simp only [toSync, Option.getD_none] at hrun1 hrun2
  rw [pushUndo_db] at hrun1 hrun2
  refine ⟨hgv, ?_, ?_, ?_, ?_, ?_⟩
  · rw [hrun1, setSize_stack]
  · rw [hrun2]
    simp [toSync, List.mem_append]
  · rw [hrun2]
    intro hmem
    simp only [List.mem_append] at hmem
    rcases hmem with h | ((h | h) | h)
    · exact error_not_mem_pushUndo _ _ h
    · exact error_not_mem_setSize _ _ h
    · simp at h
    · exact error_not_mem_notifyRemove _ _ h
  · intro tm hto hlt
    have hR : sqlInsertRemoved w.db d.uuid now = (w.db, 0) := by
      unfold sqlInsertRemoved
      rw [hto]
      show (if now < tm then _ else _) = _
      rw [if_pos hlt]
    rw [hrun1, hR] at *
    constructor
    · rw [setSize_db]
    · rw [setSize_size, pushUndo_size]
      omega
  · intro htm
    have hdel : sqlDeleteByUuid w.db.timelog d.uuid = w.db.timelog := by
      unfold sqlDeleteByUuid
      rw [hnl]
    cases hto : findTomb w.db.removed d.uuid with
    | none =>
      have hR : sqlInsertRemoved w.db d.uuid now
          = (⟨sqlDeleteByUuid w.db.timelog d.uuid, w.db.removed ++ [(d.uuid, now)]⟩, 1) := by
        unfold sqlInsertRemoved
        rw [hto]
      rw [hrun1, hR]
      refine ⟨?_, ?_, ?_⟩
      · rw [setSize_db]
        exact findTomb_append_self now hto
      · rw [setSize_size, pushUndo_size]
      · rw [setSize_db]
        exact hdel
    | some tm =>
      have hnlt : ¬ now < tm := htm tm (by rw [hto]; rfl)
      have hR : sqlInsertRemoved w.db d.uuid now
          = (⟨sqlDeleteByUuid w.db.timelog d.uuid,
              w.db.removed.map (fun t => if t.1 = d.uuid then (d.uuid, now) else t)⟩, 1) := by
        unfold sqlInsertRemoved
        rw [hto]
        show (if now < tm then _ else _) = _
        rw [if_neg hnlt]
      rw [hrun1, hR]
      refine ⟨?_, ?_, ?_⟩
      · rw [setSize_db]
        exact findTomb_map_replace now hto
      · rw [setSize_size, pushUndo_size]
      · rw [setSize_db]
        exact hdel

/-- Witness for C10: removing a never-seen uuid on an empty database
writes the tombstone, emits `dataRemoved`, and decrements the size. -/
theorem remove_unknown_uuid_witness :
    Ev.dataRemoved (toSync ⟨5, none, "", "", 0, 0⟩)
        ∈ (runCmd ⟨⟨[], []⟩, 0, ∅, []⟩ (.cRemove ⟨5, none, "", "", 0, 0⟩) 50 []).2
    ∧ findTomb (runCmd ⟨⟨[], []⟩, 0, ∅, []⟩
        (.cRemove ⟨5, none, "", "", 0, 0⟩) 50 []).1.db.removed 5 = some 50
    ∧ (runCmd ⟨⟨[], []⟩, 0, ∅, []⟩
        (.cRemove ⟨5, none, "", "", 0, 0⟩) 50 []).1.size = 0 - 1 := by
  have h := remove_unknown_uuid ⟨⟨[], []⟩, 0, ∅, []⟩ ⟨5, none, "", "", 0, 0⟩ 50 []
    (by decide) (by decide)
  have h6 := h.2.2.2.2.2 (by intro tm htm; simp [findTomb] at htm)
  exact ⟨h.2.2.1, h6.1, h6.2.1⟩

/-- Counterexample to C10 as stated: with an existing tombstone of mtime
100, removing the uuid at `now = 50` does not overwrite the tombstone with
`mtime = now` and does not decrement the size. -/
theorem remove_unknown_uuid_counterexample :
    (runCmd ⟨⟨[], [(5, 100)]⟩, 3, ∅, []⟩
        (.cRemove ⟨5, none, "", "", 0, 0⟩) 50 []).1.db.removed = [(5, 100)]
    ∧ (runCmd ⟨⟨[], [(5, 100)]⟩, 3, ∅, []⟩
        (.cRemove ⟨5, none, "", "", 0, 0⟩) 50 []).1.size = 3 := by
  decide


/-! Evaluation helpers for the insert command. -/

theorem error_not_mem_addToCategories (w : W) (c : String) :
    Ev.error ∉ (addToCategories w c).2 := by
  unfold addToCategories
  split <;> simp

theorem error_not_mem_notifyInsert (db : DB) (s : Int) :
    Ev.error ∉ notifyInsertUpdates db s := by
  unfold notifyInsertUpdates
  dsimp only
  split <;> simp

theorem dataOutdated_not_mem_pushUndo (w : W) (fr : Frame) :
    Ev.dataOutdated ∉ (pushUndo w fr).2 := by
  unfold pushUndo
  dsimp only
  split <;> simp

theorem dataOutdated_not_mem_setSize (w : W) (n : Int) :
    Ev.dataOutdated ∉ (setSize w n).2 := by
  unfold setSize
  split <;> simp

theorem dataOutdated_not_mem_addToCategories (w : W) (c : String) :
    Ev.dataOutdated ∉ (addToCategories w c).2 := by
  unfold addToCategories
  split <;> simp

theorem dataOutdated_not_mem_notifyInsert (db : DB) (s : Int) :
    Ev.dataOutdated ∉ notifyInsertUpdates db s := by
  unfold notifyInsertUpdates
  dsimp only
  split <;> simp

theorem insertData1_eval (w : W) (d : SyncData) (now : Int) (fs : List Bool)
    {db' : DB} {n : Int}
    (hfs : fs.headD false = false)
    (hsql : sqlInsertTimelog w.db d.uuid (d.start.getD 0) d.category d.comment
      (d.mtime.getD now) = some (db', n)) :
    insertData1 w d now fs =
      ⟨true, (addToCategories (setSize { w with db := db' } (w.size + n)).1 d.category).1,
        (setSize { w with db := db' } (w.size + n)).2
          ++ (addToCategories (setSize { w with db := db' } (w.size + n)).1 d.category).2,
        fs.tail⟩ := by
  unfold insertData1
  dsimp only
  rw [show (stepFail fs).1 = false from hfs]
  simp only [Bool.false_eq_true, if_false]
  rw [hsql]
  rfl

theorem insertEntry_eval (w : W) (d : SyncData) (now : Int) (fs : List Bool)
    (hok : (insertData1 w d now fs).ok = true) :
    insertEntry w d now fs =
      ⟨true, (insertData1 w d now fs).w,
        (insertData1 w d now fs).evs ++ [.dataInserted d]
          ++ notifyInsertUpdates (insertData1 w d now fs).w.db (d.start.getD 0),
        (insertData1 w d now fs).fs⟩ := by
  unfold insertEntry
  dsimp only
  rw [if_pos hok]

/-- Claim C2 (amended): an insert whose uuid has a tombstone with mtime
strictly greater than the insert's mtime is silently suppressed: the
database (both tables) and the size stay unchanged and neither `error`
nor `dataOutdated` is emitted.  (A tombstone of mtime merely equal to the
insert's mtime does not suppress the insert.) -/
theorem tombstone_blocks_insert (w : W) (d : Entry) (now : Int) (fs : List Bool) (tm : Int)
    (hto : findTomb w.db.removed d.uuid = some tm)
    (hlt : now < tm)
    (hfs : fs.headD false = false) :
    (runCmd w (.cInsert d) now fs).1.db = w.db
    ∧ (runCmd w (.cInsert d) now fs).1.size = w.size
    ∧ Ev.error ∉ (runCmd w (.cInsert d) now fs).2
    ∧ Ev.dataOutdated ∉ (runCmd w (.cInsert d) now fs).2 := by
  have hsql : sqlInsertTimelog (pushUndo w ⟨.uInsert, [d], []⟩).1.db (toSync d).uuid
      ((toSync d).start.getD 0) (toSync d).category (toSync d).comment
      ((toSync d).mtime.getD now) = some ((pushUndo w ⟨.uInsert, [d], []⟩).1.db, 0) := by
    rw [pushUndo_db]
    unfold sqlInsertTimelog
    rw [show (toSync d).uuid = d.uuid from rfl, hto]
    show (if (toSync d).mtime.getD now < tm then _ else _) = _
    rw [if_pos (by simpa [toSync] using hlt)]
  have hid := insertData1_eval (pushUndo w ⟨.uInsert, [d], []⟩).1 (toSync d) now fs hfs hsql
  have hrun1 : (runCmd w (.cInsert d) now fs).1
      = (insertEntry (pushUndo w ⟨.uInsert, [d], []⟩).1 (toSync d) now fs).w := rfl
  have hrun2 : (runCmd w (.cInsert d) now fs).2
      = (pushUndo w ⟨.uInsert, [d], []⟩).2
        ++ (insertEntry (pushUndo w ⟨.uInsert, [d], []⟩).1 (toSync d) now fs).evs := rfl
  rw [insertEntry_eval _ _ _ _ (by rw [hid])] at hrun1 hrun2
  rw [hid] at hrun1 hrun2
  dsimp only at hrun1 hrun2
  refine ⟨?_, ?_, ?_, ?_⟩
  · rw [hrun1, addToCategories_db, setSize_db, pushUndo_db]
  · rw [hrun1]
    rw [show ∀ w2 : W, (addToCategories w2 (toSync d).category).1.size = w2.size from
      fun w2 => by unfold addToCategories; split <;> rfl]
    rw [setSize_size, pushUndo_size]
    omega
  · rw [hrun2]
    intro hmem
    simp only [List.mem_append] at hmem
    rcases hmem with h | (((h | h) | h) | h)
    · exact error_not_mem_pushUndo _ _ h
    · exact error_not_mem_setSize _ _ h
    · exact error_not_mem_addToCategories _ _ h
    · simp at h
    · exact error_not_mem_notifyInsert _ _ h
  · rw [hrun2]
    intro hmem
    simp only [List.mem_append] at hmem
    rcases hmem with h | (((h | h) | h) | h)
    · exact dataOutdated_not_mem_pushUndo _ _ h
    · exact dataOutdated_not_mem_setSize _ _ h
    · exact dataOutdated_not_mem_addToCategories _ _ h
    · simp at h
    · exact dataOutdated_not_mem_notifyInsert _ _ h

/-- Witness for C2: a tombstone of mtime 100 suppresses an insert issued
at time 50. -/
theorem tombstone_blocks_insert_witness :
    (runCmd ⟨⟨[], [(7, 100)]⟩, 0, ∅, []⟩
        (.cInsert ⟨7, some 10, "a", "", 0, 0⟩) 50 []).1.db = ⟨[], [(7, 100)]⟩
    ∧ Ev.error ∉ (runCmd ⟨⟨[], [(7, 100)]⟩, 0, ∅, []⟩
        (.cInsert ⟨7, some 10, "a", "", 0, 0⟩) 50 []).2 := by
  have h := tombstone_blocks_insert ⟨⟨[], [(7, 100)]⟩, 0, ∅, []⟩
    ⟨7, some 10, "a", "", 0, 0⟩ 50 [] 100 (by decide) (by decide) (by decide)
  exact ⟨h.1, h.2.2.1⟩

/-- Counterexample to C2 as stated: a tombstone whose mtime merely equals
the insert's mtime does not suppress the insert — the row is inserted and
the tombstone deleted. -/
theorem tombstone_blocks_insert_counterexample :
    (execSteps [⟨.cRemove ⟨7, none, "", "", 0, 0⟩, 1000, []⟩,
        ⟨.cInsert ⟨7, some 10, "a", "", 0, 0⟩, 1000, []⟩]).db.timelog.map (·.uuid) = [7]
    ∧ (execSteps [⟨.cRemove ⟨7, none, "", "", 0, 0⟩, 1000, []⟩,
        ⟨.cInsert ⟨7, some 10, "a", "", 0, 0⟩, 1000, []⟩]).db.removed = [] := by
  decide


/-! Evaluation of the editCategory no-match path. -/

theorem pushUndo_cats (w : W) (fr : Frame) : (pushUndo w fr).1.cats = w.cats := by
  unfold pushUndo
  dsimp only
  split <;> rfl

theorem removeFromCategories_cats (w : W) (c : String) :
    (removeFromCategories w c).1.cats = w.cats.erase c := by
  unfold removeFromCategories
  split
  · rfl
  · next h => exact (Finset.erase_eq_of_not_mem h).symm

theorem error_not_mem_removeFromCategories (w : W) (c : String) :
    Ev.error ∉ (removeFromCategories w c).2 := by
  unfold removeFromCategories
  split <;> simp

theorem editCategoryData_nomatch_eval (w : W) (oldN newN : String) (now : Int)
    (fs : List Bool)
    (hnm : ¬ w.db.timelog.any (fun r => r.category == oldN) = true)
    (hfs : fs.headD false = false) :
    editCategoryData w oldN newN now fs =
      ⟨false, (removeFromCategories w oldN).1, (removeFromCategories w oldN).2, fs.tail⟩ := by
  unfold editCategoryData
  dsimp only
  rw [show (stepFail fs).1 = false from hfs]
  simp only [Bool.false_eq_true, if_false]
  rw [if_pos hnm]
  rfl

/-- Claim C6 (code behaviour at the claimed input): when `newName` is
non-empty, differs from `oldName`, and no live row has category
`oldName`, the `editCategory` command leaves the database unchanged,
removes `oldName` from the in-memory category set and emits no `error` —
but, because `editCategoryData` reports failure, the command then runs
`processFail`: the undo stack is cleared and `dataOutdated` is emitted,
contrary to the claim's "does not clear the undo stack". -/
theorem editCategory_no_match (w : W) (oldN newN : String) (now : Int) (fs : List Bool)
    (hne : ¬ newN = "") (hdiff : ¬ oldN = newN)
    (hnm : ¬ w.db.timelog.any (fun r => r.category == oldN) = true)
    (hfs : fs.headD false = false) :
    (runCmd w (.cEditCategory oldN newN) now fs).1.db = w.db
    ∧ Ev.error ∉ (runCmd w (.cEditCategory oldN newN) now fs).2
    ∧ (runCmd w (.cEditCategory oldN newN) now fs).1.cats = w.cats.erase oldN
    ∧ (runCmd w (.cEditCategory oldN newN) now fs).1.undoStack = []
    ∧ Ev.dataOutdated ∈ (runCmd w (.cEditCategory oldN newN) now fs).2 := by
  have hrun : runCmd w (.cEditCategory oldN newN) now fs
      = ((processFail (removeFromCategories (pushUndo w ⟨.uEditCategory,
            getEntries w.db oldN,
            (getEntries w.db oldN).map (fun _ => categoryField)⟩).1 oldN).1).1,
         (pushUndo w ⟨.uEditCategory, getEntries w.db oldN,
            (getEntries w.db oldN).map (fun _ => categoryField)⟩).2
          ++ (removeFromCategories (pushUndo w ⟨.uEditCategory, getEntries w.db oldN,
              (getEntries w.db oldN).map (fun _ => categoryField)⟩).1 oldN).2
          ++ (processFail (removeFromCategories (pushUndo w ⟨.uEditCategory,
              getEntries w.db oldN,
              (getEntries w.db oldN).map (fun _ => categoryField)⟩).1 oldN).1).2) := by
    show (if newN = "" then _ else _) = _
    rw [if_neg hne, if_neg hdiff]
    dsimp only
    rw [editCategoryData_nomatch_eval _ _ _ _ _ (by rw [pushUndo_db]; exact hnm) hfs]
    rfl
  rw [hrun]
  refine ⟨?_, ?_, ?_, rfl, ?_⟩
  · show (removeFromCategories _ oldN).1.db = w.db
    rw [removeFromCategories_db, pushUndo_db]
  · intro hmem
    simp only [List.mem_append] at hmem
    rcases hmem with (h | h) | h
    · exact error_not_mem_pushUndo _ _ h
    · exact error_not_mem_removeFromCategories _ _ h
    · simp [processFail] at h
  · show (removeFromCategories _ oldN).1.cats = w.cats.erase oldN
    rw [removeFromCategories_cats, pushUndo_cats]
  · simp [processFail, List.mem_append]

/-- Witness for C6: with one stale undo frame and category set `{"x"}`,
renaming the empty category `"x"` clears the stack and emits
`dataOutdated` while leaving the database untouched and erasing `"x"`. -/
theorem editCategory_no_match_witness :
    (runCmd ⟨⟨[], []⟩, 0, {"x"}, [⟨.uInsert, [], []⟩]⟩
        (.cEditCategory "x" "z") 50 []).1.db = ⟨[], []⟩
    ∧ (runCmd ⟨⟨[], []⟩, 0, {"x"}, [⟨.uInsert, [], []⟩]⟩
        (.cEditCategory "x" "z") 50 []).1.undoStack = []
    ∧ Ev.dataOutdated ∈ (runCmd ⟨⟨[], []⟩, 0, {"x"}, [⟨.uInsert, [], []⟩]⟩
        (.cEditCategory "x" "z") 50 []).2 := by
  have h := editCategory_no_match ⟨⟨[], []⟩, 0, {"x"}, [⟨.uInsert, [], []⟩]⟩
    "x" "z" 50 [] (by decide) (by decide) (by decide) (by decide)
  exact ⟨h.1, h.2.2.2.1, h.2.2.2.2⟩


/-! Faithfulness of the scalar-state change signals: every emission site
of `sizeChanged` and (outside the editCategory rebuild) of
`categoriesChanged` is guarded by an actual change. -/

theorem sig_append {E1 E2 : List Ev}
    (h1 : (∀ o n : Int, Ev.sizeChanged o n ∈ E1 → o ≠ n)
      ∧ ∀ o n : Finset String, Ev.categoriesChanged o n ∈ E1 → o ≠ n)
    (h2 : (∀ o n : Int, Ev.sizeChanged o n ∈ E2 → o ≠ n)
      ∧ ∀ o n : Finset String, Ev.categoriesChanged o n ∈ E2 → o ≠ n) :
    (∀ o n : Int, Ev.sizeChanged o n ∈ E1 ++ E2 → o ≠ n)
      ∧ ∀ o n : Finset String, Ev.categoriesChanged o n ∈ E1 ++ E2 → o ≠ n := by
  constructor
  · intro o n h
    rcases List.mem_append.mp h with h | h
    · exact h1.1 o n h
    · exact h2.1 o n h
  · intro o n h
    rcases List.mem_append.mp h with h | h
    · exact h1.2 o n h
    · exact h2.2 o n h

theorem sig_setSize (w : W) (n : Int) :
    (∀ o n' : Int, Ev.sizeChanged o n' ∈ (setSize w n).2 → o ≠ n')
      ∧ ∀ o n' : Finset String, Ev.categoriesChanged o n' ∈ (setSize w n).2 → o ≠ n' := by
  unfold setSize
  split
  · simp
  · next h =>
    constructor
    · intro o n' hm
      simp at hm
      rw [hm.1, hm.2]
      exact h
    · intro o n' hm
      simp at hm

theorem sig_addToCategories (w : W) (c : String) :
    (∀ o n : Int, Ev.sizeChanged o n ∈ (addToCategories w c).2 → o ≠ n)
      ∧ ∀ o n : Finset String, Ev.categoriesChanged o n ∈ (addToCategories w c).2 → o ≠ n := by
  unfold addToCategories
  split
  · simp
  · next h =>
    constructor
    · intro o n hm
      simp at hm
    · intro o n hm
      simp at hm
      rw [hm.1, hm.2]
      exact fun he => h (by rw [he]; exact Finset.mem_insert_self c w.cats)

theorem sig_removeFromCategories (w : W) (c : String) :
    (∀ o n : Int, Ev.sizeChanged o n ∈ (removeFromCategories w c).2 → o ≠ n)
      ∧ ∀ o n : Finset String,
        Ev.categoriesChanged o n ∈ (removeFromCategories w c).2 → o ≠ n := by
  unfold removeFromCategories
  split
  · next h =>
    constructor
    · intro o n hm
      simp at hm
    · intro o n hm
      simp at hm
      rw [hm.1, hm.2]
      intro he
      exact absurd (he ▸ h) (Finset.not_mem_erase c w.cats)
  · simp

theorem sig_processFail (w : W) :
    (∀ o n : Int, Ev.sizeChanged o n ∈ (processFail w).2 → o ≠ n)
      ∧ ∀ o n : Finset String, Ev.categoriesChanged o n ∈ (processFail w).2 → o ≠ n := by
  unfold processFail
  constructor <;> intro o n hm <;> simp at hm

theorem sig_pushUndo (w : W) (fr : Frame) :
    (∀ o n : Int, Ev.sizeChanged o n ∈ (pushUndo w fr).2 → o ≠ n)
      ∧ ∀ o n : Finset String, Ev.categoriesChanged o n ∈ (pushUndo w fr).2 → o ≠ n := by
  unfold pushUndo
  dsimp only
  split
  · simp
  · constructor <;> intro o n hm <;> simp at hm

theorem sig_notifyInsert (db : DB) (s : Int) :
    (∀ o n : Int, Ev.sizeChanged o n ∈ notifyInsertUpdates db s → o ≠ n)
      ∧ ∀ o n : Finset String, Ev.categoriesChanged o n ∈ notifyInsertUpdates db s → o ≠ n := by
  unfold notifyInsertUpdates
  dsimp only
  split
  · simp
  · constructor <;> intro o n hm <;> simp at hm

theorem sig_notifyRemove (db : DB) (s : Int) :
    (∀ o n : Int, Ev.sizeChanged o n ∈ notifyRemoveUpdates db s → o ≠ n)
      ∧ ∀ o n : Finset String, Ev.categoriesChanged o n ∈ notifyRemoveUpdates db s → o ≠ n := by
  unfold notifyRemoveUpdates
  dsimp only
  split
  · simp
  · constructor <;> intro o n hm <;> simp at hm

theorem sig_notifyEdit (db : DB) (f : Fields) (s : Int) (oldS : Option Int) :
    (∀ o n : Int, Ev.sizeChanged o n ∈ notifyEditUpdates db f s oldS → o ≠ n)
      ∧ ∀ o n : Finset String,
        Ev.categoriesChanged o n ∈ notifyEditUpdates db f s oldS → o ≠ n := by
  unfold notifyEditUpdates
  dsimp only
  split
  · split
    · simp
    · constructor <;> intro o n hm <;> simp at hm
  · split
    · simp
    · constructor <;> intro o n hm <;> simp at hm

theorem sig_nil :
    (∀ o n : Int, Ev.sizeChanged o n ∈ ([] : List Ev) → o ≠ n)
      ∧ ∀ o n : Finset String, Ev.categoriesChanged o n ∈ ([] : List Ev) → o ≠ n := by
  constructor <;> intro o n hm <;> simp at hm

theorem sig_error :
    (∀ o n : Int, Ev.sizeChanged o n ∈ [Ev.error] → o ≠ n)
      ∧ ∀ o n : Finset String, Ev.categoriesChanged o n ∈ [Ev.error] → o ≠ n := by
  constructor <;> intro o n hm <;> simp at hm

theorem sig_insertData1 (w : W) (d : SyncData) (now : Int) (fs : List Bool) :
    (∀ o n : Int, Ev.sizeChanged o n ∈ (insertData1 w d now fs).evs → o ≠ n)
      ∧ ∀ o n : Finset String,
        Ev.categoriesChanged o n ∈ (insertData1 w d now fs).evs → o ≠ n := by
  unfold insertData1
  dsimp only
  split
  · exact sig_error
  · split
    · exact sig_error
    · exact sig_append (sig_setSize _ _) (sig_addToCategories _ _)

theorem sig_removeData (w : W) (d : SyncData) (now : Int) (fs : List Bool) :
    (∀ o n : Int, Ev.sizeChanged o n ∈ (removeData w d now fs).evs → o ≠ n)
      ∧ ∀ o n : Finset String,
        Ev.categoriesChanged o n ∈ (removeData w d now fs).evs → o ≠ n := by
  unfold removeData
  dsimp only
  split
  · exact sig_error
  · exact sig_setSize _ _

theorem sig_editData (w : W) (d : SyncData) (f : Fields) (now : Int) (fs : List Bool) :
    (∀ o n : Int, Ev.sizeChanged o n ∈ (editData w d f now fs).evs → o ≠ n)
      ∧ ∀ o n : Finset String,
        Ev.categoriesChanged o n ∈ (editData w d f now fs).evs → o ≠ n := by
  unfold editData
  dsimp only
  split
  · exact sig_error
  · split
    · exact sig_error
    · split
      · exact sig_addToCategories _ _
      · exact sig_nil

theorem sig_insertEntry (w : W) (d : SyncData) (now : Int) (fs : List Bool) :
    (∀ o n : Int, Ev.sizeChanged o n ∈ (insertEntry w d now fs).evs → o ≠ n)
      ∧ ∀ o n : Finset String,
        Ev.categoriesChanged o n ∈ (insertEntry w d now fs).evs → o ≠ n := by
  unfold insertEntry
  dsimp only
  split
  · exact sig_append (sig_append (sig_insertData1 _ _ _ _)
      (by constructor <;> intro o n hm <;> simp at hm)) (sig_notifyInsert _ _)
  · exact sig_append (sig_insertData1 _ _ _ _) (sig_processFail _)

theorem sig_removeEntry (w : W) (d : SyncData) (now : Int) (fs : List Bool) :
    (∀ o n : Int, Ev.sizeChanged o n ∈ (removeEntry w d now fs).evs → o ≠ n)
      ∧ ∀ o n : Finset String,
        Ev.categoriesChanged o n ∈ (removeEntry w d now fs).evs → o ≠ n := by
  unfold removeEntry
  dsimp only
  split
  · exact sig_append (sig_append (sig_removeData _ _ _ _)
      (by constructor <;> intro o n hm <;> simp at hm)) (sig_notifyRemove _ _)
  · exact sig_append (sig_removeData _ _ _ _) (sig_processFail _)

theorem sig_editEntry (w : W) (d : SyncData) (f : Fields) (now : Int) (fs : List Bool) :
    (∀ o n : Int, Ev.sizeChanged o n ∈ (editEntry w d f now fs).evs → o ≠ n)
      ∧ ∀ o n : Finset String,
        Ev.categoriesChanged o n ∈ (editEntry w d f now fs).evs → o ≠ n := by
  unfold editEntry
  dsimp only
  split
  · exact sig_nil
  · split
    · exact sig_processFail w
    · split
      · exact sig_append (sig_editData _ _ _ _ _) (sig_notifyEdit _ _ _ _)
      · exact sig_append (sig_editData _ _ _ _ _) (sig_processFail _)

theorem sig_editEntries :
    ∀ (ds : List Entry) (flds : List Fields) (w : W) (now : Int) (fs : List Bool),
      (∀ o n : Int, Ev.sizeChanged o n ∈ (editEntries w ds flds now fs).2.1 → o ≠ n)
        ∧ ∀ o n : Finset String,
          Ev.categoriesChanged o n ∈ (editEntries w ds flds now fs).2.1 → o ≠ n
  | [], _, w, now, fs => sig_nil
  | _ :: _, [], w, now, fs => sig_nil
  | d :: ds', f :: fl', w, now, fs => by
    unfold editEntries
    dsimp only
    split
    · exact sig_append (sig_editEntry _ _ _ _ _) (sig_editEntries ds' fl' _ now _)
    · exact sig_editEntry _ _ _ _ _

theorem sig_insertDataGo :
    ∀ (ds : List Entry) (w : W) (db0 : DB) (now : Int) (fs : List Bool),
      (∀ o n : Int, Ev.sizeChanged o n ∈ (insertDataGo w db0 ds now fs).evs → o ≠ n)
        ∧ ∀ o n : Finset String,
          Ev.categoriesChanged o n ∈ (insertDataGo w db0 ds now fs).evs → o ≠ n
  | [], w, db0, now, fs => by
    unfold insertDataGo
    dsimp only
    split
    · exact sig_error
    · exact sig_nil
  | d :: ds', w, db0, now, fs => by
    unfold insertDataGo
    dsimp only
    split
    · exact sig_append (sig_insertData1 _ _ _ _) (sig_insertDataGo ds' _ db0 now _)
    · exact sig_insertData1 _ _ _ _

theorem sig_syncRemLoop :
    ∀ (rs : List SyncData) (w : W) (now : Int) (fs : List Bool),
      (∀ o n : Int, Ev.sizeChanged o n ∈ (syncRemLoop w rs now fs).evs → o ≠ n)
        ∧ ∀ o n : Finset String,
          Ev.categoriesChanged o n ∈ (syncRemLoop w rs now fs).evs → o ≠ n
  | [], w, now, fs => sig_nil
  | r :: rs', w, now, fs => by
    unfold syncRemLoop
    dsimp only
    split
    · exact sig_append (sig_removeData _ _ _ _) (sig_syncRemLoop rs' _ now _)
    · exact sig_removeData _ _ _ _

theorem sig_syncInsLoop :
    ∀ (rs : List SyncData) (w : W) (now : Int) (fs : List Bool),
      (∀ o n : Int, Ev.sizeChanged o n ∈ (syncInsLoop w rs now fs).evs → o ≠ n)
        ∧ ∀ o n : Finset String,
          Ev.categoriesChanged o n ∈ (syncInsLoop w rs now fs).evs → o ≠ n
  | [], w, now, fs => sig_nil
  | r :: rs', w, now, fs => by
    unfold syncInsLoop
    dsimp only
    split
    · exact sig_append (sig_insertData1 _ _ _ _) (sig_syncInsLoop rs' _ now _)
    · exact sig_insertData1 _ _ _ _

theorem sig_syncUpdLoop :
    ∀ (rs : List SyncData) (w : W) (now : Int) (fs : List Bool),
      (∀ o n : Int, Ev.sizeChanged o n ∈ (syncUpdLoop w rs now fs).evs → o ≠ n)
        ∧ ∀ o n : Finset String,
          Ev.categoriesChanged o n ∈ (syncUpdLoop w rs now fs).evs → o ≠ n
  | [], w, now, fs => sig_nil
  | r :: rs', w, now, fs => by
    unfold syncUpdLoop
    dsimp only
    split
    · exact sig_append (sig_editData _ _ _ _ _) (sig_syncUpdLoop rs' _ now _)
    · exact sig_editData _ _ _ _ _

theorem sig_flatten {ls : List (List Ev)}
    (h : ∀ E ∈ ls, (∀ o n : Int, Ev.sizeChanged o n ∈ E → o ≠ n)
      ∧ ∀ o n : Finset String, Ev.categoriesChanged o n ∈ E → o ≠ n) :
    (∀ o n : Int, Ev.sizeChanged o n ∈ ls.flatten → o ≠ n)
      ∧ ∀ o n : Finset String, Ev.categoriesChanged o n ∈ ls.flatten → o ≠ n := by
  constructor
  · intro o n hm
    rcases List.mem_flatten.mp hm with ⟨E, hE, hmE⟩
    exact (h E hE).1 o n hmE
  · intro o n hm
    rcases List.mem_flatten.mp hm with ⟨E, hE, hmE⟩
    exact (h E hE).2 o n hmE

theorem sig_map_only {f : SyncData → Ev} {rs : List SyncData}
    (hf : ∀ d, (∀ o n : Int, f d ≠ Ev.sizeChanged o n)
      ∧ ∀ o n : Finset String, f d ≠ Ev.categoriesChanged o n) :
    (∀ o n : Int, Ev.sizeChanged o n ∈ rs.map f → o ≠ n)
      ∧ ∀ o n : Finset String, Ev.categoriesChanged o n ∈ rs.map f → o ≠ n := by
  constructor
  · intro o n hm
    rcases List.mem_map.mp hm with ⟨d, _, hd⟩
    exact absurd hd ((hf d).1 o n)
  · intro o n hm
    rcases List.mem_map.mp hm with ⟨d, _, hd⟩
    exact absurd hd ((hf d).2 o n)

theorem sig_postSyncEvents (db : DB) (removed inserted updNew updOld : List SyncData) :
    (∀ o n : Int, Ev.sizeChanged o n ∈ postSyncEvents db removed inserted updNew updOld → o ≠ n)
      ∧ ∀ o n : Finset String,
        Ev.categoriesChanged o n ∈ postSyncEvents db removed inserted updNew updOld → o ≠ n := by
  unfold postSyncEvents
  refine sig_append (sig_append (sig_append (sig_append ?_ ?_) ?_) ?_) ?_
  · exact sig_map_only (fun d => ⟨fun o n h => by simp at h, fun o n h => by simp at h⟩)
  · exact sig_flatten (fun E hE => by
      rcases List.mem_map.mp hE with ⟨d, _, hd⟩
      rw [← hd]
      exact sig_notifyRemove _ _)
  · exact sig_map_only (fun d => ⟨fun o n h => by simp at h, fun o n h => by simp at h⟩)
  · exact sig_flatten (fun E hE => by
      rcases List.mem_map.mp hE with ⟨d, _, hd⟩
      rw [← hd]
      exact sig_notifyInsert _ _)
  · exact sig_flatten (fun E hE => by
      rcases List.mem_map.mp hE with ⟨p, _, hp⟩
      rw [← hp]
      exact sig_notifyEdit _ _ _ _)

theorem sig_syncDataFn (w : W) (removed inserted updNew updOld : List SyncData)
    (now : Int) (fs : List Bool) :
    (∀ o n : Int,
        Ev.sizeChanged o n ∈ (syncDataFn w removed inserted updNew updOld now fs).evs → o ≠ n)
      ∧ ∀ o n : Finset String,
        Ev.categoriesChanged o n ∈ (syncDataFn w removed inserted updNew updOld now fs).evs
          → o ≠ n := by
  unfold syncDataFn
  dsimp only
  split
  · exact sig_syncRemLoop _ _ _ _
  · split
    · exact sig_append (sig_syncRemLoop _ _ _ _) (sig_syncInsLoop _ _ _ _)
    · split
      · exact sig_append (sig_append (sig_syncRemLoop _ _ _ _) (sig_syncInsLoop _ _ _ _))
          (sig_syncUpdLoop _ _ _ _)
      · split
        · exact sig_append (sig_append (sig_append (sig_syncRemLoop _ _ _ _)
            (sig_syncInsLoop _ _ _ _)) (sig_syncUpdLoop _ _ _ _)) sig_error
        · exact sig_append (sig_append (sig_append (sig_syncRemLoop _ _ _ _)
            (sig_syncInsLoop _ _ _ _)) (sig_syncUpdLoop _ _ _ _)) (sig_postSyncEvents _ _ _ _ _)


theorem sig_size_append {E1 E2 : List Ev}
    (h1 : ∀ o n : Int, Ev.sizeChanged o n ∈ E1 → o ≠ n)
    (h2 : ∀ o n : Int, Ev.sizeChanged o n ∈ E2 → o ≠ n) :
    ∀ o n : Int, Ev.sizeChanged o n ∈ E1 ++ E2 → o ≠ n := by
  intro o n h
  rcases List.mem_append.mp h with h | h
  · exact h1 o n h
  · exact h2 o n h

theorem sig_size_updateCategories (w : W) (fs : List Bool) :
    ∀ o n : Int, Ev.sizeChanged o n ∈ (updateCategories w fs).evs → o ≠ n := by
  unfold updateCategories
  dsimp only
  split
  · intro o n hm
    simp at hm
  · intro o n hm
    simp at hm

theorem sig_size_editCategoryData (w : W) (oldN newN : String) (now : Int)
    (fs : List Bool) :
    ∀ o n : Int, Ev.sizeChanged o n ∈ (editCategoryData w oldN newN now fs).evs → o ≠ n := by
  unfold editCategoryData
  dsimp only
  split
  · intro o n hm
    simp at hm
  · split
    · exact (sig_removeFromCategories _ _).1
    · split
      · intro o n hm
        simp at hm
      · exact sig_size_updateCategories _ _

/-- Claim C7 (amended): after every command, a `sizeChanged` emission
always reflects an actual change of the tracked size; a
`categoriesChanged` emission reflects an actual change of the category
set for every command except `editCategory`, whose wholesale rebuild
after a successful rename emits `categoriesChanged` unconditionally —
even when the set is unchanged. -/
theorem scalar_signals_reflect_change (w : W) (c : Cmd) (now : Int) (fs : List Bool) :
    (∀ o n : Int, Ev.sizeChanged o n ∈ (runCmd w c now fs).2 → o ≠ n)
    ∧ ((∀ oldN newN, c ≠ Cmd.cEditCategory oldN newN) →
        ∀ o n : Finset String, Ev.categoriesChanged o n ∈ (runCmd w c now fs).2 → o ≠ n) := by
  cases c with
  | cInsert d =>
    exact ⟨(sig_append (sig_pushUndo _ _) (sig_insertEntry _ _ _ _)).1,
      fun _ => (sig_append (sig_pushUndo _ _) (sig_insertEntry _ _ _ _)).2⟩
  | cImport ds =>
    by_cases hok : (insertDataV w ds now fs).ok = true
    · simp only [runCmd, hok, if_true]
      exact ⟨(sig_append (sig_insertDataGo _ _ _ _ _)
          (by constructor <;> intro o n hm <;> simp at hm)).1,
        fun _ => (sig_append (sig_insertDataGo _ _ _ _ _)
          (by constructor <;> intro o n hm <;> simp at hm)).2⟩
    · simp only [runCmd, hok, if_false]
      exact ⟨(sig_append (sig_insertDataGo _ _ _ _ _) (sig_processFail _)).1,
        fun _ => (sig_append (sig_insertDataGo _ _ _ _ _) (sig_processFail _)).2⟩
  | cRemove d =>
    exact ⟨(sig_append (sig_pushUndo _ _) (sig_removeEntry _ _ _ _)).1,
      fun _ => (sig_append (sig_pushUndo _ _) (sig_removeEntry _ _ _ _)).2⟩
  | cEdit d f =>
    exact ⟨(sig_append (sig_pushUndo _ _) (sig_editEntry _ _ _ _ _)).1,
      fun _ => (sig_append (sig_pushUndo _ _) (sig_editEntry _ _ _ _ _)).2⟩
  | cEditCategory oldN newN =>
    refine ⟨?_, fun hno => absurd rfl (hno oldN newN)⟩
    by_cases h1 : newN = ""
    · simp only [runCmd, h1, if_true]
      intro o n hm
      simp at hm
    · by_cases h2 : oldN = newN
      · simp only [runCmd, h1, h2, if_false, if_true]
        intro o n hm
        simp at hm
      · by_cases hok : (editCategoryData (pushUndo w ⟨.uEditCategory, getEntries w.db oldN,
            (getEntries w.db oldN).map (fun _ => categoryField)⟩).1 oldN newN now fs).ok = true
        · simp only [runCmd, h1, h2, hok, if_false, if_true]
          refine sig_size_append (sig_size_append (sig_pushUndo _ _).1
            (sig_size_editCategoryData _ _ _ _ _)) ?_
          intro o n hm
          simp at hm
        · simp only [runCmd, h1, h2, hok, if_false]
          exact sig_size_append (sig_size_append (sig_pushUndo _ _).1
            (sig_size_editCategoryData _ _ _ _ _)) (sig_processFail _).1
  | cSync upd rem =>
    by_cases hok : (syncDataFn w
        (removedMerged (classifyRemoved w.db rem).1 (classifyRemoved w.db rem).2)
        (classifyUpdated w.db upd).1 (classifyUpdated w.db upd).2.2.1
        (classifyUpdated w.db upd).2.2.2 now fs).ok = true
    · simp only [runCmd, hok, if_true]
      constructor
      · refine sig_size_append (sig_size_append ?_ (sig_syncDataFn _ _ _ _ _ _ _).1) ?_
        · intro o n hm
          simp at hm
        · intro o n hm
          simp at hm
      · intro _
        exact (sig_append (sig_append (by constructor <;> intro o n hm <;> simp at hm)
          (sig_syncDataFn _ _ _ _ _ _ _)) (by constructor <;> intro o n hm <;> simp at hm)).2
    · simp only [runCmd, hok, if_false]
      constructor
      · refine sig_size_append ?_ (sig_syncDataFn _ _ _ _ _ _ _).1
        intro o n hm
        simp at hm
      · intro _
        exact (sig_append (by constructor <;> intro o n hm <;> simp at hm)
          (sig_syncDataFn _ _ _ _ _ _ _)).2
  | cUndo =>
    cases hls : w.undoStack.getLast? with
    | none =>
      have he : runCmd w .cUndo now fs = (w, []) := by
        unfold runCmd
        rw [hls]
      rw [he]
      exact ⟨fun o n hm => by simp at hm, fun _ o n hm => by simp at hm⟩
    | some fr =>
      obtain ⟨kind, data, flds⟩ := fr
      cases kind with
      | uInsert =>
        have he : runCmd w .cUndo now fs
            = ((removeEntry { w with undoStack := w.undoStack.dropLast }
                  (toSync (data.headD emptyEntry)) now fs).w,
               (removeEntry { w with undoStack := w.undoStack.dropLast }
                  (toSync (data.headD emptyEntry)) now fs).evs
                ++ [.undoCountChanged (removeEntry { w with undoStack := w.undoStack.dropLast }
                      (toSync (data.headD emptyEntry)) now fs).w.undoStack.length]) := by
          unfold runCmd
          rw [hls]
        rw [he]
        exact ⟨(sig_append (sig_removeEntry _ _ _ _)
            (by constructor <;> intro o n hm <;> simp at hm)).1,
          fun _ => (sig_append (sig_removeEntry _ _ _ _)
            (by constructor <;> intro o n hm <;> simp at hm)).2⟩
      | uRemove =>
        have he : runCmd w .cUndo now fs
            = ((insertEntry { w with undoStack := w.undoStack.dropLast }
                  (toSync (data.headD emptyEntry)) now fs).w,
               (insertEntry { w with undoStack := w.undoStack.dropLast }
                  (toSync (data.headD emptyEntry)) now fs).evs
                ++ [.undoCountChanged (insertEntry { w with undoStack := w.undoStack.dropLast }
                      (toSync (data.headD emptyEntry)) now fs).w.undoStack.length]) := by
          unfold runCmd
          rw [hls]
        rw [he]
        exact ⟨(sig_append (sig_insertEntry _ _ _ _)
            (by constructor <;> intro o n hm <;> simp at hm)).1,
          fun _ => (sig_append (sig_insertEntry _ _ _ _)
            (by constructor <;> intro o n hm <;> simp at hm)).2⟩
      | uEdit =>
        have he : runCmd w .cUndo now fs
            = ((editEntry { w with undoStack := w.undoStack.dropLast }
                  (toSync (data.headD emptyEntry)) (flds.headD noFields) now fs).w,
               (editEntry { w with undoStack := w.undoStack.dropLast }
                  (toSync (data.headD emptyEntry)) (flds.headD noFields) now fs).evs
                ++ [.undoCountChanged (editEntry { w with undoStack := w.undoStack.dropLast }
                      (toSync (data.headD emptyEntry)) (flds.headD noFields) now
                      fs).w.undoStack.length]) := by
          unfold runCmd
          rw [hls]
        rw [he]
        exact ⟨(sig_append (sig_editEntry _ _ _ _ _)
            (by constructor <;> intro o n hm <;> simp at hm)).1,
          fun _ => (sig_append (sig_editEntry _ _ _ _ _)
            (by constructor <;> intro o n hm <;> simp at hm)).2⟩
      | uEditCategory =>
        have he : runCmd w .cUndo now fs
            = ((editEntries { w with undoStack := w.undoStack.dropLast }
                  data flds now fs).1,
               (editEntries { w with undoStack := w.undoStack.dropLast }
                  data flds now fs).2.1
                ++ [.undoCountChanged (editEntries { w with undoStack := w.undoStack.dropLast }
                      data flds now fs).1.undoStack.length]) := by
          unfold runCmd
          rw [hls]
        rw [he]
        exact ⟨(sig_append (sig_editEntries _ _ _ _ _)
            (by constructor <;> intro o n hm <;> simp at hm)).1,
          fun _ => (sig_append (sig_editEntries _ _ _ _ _)
            (by constructor <;> intro o n hm <;> simp at hm)).2⟩

/-- Counterexample to C7 as stated: a successful `editCategory` that
leaves the category set unchanged (one of the two x-rows carries a future
mtime and is skipped by the rename's check trigger) still emits
`categoriesChanged`, with old set = new set. -/
theorem scalar_signals_counterexample :
    (runCmd (execSteps [⟨.cInsert ⟨3, some 30, "z", "", 0, 0⟩, 1000, []⟩,
        ⟨.cInsert ⟨2, some 10, "x", "", 0, 0⟩, 5000, []⟩,
        ⟨.cInsert ⟨1, some 20, "x", "", 0, 0⟩, 1000, []⟩])
      (.cEditCategory "x" "z") 2000 []).1.cats
      = (execSteps [⟨.cInsert ⟨3, some 30, "z", "", 0, 0⟩, 1000, []⟩,
        ⟨.cInsert ⟨2, some 10, "x", "", 0, 0⟩, 5000, []⟩,
        ⟨.cInsert ⟨1, some 20, "x", "", 0, 0⟩, 1000, []⟩]).cats
    ∧ Ev.categoriesChanged
        (execSteps [⟨.cInsert ⟨3, some 30, "z", "", 0, 0⟩, 1000, []⟩,
          ⟨.cInsert ⟨2, some 10, "x", "", 0, 0⟩, 5000, []⟩,
          ⟨.cInsert ⟨1, some 20, "x", "", 0, 0⟩, 1000, []⟩]).cats
        (execSteps [⟨.cInsert ⟨3, some 30, "z", "", 0, 0⟩, 1000, []⟩,
          ⟨.cInsert ⟨2, some 10, "x", "", 0, 0⟩, 5000, []⟩,
          ⟨.cInsert ⟨1, some 20, "x", "", 0, 0⟩, 1000, []⟩]).cats
        ∈ (runCmd (execSteps [⟨.cInsert ⟨3, some 30, "z", "", 0, 0⟩, 1000, []⟩,
            ⟨.cInsert ⟨2, some 10, "x", "", 0, 0⟩, 5000, []⟩,
            ⟨.cInsert ⟨1, some 20, "x", "", 0, 0⟩, 1000, []⟩])
          (.cEditCategory "x" "z") 2000 []).2 := by
  decide


/-- Witness for C7: the first insert on an empty database emits
`sizeChanged` from 0 to 1, a real change. -/
theorem scalar_signals_reflect_change_witness :
    Ev.sizeChanged 0 1 ∈ (runCmd initW (.cInsert ⟨1, some 10, "a", "", 0, 0⟩) 1000 []).2
    ∧ (0 : Int) ≠ 1 :=
  ⟨by decide, (scalar_signals_reflect_change initW (.cInsert ⟨1, some 10, "a", "", 0, 0⟩)
      1000 []).1 0 1 (by decide)⟩


/-! Failure-path characterizations of the data layer. -/

theorem insertData1_fail (w : W) (d : SyncData) (now : Int) (fs : List Bool)
    (h : ¬ (insertData1 w d now fs).ok = true) :
    (insertData1 w d now fs).evs = [Ev.error] ∧ (insertData1 w d now fs).w = w := by
  by_cases hp : (stepFail fs).1 = true
  · unfold insertData1
    dsimp only
    rw [if_pos hp]
    exact ⟨rfl, rfl⟩
  · rw [Bool.not_eq_true] at hp
    cases hsql : sqlInsertTimelog w.db d.uuid (d.start.getD 0) d.category d.comment
        (d.mtime.getD now) with
    | none =>
      unfold insertData1
      dsimp only
      rw [show (stepFail fs).1 = false from hp]
      simp only [Bool.false_eq_true, if_false]
      rw [hsql]
      exact ⟨rfl, rfl⟩
    | some p =>
      exfalso
      apply h
      rw [insertData1_eval w d now fs hp (by rw [hsql])]

theorem removeData_fail (w : W) (d : SyncData) (now : Int) (fs : List Bool)
    (h : ¬ (removeData w d now fs).ok = true) :
    (removeData w d now fs).evs = [Ev.error] ∧ (removeData w d now fs).w = w := by
  by_cases hp : (stepFail fs).1 = true
  · unfold removeData
    dsimp only
    rw [if_pos hp]
    exact ⟨rfl, rfl⟩
  · exfalso
    apply h
    rw [removeData_eval w d now fs (by rw [Bool.not_eq_true] at hp; exact hp)]

theorem editData_fail (w : W) (d : SyncData) (f : Fields) (now : Int) (fs : List Bool)
    (h : ¬ (editData w d f now fs).ok = true) :
    (editData w d f now fs).evs = [Ev.error] ∧ (editData w d f now fs).w = w := by
  by_cases hp : (stepFail fs).1 = true
  · unfold editData
    dsimp only
    rw [if_pos hp]
    exact ⟨rfl, rfl⟩
  · rw [Bool.not_eq_true] at hp
    cases hsql : sqlUpdateTimelog w.db d.uuid f (d.start.getD 0) d.category d.comment
        (d.mtime.getD now) with
    | none =>
      unfold editData
      dsimp only
      rw [show (stepFail fs).1 = false from hp]
      simp only [Bool.false_eq_true, if_false]
      rw [hsql]
      exact ⟨rfl, rfl⟩
    | some p =>
      exfalso
      apply h
      unfold editData
      dsimp only
      rw [show (stepFail fs).1 = false from hp]
      simp only [Bool.false_eq_true, if_false]
      rw [hsql]
      dsimp only
      split <;> rfl

theorem insertEntry_fail (w : W) (d : SyncData) (now : Int) (fs : List Bool)
    (h : ¬ (insertData1 w d now fs).ok = true) :
    insertEntry w d now fs
      = ⟨false, (processFail w).1, [Ev.error] ++ (processFail w).2,
          (insertData1 w d now fs).fs⟩ := by
  have hf := insertData1_fail w d now fs h
  unfold insertEntry
  dsimp only
  rw [if_neg h, hf.1, hf.2]

theorem removeEntry_fail (w : W) (d : SyncData) (now : Int) (fs : List Bool)
    (h : ¬ (removeData w d now fs).ok = true) :
    removeEntry w d now fs
      = ⟨false, (processFail w).1, [Ev.error] ++ (processFail w).2,
          (removeData w d now fs).fs⟩ := by
  have hf := removeData_fail w d now fs h
  unfold removeEntry
  dsimp only
  rw [if_neg h, hf.1, hf.2]

theorem editEntry_fail (w : W) (d : SyncData) (f : Fields) (now : Int) (fs : List Bool)
    (hnf : ¬ f = noFields)
    (hv : ¬ (f.startTime = true ∧ ¬ (getEntry w.db d.uuid).isValid = true))
    (h : ¬ (editData w d f now fs).ok = true) :
    editEntry w d f now fs
      = ⟨false, (processFail w).1, [Ev.error] ++ (processFail w).2,
          (editData w d f now fs).fs⟩ := by
  have hf := editData_fail w d f now fs h
  unfold editEntry
  dsimp only
  rw [if_neg hnf, if_neg hv, if_neg h, hf.1, hf.2]

theorem insertDataGo_fail_db {db0 : DB} :
    ∀ (ds : List Entry) (w : W) (now : Int) (fs : List Bool),
      ¬ (insertDataGo w db0 ds now fs).ok = true →
      (insertDataGo w db0 ds now fs).w.db = db0 ∧
        Ev.error ∈ (insertDataGo w db0 ds now fs).evs
  | [], w, now, fs => by
    intro h
    unfold insertDataGo at h ⊢
    dsimp only at h ⊢
    split at h
    · next hp =>
      rw [if_pos hp]
      exact ⟨rfl, by simp⟩
    · simp at h
  | d :: ds', w, now, fs => by
    intro h
    unfold insertDataGo at h ⊢
    dsimp only at h ⊢
    split at h
    · next hok =>
      rw [if_pos hok]
      have := insertDataGo_fail_db ds' (insertData1 w (toSync d) now fs).w now
        (insertData1 w (toSync d) now fs).fs (by exact h)
      exact ⟨this.1, List.mem_append_right _ this.2⟩
    · next hok =>
      rw [if_neg hok]
      have hf := insertData1_fail w (toSync d) now fs hok
      refine ⟨rfl, ?_⟩
      rw [hf.1]
      simp


theorem removeData_stack (w : W) (d : SyncData) (now : Int) (fs : List Bool) :
    (removeData w d now fs).w.undoStack = w.undoStack := by
  unfold removeData
  dsimp only
  split
  · rfl
  · rw [setSize_stack]

theorem insertData1_stack (w : W) (d : SyncData) (now : Int) (fs : List Bool) :
    (insertData1 w d now fs).w.undoStack = w.undoStack := by
  unfold insertData1
  dsimp only
  split
  · rfl
  · split
    · rfl
    · rw [addToCategories_stack, setSize_stack]

theorem editData_stack (w : W) (d : SyncData) (f : Fields) (now : Int) (fs : List Bool) :
    (editData w d f now fs).w.undoStack = w.undoStack := by
  unfold editData
  dsimp only
  split
  · rfl
  · split
    · rfl
    · split
      · rw [addToCategories_stack]
      · rfl

theorem syncRemLoop_stack :
    ∀ (rs : List SyncData) (w : W) (now : Int) (fs : List Bool),
      (syncRemLoop w rs now fs).w.undoStack = w.undoStack
  | [], w, now, fs => rfl
  | r :: rs', w, now, fs => by
    unfold syncRemLoop
    dsimp only
    split
    · rw [syncRemLoop_stack rs' _ now _, removeData_stack]
    · rw [removeData_stack]

theorem syncInsLoop_stack :
    ∀ (rs : List SyncData) (w : W) (now : Int) (fs : List Bool),
      (syncInsLoop w rs now fs).w.undoStack = w.undoStack
  | [], w, now, fs => rfl
  | r :: rs', w, now, fs => by
    unfold syncInsLoop
    dsimp only
    split
    · rw [syncInsLoop_stack rs' _ now _, insertData1_stack]
    · rw [insertData1_stack]

theorem syncUpdLoop_stack :
    ∀ (rs : List SyncData) (w : W) (now : Int) (fs : List Bool),
      (syncUpdLoop w rs now fs).w.undoStack = w.undoStack
  | [], w, now, fs => rfl
  | r :: rs', w, now, fs => by
    unfold syncUpdLoop
    dsimp only
    split
    · rw [syncUpdLoop_stack rs' _ now _, editData_stack]
    · rw [editData_stack]

theorem syncDataFn_stack (w : W) (removed inserted updNew updOld : List SyncData)
    (now : Int) (fs : List Bool) :
    (syncDataFn w removed inserted updNew updOld now fs).w.undoStack = w.undoStack := by
  unfold syncDataFn
  dsimp only
  split
  · rw [show ∀ w2 : W, ∀ db0, ({ w2 with db := db0 } : W).undoStack = w2.undoStack from
      fun _ _ => rfl, syncRemLoop_stack]
  · split
    · rw [show ∀ w2 : W, ∀ db0, ({ w2 with db := db0 } : W).undoStack = w2.undoStack from
        fun _ _ => rfl, syncInsLoop_stack, syncRemLoop_stack]
    · split
      · rw [show ∀ w2 : W, ∀ db0, ({ w2 with db := db0 } : W).undoStack = w2.undoStack from
          fun _ _ => rfl, syncUpdLoop_stack, syncInsLoop_stack, syncRemLoop_stack]
      · split
        · rw [show ∀ w2 : W, ∀ db0, ({ w2 with db := db0 } : W).undoStack = w2.undoStack from
            fun _ _ => rfl, syncUpdLoop_stack, syncInsLoop_stack, syncRemLoop_stack]
        · rw [syncUpdLoop_stack, syncInsLoop_stack, syncRemLoop_stack]

theorem syncDataFn_fail_db (w : W) (removed inserted updNew updOld : List SyncData)
    (now : Int) (fs : List Bool)
    (h : ¬ (syncDataFn w removed inserted updNew updOld now fs).ok = true) :
    (syncDataFn w removed inserted updNew updOld now fs).w.db = w.db := by
  unfold syncDataFn at h ⊢
  dsimp only at h ⊢
  split at h
  · next hc =>
    rw [if_pos hc]
  · next hc =>
    rw [if_neg hc]
    split at h
    · next hc2 =>
      rw [if_pos hc2]
    · next hc2 =>
      rw [if_neg hc2]
      split at h
      · next hc3 =>
        rw [if_pos hc3]
      · next hc3 =>
        rw [if_neg hc3]
        split at h
        · next hc4 =>
          rw [if_pos hc4]
        · simp at h

theorem syncRemLoop_fail_error :
    ∀ (rs : List SyncData) (w : W) (now : Int) (fs : List Bool),
      ¬ (syncRemLoop w rs now fs).ok = true →
      Ev.error ∈ (syncRemLoop w rs now fs).evs
  | [], w, now, fs => by
    intro h
    simp [syncRemLoop] at h
  | r :: rs', w, now, fs => by
    intro h
    unfold syncRemLoop at h ⊢
    dsimp only at h ⊢
    split at h
    · next hok =>
      rw [if_pos hok]
      exact List.mem_append_right _
        (syncRemLoop_fail_error rs' _ now _ (by exact h))
    · next hok =>
      rw [if_neg hok]
      rw [(removeData_fail _ _ _ _ hok).1]
      simp
  
theorem syncInsLoop_fail_error :
    ∀ (rs : List SyncData) (w : W) (now : Int) (fs : List Bool),
      ¬ (syncInsLoop w rs now fs).ok = true →
      Ev.error ∈ (syncInsLoop w rs now fs).evs
  | [], w, now, fs => by
    intro h
    simp [syncInsLoop] at h
  | r :: rs', w, now, fs => by
    intro h
    unfold syncInsLoop at h ⊢
    dsimp only at h ⊢
    split at h
    · next hok =>
      rw [if_pos hok]
      exact List.mem_append_right _
        (syncInsLoop_fail_error rs' _ now _ (by exact h))
    · next hok =>
      rw [if_neg hok]
      rw [(insertData1_fail _ _ _ _ hok).1]
      simp

theorem syncUpdLoop_fail_error :
    ∀ (rs : List SyncData) (w : W) (now : Int) (fs : List Bool),
      ¬ (syncUpdLoop w rs now fs).ok = true →
      Ev.error ∈ (syncUpdLoop w rs now fs).evs
  | [], w, now, fs => by
    intro h
    simp [syncUpdLoop] at h
  | r :: rs', w, now, fs => by
    intro h
    unfold syncUpdLoop at h ⊢
    dsimp only at h ⊢
    split at h
    · next hok =>
      rw [if_pos hok]
      exact List.mem_append_right _
        (syncUpdLoop_fail_error rs' _ now _ (by exact h))
    · next hok =>
      rw [if_neg hok]
      rw [(editData_fail _ _ _ _ _ hok).1]
      simp

theorem syncDataFn_fail_error (w : W) (removed inserted updNew updOld : List SyncData)
    (now : Int) (fs : List Bool)
    (h : ¬ (syncDataFn w removed inserted updNew updOld now fs).ok = true) :
    Ev.error ∈ (syncDataFn w removed inserted updNew updOld now fs).evs := by
  unfold syncDataFn at h ⊢
  dsimp only at h ⊢
  split at h
  · next hc =>
    rw [if_pos hc]
    exact syncRemLoop_fail_error _ _ _ _ (by simpa using hc)
  · next hc =>
    rw [if_neg hc]
    split at h
    · next hc2 =>
      rw [if_pos hc2]
      exact List.mem_append_right _ (syncInsLoop_fail_error _ _ _ _ (by simpa using hc2))
    · next hc2 =>
      rw [if_neg hc2]
      split at h
      · next hc3 =>
        rw [if_pos hc3]
        exact List.mem_append_right _ (syncUpdLoop_fail_error _ _ _ _ (by simpa using hc3))
      · next hc3 =>
        rw [if_neg hc3]
        split at h
        · next hc4 =>
          rw [if_pos hc4]
          simp
        · simp at h


theorem und_setSize (w : W) (n : Int) :
    Ev.dataOutdated ∉ (setSize w n).2 ∧ ∀ k, Ev.undoCountChanged k ∉ (setSize w n).2 := by
  unfold setSize
  split <;> simp

theorem und_addToCategories (w : W) (c : String) :
    Ev.dataOutdated ∉ (addToCategories w c).2
      ∧ ∀ k, Ev.undoCountChanged k ∉ (addToCategories w c).2 := by
  unfold addToCategories
  split <;> simp

theorem und_append {E1 E2 : List Ev}
    (h1 : Ev.dataOutdated ∉ E1 ∧ ∀ k, Ev.undoCountChanged k ∉ E1)
    (h2 : Ev.dataOutdated ∉ E2 ∧ ∀ k, Ev.undoCountChanged k ∉ E2) :
    Ev.dataOutdated ∉ E1 ++ E2 ∧ ∀ k, Ev.undoCountChanged k ∉ E1 ++ E2 := by
  constructor
  · intro hm
    rcases List.mem_append.mp hm with hm | hm
    · exact h1.1 hm
    · exact h2.1 hm
  · intro k hm
    rcases List.mem_append.mp hm with hm | hm
    · exact h1.2 k hm
    · exact h2.2 k hm

theorem und_error :
    Ev.dataOutdated ∉ [Ev.error] ∧ ∀ k, Ev.undoCountChanged k ∉ [Ev.error] := by
  simp

theorem und_removeData (w : W) (d : SyncData) (now : Int) (fs : List Bool) :
    Ev.dataOutdated ∉ (removeData w d now fs).evs
      ∧ ∀ k, Ev.undoCountChanged k ∉ (removeData w d now fs).evs := by
  unfold removeData
  dsimp only
  split
  · exact und_error
  · exact und_setSize _ _

theorem und_insertData1 (w : W) (d : SyncData) (now : Int) (fs : List Bool) :
    Ev.dataOutdated ∉ (insertData1 w d now fs).evs
      ∧ ∀ k, Ev.undoCountChanged k ∉ (insertData1 w d now fs).evs := by
  unfold insertData1
  dsimp only
  split
  · exact und_error
  · split
    · exact und_error
    · exact und_append (und_setSize _ _) (und_addToCategories _ _)

theorem und_editData (w : W) (d : SyncData) (f : Fields) (now : Int) (fs : List Bool) :
    Ev.dataOutdated ∉ (editData w d f now fs).evs
      ∧ ∀ k, Ev.undoCountChanged k ∉ (editData w d f now fs).evs := by
  unfold editData
  dsimp only
  split
  · exact und_error
  · split
    · exact und_error
    · split
      · exact und_addToCategories _ _
      · simp

theorem und_syncRemLoop :
    ∀ (rs : List SyncData) (w : W) (now : Int) (fs : List Bool),
      Ev.dataOutdated ∉ (syncRemLoop w rs now fs).evs
        ∧ ∀ k, Ev.undoCountChanged k ∉ (syncRemLoop w rs now fs).evs
  | [], w, now, fs => by simp [syncRemLoop]
  | r :: rs', w, now, fs => by
    unfold syncRemLoop
    dsimp only
    split
    · exact und_append (und_removeData _ _ _ _) (und_syncRemLoop rs' _ now _)
    · exact und_removeData _ _ _ _

theorem und_syncInsLoop :
    ∀ (rs : List SyncData) (w : W) (now : Int) (fs : List Bool),
      Ev.dataOutdated ∉ (syncInsLoop w rs now fs).evs
        ∧ ∀ k, Ev.undoCountChanged k ∉ (syncInsLoop w rs now fs).evs
  | [], w, now, fs => by simp [syncInsLoop]
  | r :: rs', w, now, fs => by
    unfold syncInsLoop
    dsimp only
    split
    · exact und_append (und_insertData1 _ _ _ _) (und_syncInsLoop rs' _ now _)
    · exact und_insertData1 _ _ _ _

theorem und_syncUpdLoop :
    ∀ (rs : List SyncData) (w : W) (now : Int) (fs : List Bool),
      Ev.dataOutdated ∉ (syncUpdLoop w rs now fs).evs
        ∧ ∀ k, Ev.undoCountChanged k ∉ (syncUpdLoop w rs now fs).evs
  | [], w, now, fs => by simp [syncUpdLoop]
  | r :: rs', w, now, fs => by
    unfold syncUpdLoop
    dsimp only
    split
    · exact und_append (und_editData _ _ _ _ _) (und_syncUpdLoop rs' _ now _)
    · exact und_editData _ _ _ _ _

theorem und_notifyRemove (db : DB) (s : Int) :
    Ev.dataOutdated ∉ notifyRemoveUpdates db s
      ∧ ∀ k, Ev.undoCountChanged k ∉ notifyRemoveUpdates db s := by
  unfold notifyRemoveUpdates
  dsimp only
  split <;> simp

theorem und_notifyInsert (db : DB) (s : Int) :
    Ev.dataOutdated ∉ notifyInsertUpdates db s
      ∧ ∀ k, Ev.undoCountChanged k ∉ notifyInsertUpdates db s := by
  unfold notifyInsertUpdates
  dsimp only
  split <;> simp

theorem und_notifyEdit (db : DB) (f : Fields) (s : Int) (oldS : Option Int) :
    Ev.dataOutdated ∉ notifyEditUpdates db f s oldS
      ∧ ∀ k, Ev.undoCountChanged k ∉ notifyEditUpdates db f s oldS := by
  unfold notifyEditUpdates
  dsimp only
  split
  · split <;> simp
  · split <;> simp

theorem und_postSyncEvents (db : DB) (removed inserted updNew updOld : List SyncData) :
    Ev.dataOutdated ∉ postSyncEvents db removed inserted updNew updOld
      ∧ ∀ k, Ev.undoCountChanged k ∉ postSyncEvents db removed inserted updNew updOld := by
  unfold postSyncEvents
  refine und_append (und_append (und_append (und_append ?_ ?_) ?_) ?_) ?_
  · constructor
    · intro hm
      rcases List.mem_map.mp hm with ⟨x, _, hx⟩
      simp at hx
    · intro k hm
      rcases List.mem_map.mp hm with ⟨x, _, hx⟩
      simp at hx
  · constructor
    · intro hm
      rcases List.mem_flatten.mp hm with ⟨E, hE, hmE⟩
      rcases List.mem_map.mp hE with ⟨x, _, hx⟩
      rw [← hx] at hmE
      exact (und_notifyRemove _ _).1 hmE
    · intro k hm
      rcases List.mem_flatten.mp hm with ⟨E, hE, hmE⟩
      rcases List.mem_map.mp hE with ⟨x, _, hx⟩
      rw [← hx] at hmE
      exact (und_notifyRemove _ _).2 k hmE
  · constructor
    · intro hm
      rcases List.mem_map.mp hm with ⟨x, _, hx⟩
      simp at hx
    · intro k hm
      rcases List.mem_map.mp hm with ⟨x, _, hx⟩
      simp at hx
  · constructor
    · intro hm
      rcases List.mem_flatten.mp hm with ⟨E, hE, hmE⟩
      rcases List.mem_map.mp hE with ⟨x, _, hx⟩
      rw [← hx] at hmE
      exact (und_notifyInsert _ _).1 hmE
    · intro k hm
      rcases List.mem_flatten.mp hm with ⟨E, hE, hmE⟩
      rcases List.mem_map.mp hE with ⟨x, _, hx⟩
      rw [← hx] at hmE
      exact (und_notifyInsert _ _).2 k hmE
  · constructor
    · intro hm
      rcases List.mem_flatten.mp hm with ⟨E, hE, hmE⟩
      rcases List.mem_map.mp hE with ⟨x, _, hx⟩
      rw [← hx] at hmE
      exact (und_notifyEdit _ _ _ _).1 hmE
    · intro k hm
      rcases List.mem_flatten.mp hm with ⟨E, hE, hmE⟩
      rcases List.mem_map.mp hE with ⟨x, _, hx⟩
      rw [← hx] at hmE
      exact (und_notifyEdit _ _ _ _).2 k hmE

theorem und_syncDataFn (w : W) (removed inserted updNew updOld : List SyncData)
    (now : Int) (fs : List Bool) :
    Ev.dataOutdated ∉ (syncDataFn w removed inserted updNew updOld now fs).evs
      ∧ ∀ k, Ev.undoCountChanged k
          ∉ (syncDataFn w removed inserted updNew updOld now fs).evs := by
  unfold syncDataFn
  dsimp only
  split
  · exact und_syncRemLoop _ _ _ _
  · split
    · exact und_append (und_syncRemLoop _ _ _ _) (und_syncInsLoop _ _ _ _)
    · split
      · exact und_append (und_append (und_syncRemLoop _ _ _ _) (und_syncInsLoop _ _ _ _))
          (und_syncUpdLoop _ _ _ _)
      · split
        · exact und_append (und_append (und_append (und_syncRemLoop _ _ _ _)
            (und_syncInsLoop _ _ _ _)) (und_syncUpdLoop _ _ _ _)) und_error
        · exact und_append (und_append (und_append (und_syncRemLoop _ _ _ _)
            (und_syncInsLoop _ _ _ _)) (und_syncUpdLoop _ _ _ _))
            (und_postSyncEvents _ _ _ _ _)


theorem editCategoryData_fail_error (w : W) (oldN newN : String) (now : Int) (fs : List Bool)
    (hmatch : w.db.timelog.any (fun r => r.category == oldN) = true)
    (h : ¬ (editCategoryData w oldN newN now fs).ok = true) :
    (editCategoryData w oldN newN now fs).evs = [Ev.error] := by
  by_cases hp1 : (stepFail fs).1 = true
  · unfold editCategoryData
    dsimp only
    rw [if_pos hp1]
  · unfold editCategoryData at h ⊢
    dsimp only at h ⊢
    rw [show (stepFail fs).1 = false from (by rwa [Bool.not_eq_true] at hp1)] at h ⊢
    simp only [Bool.false_eq_true, if_false] at h ⊢
    rw [if_neg (not_not_intro hmatch)] at h ⊢
    by_cases hp2 : (stepFail (stepFail fs).2).1 = true
    · rw [if_pos hp2]
    · rw [show (stepFail (stepFail fs).2).1 = false from
        (by rwa [Bool.not_eq_true] at hp2)] at h ⊢
      simp only [Bool.false_eq_true, if_false] at h ⊢
      unfold updateCategories at h ⊢
      dsimp only at h ⊢
      split at h
      · next hc =>
        rw [if_pos hc]
      · simp at h

theorem editCategoryData_fail_db (w : W) (oldN newN : String) (now : Int) (fs : List Bool)
    (h : ¬ (editCategoryData w oldN newN now fs).ok = true) :
    (editCategoryData w oldN newN now fs).w.db = w.db
    ∨ (editCategoryData w oldN newN now fs).w.db
        = sqlRenameCategory w.db oldN newN now := by
  unfold editCategoryData at h ⊢
  dsimp only at h ⊢
  split at h
  · next hc =>
    rw [if_pos hc]
    exact Or.inl rfl
  · next hc =>
    rw [if_neg hc]
    split at h
    · next hc2 =>
      rw [if_pos hc2]
      exact Or.inl (removeFromCategories_db w oldN)
    · next hc2 =>
      rw [if_neg hc2]
      split at h
      · next hc3 =>
        rw [if_pos hc3]
        exact Or.inl rfl
      · next hc3 =>
        rw [if_neg hc3]
        unfold updateCategories at h ⊢
        dsimp only at h ⊢
        split at h
        · next hc4 =>
          rw [if_pos hc4]
          exact Or.inr rfl
        · simp at h

/-- Claim C5 (amended): a failure inside the transaction of `import`,
`insert`, `remove` or `edit` produces all of: database rollback, an
`error` emission, clearing of the undo stack with `undoCountChanged 0`,
and a `dataOutdated` emission.  `editCategory` runs without a
transaction: a failure still emits `error`, clears the undo stack with
`undoCountChanged 0` and emits `dataOutdated`, but the database is left
either unchanged or with the rename committed — a rename UPDATE that
already executed is kept when the later category rebuild fails, so a
partial effect is visible.  A failure inside `sync`'s transaction,
however, only rolls the database back and emits `error`: the undo stack
is left as it was and neither `undoCountChanged` nor `dataOutdated` is
emitted. -/
theorem transaction_failure_handling (w : W) (now : Int) (fs : List Bool) :
    (∀ ds, ¬ (insertDataV w ds now fs).ok = true →
        (runCmd w (.cImport ds) now fs).1.db = w.db
        ∧ (runCmd w (.cImport ds) now fs).1.undoStack = []
        ∧ Ev.error ∈ (runCmd w (.cImport ds) now fs).2
        ∧ Ev.undoCountChanged 0 ∈ (runCmd w (.cImport ds) now fs).2
        ∧ Ev.dataOutdated ∈ (runCmd w (.cImport ds) now fs).2)
    ∧ (∀ d, ¬ (insertData1 (pushUndo w ⟨.uInsert, [d], []⟩).1 (toSync d) now fs).ok = true →
        (runCmd w (.cInsert d) now fs).1.db = w.db
        ∧ (runCmd w (.cInsert d) now fs).1.undoStack = []
        ∧ Ev.error ∈ (runCmd w (.cInsert d) now fs).2
        ∧ Ev.undoCountChanged 0 ∈ (runCmd w (.cInsert d) now fs).2
        ∧ Ev.dataOutdated ∈ (runCmd w (.cInsert d) now fs).2)
    ∧ (∀ d, ¬ (removeData (pushUndo w ⟨.uRemove, [getEntry w.db d.uuid], []⟩).1
          (toSync d) now fs).ok = true →
        (runCmd w (.cRemove d) now fs).1.db = w.db
        ∧ (runCmd w (.cRemove d) now fs).1.undoStack = []
        ∧ Ev.error ∈ (runCmd w (.cRemove d) now fs).2
        ∧ Ev.undoCountChanged 0 ∈ (runCmd w (.cRemove d) now fs).2
        ∧ Ev.dataOutdated ∈ (runCmd w (.cRemove d) now fs).2)
    ∧ (∀ d f, ¬ f = noFields →
        ¬ (f.startTime = true ∧ ¬ (getEntry w.db d.uuid).isValid = true) →
        ¬ (editData (pushUndo w ⟨.uEdit, [getEntry w.db d.uuid], [f]⟩).1
            (toSync d) f now fs).ok = true →
        (runCmd w (.cEdit d f) now fs).1.db = w.db
        ∧ (runCmd w (.cEdit d f) now fs).1.undoStack = []
        ∧ Ev.error ∈ (runCmd w (.cEdit d f) now fs).2
        ∧ Ev.undoCountChanged 0 ∈ (runCmd w (.cEdit d f) now fs).2
        ∧ Ev.dataOutdated ∈ (runCmd w (.cEdit d f) now fs).2)
    ∧ (∀ oldN newN, ¬ newN = "" → ¬ oldN = newN →
        w.db.timelog.any (fun r => r.category == oldN) = true →
        ¬ (editCategoryData (pushUndo w ⟨.uEditCategory, getEntries w.db oldN,
            (getEntries w.db oldN).map (fun _ => categoryField)⟩).1
            oldN newN now fs).ok = true →
        ((runCmd w (.cEditCategory oldN newN) now fs).1.db = w.db
          ∨ (runCmd w (.cEditCategory oldN newN) now fs).1.db
              = sqlRenameCategory w.db oldN newN now)
        ∧ (runCmd w (.cEditCategory oldN newN) now fs).1.undoStack = []
        ∧ Ev.error ∈ (runCmd w (.cEditCategory oldN newN) now fs).2
        ∧ Ev.undoCountChanged 0 ∈ (runCmd w (.cEditCategory oldN newN) now fs).2
        ∧ Ev.dataOutdated ∈ (runCmd w (.cEditCategory oldN newN) now fs).2)
    ∧ (∀ upd rem, ¬ (syncDataFn w
          (removedMerged (classifyRemoved w.db rem).1 (classifyRemoved w.db rem).2)
          (classifyUpdated w.db upd).1 (classifyUpdated w.db upd).2.2.1
          (classifyUpdated w.db upd).2.2.2 now fs).ok = true →
        (runCmd w (.cSync upd rem) now fs).1.db = w.db
        ∧ (runCmd w (.cSync upd rem) now fs).1.undoStack = w.undoStack
        ∧ Ev.error ∈ (runCmd w (.cSync upd rem) now fs).2
        ∧ Ev.dataOutdated ∉ (runCmd w (.cSync upd rem) now fs).2
        ∧ ∀ k, Ev.undoCountChanged k ∉ (runCmd w (.cSync upd rem) now fs).2) := by
  refine ⟨?_, ?_, ?_, ?_, ?_, ?_⟩
  · intro ds hnok
    simp only [runCmd, hnok, if_false]
    have hfail := insertDataGo_fail_db ds w now fs hnok
    refine ⟨?_, rfl, ?_, ?_, ?_⟩
    · show (insertDataGo w w.db ds now fs).w.db = w.db
      exact hfail.1
    · exact List.mem_append_left _ hfail.2
    · simp [processFail]
    · simp [processFail]
  · intro d hnok
    have h1 : (runCmd w (.cInsert d) now fs).1
        = (insertEntry (pushUndo w ⟨.uInsert, [d], []⟩).1 (toSync d) now fs).w := rfl
    have h2 : (runCmd w (.cInsert d) now fs).2
        = (pushUndo w ⟨.uInsert, [d], []⟩).2
          ++ (insertEntry (pushUndo w ⟨.uInsert, [d], []⟩).1 (toSync d) now fs).evs := rfl
    rw [insertEntry_fail _ _ _ _ hnok] at h1 h2
    dsimp only at h1 h2
    rw [h1, h2]
    refine ⟨?_, rfl, ?_, ?_, ?_⟩
    · show (processFail _).1.db = w.db
      rw [show ∀ w2 : W, (processFail w2).1.db = w2.db from fun _ => rfl, pushUndo_db]
    · simp
    · simp [processFail]
    · simp [processFail]
  · intro d hnok
    have h1 : (runCmd w (.cRemove d) now fs).1
        = (removeEntry (pushUndo w ⟨.uRemove, [getEntry w.db d.uuid], []⟩).1
            (toSync d) now fs).w := rfl
    have h2 : (runCmd w (.cRemove d) now fs).2
        = (pushUndo w ⟨.uRemove, [getEntry w.db d.uuid], []⟩).2
          ++ (removeEntry (pushUndo w ⟨.uRemove, [getEntry w.db d.uuid], []⟩).1
              (toSync d) now fs).evs := rfl
    rw [removeEntry_fail _ _ _ _ hnok] at h1 h2
    dsimp only at h1 h2
    rw [h1, h2]
    refine ⟨?_, rfl, ?_, ?_, ?_⟩
    · show (processFail _).1.db = w.db
      rw [show ∀ w2 : W, (processFail w2).1.db = w2.db from fun _ => rfl, pushUndo_db]
    · simp
    · simp [processFail]
    · simp [processFail]
  · intro d f hnf hv hnok
    have h1 : (runCmd w (.cEdit d f) now fs).1
        = (editEntry (pushUndo w ⟨.uEdit, [getEntry w.db d.uuid], [f]⟩).1
            (toSync d) f now fs).w := rfl
    have h2 : (runCmd w (.cEdit d f) now fs).2
        = (pushUndo w ⟨.uEdit, [getEntry w.db d.uuid], [f]⟩).2
          ++ (editEntry (pushUndo w ⟨.uEdit, [getEntry w.db d.uuid], [f]⟩).1
              (toSync d) f now fs).evs := rfl
    rw [editEntry_fail _ _ _ _ _ hnf (by rw [pushUndo_db]; exact hv) hnok] at h1 h2
    dsimp only at h1 h2
    rw [h1, h2]
    refine ⟨?_, rfl, ?_, ?_, ?_⟩
    · show (processFail _).1.db = w.db
      rw [show ∀ w2 : W, (processFail w2).1.db = w2.db from fun _ => rfl, pushUndo_db]
    · simp
    · simp [processFail]
    · simp [processFail]
  · intro oldN newN hne hdiff hmatch hnok
    simp only [runCmd, hne, hdiff, hnok, if_false]
    have herr := editCategoryData_fail_error
      (pushUndo w ⟨.uEditCategory, getEntries w.db oldN,
        (getEntries w.db oldN).map (fun _ => categoryField)⟩).1 oldN newN now fs
      (by rw [pushUndo_db]; exact hmatch) hnok
    have hdb := editCategoryData_fail_db
      (pushUndo w ⟨.uEditCategory, getEntries w.db oldN,
        (getEntries w.db oldN).map (fun _ => categoryField)⟩).1 oldN newN now fs hnok
    rw [pushUndo_db] at hdb
    refine ⟨?_, rfl, ?_, ?_, ?_⟩
    · exact hdb
    · rw [herr]
      simp
    · simp [processFail]
    · simp [processFail]
  · intro upd rem hnok
    simp only [runCmd, hnok, if_false]
    refine ⟨syncDataFn_fail_db _ _ _ _ _ _ _ hnok, syncDataFn_stack _ _ _ _ _ _ _, ?_, ?_, ?_⟩
    · exact List.mem_append_right _ (syncDataFn_fail_error _ _ _ _ _ _ _ hnok)
    · intro hm
      rcases List.mem_append.mp hm with hm | hm
      · simp at hm
      · exact (und_syncDataFn _ _ _ _ _ _ _).1 hm
    · intro k hm
      rcases List.mem_append.mp hm with hm | hm
      · simp at hm
      · exact (und_syncDataFn _ _ _ _ _ _ _).2 k hm


/-- Witness for C5: a failing insert (storage failure on the INSERT) clears
the undo stack and emits `error` and `dataOutdated`. -/
theorem transaction_failure_handling_witness :
    (runCmd initW (.cInsert ⟨1, some 10, "a", "", 0, 0⟩) 1000 [true]).1.undoStack = []
    ∧ Ev.error ∈ (runCmd initW (.cInsert ⟨1, some 10, "a", "", 0, 0⟩) 1000 [true]).2
    ∧ Ev.dataOutdated ∈ (runCmd initW (.cInsert ⟨1, some 10, "a", "", 0, 0⟩) 1000 [true]).2 := by
  have h := (transaction_failure_handling initW 1000 [true]).2.1
    ⟨1, some 10, "a", "", 0, 0⟩ (by decide)
  exact ⟨h.2.1, h.2.2.1, h.2.2.2.2⟩

/-- Counterexample to C5 as stated: a sync whose transaction fails at its
first sub-step emits `error` but does not clear the undo stack, emits no
`undoCountChanged(0)` and no `dataOutdated`; and an `editCategory` whose
category rebuild fails after the rename UPDATE executed keeps the rename
in the database (a visible partial effect, no rollback). -/
theorem transaction_failure_counterexample :
    Ev.error ∈ (runCmd (execSteps [⟨.cInsert ⟨1, some 10, "a", "", 0, 0⟩, 1000, []⟩])
        (.cSync [] [⟨⟨1, none, "", "", 0, 0⟩, some 2000⟩]) 3000 [true]).2
    ∧ (runCmd (execSteps [⟨.cInsert ⟨1, some 10, "a", "", 0, 0⟩, 1000, []⟩])
        (.cSync [] [⟨⟨1, none, "", "", 0, 0⟩, some 2000⟩]) 3000 [true]).1.undoStack
        = (execSteps [⟨.cInsert ⟨1, some 10, "a", "", 0, 0⟩, 1000, []⟩]).undoStack
    ∧ (execSteps [⟨.cInsert ⟨1, some 10, "a", "", 0, 0⟩, 1000, []⟩]).undoStack ≠ []
    ∧ Ev.dataOutdated ∉ (runCmd (execSteps [⟨.cInsert ⟨1, some 10, "a", "", 0, 0⟩, 1000, []⟩])
        (.cSync [] [⟨⟨1, none, "", "", 0, 0⟩, some 2000⟩]) 3000 [true]).2
    ∧ Ev.undoCountChanged 0 ∉ (runCmd (execSteps [⟨.cInsert ⟨1, some 10, "a", "", 0, 0⟩,
        1000, []⟩]) (.cSync [] [⟨⟨1, none, "", "", 0, 0⟩, some 2000⟩]) 3000 [true]).2
    ∧ (execSteps [⟨.cInsert ⟨2, some 10, "x", "", 0, 0⟩, 1000, []⟩]).db.timelog.map
        (·.category) = ["x"]
    ∧ (runCmd (execSteps [⟨.cInsert ⟨2, some 10, "x", "", 0, 0⟩, 1000, []⟩])
        (.cEditCategory "x" "y") 2000 [false, false, true]).1.db.timelog.map
        (·.category) = ["y"]
    ∧ Ev.error ∈ (runCmd (execSteps [⟨.cInsert ⟨2, some 10, "x", "", 0, 0⟩, 1000, []⟩])
        (.cEditCategory "x" "y") 2000 [false, false, true]).2
    ∧ (runCmd (execSteps [⟨.cInsert ⟨2, some 10, "x", "", 0, 0⟩, 1000, []⟩])
        (.cEditCategory "x" "y") 2000 [false, false, true]).1.undoStack = [] := by
  decide


/-! Claim C4 support: the two trigger mechanisms behind uuid-disjointness. -/

theorem sqlInsertTimelogRaw_no_tomb {db : DB} {u : Nat} {s : Int} {cat com : String}
    {mt : Int} {db' : DB} {n : Int}
    (h : sqlInsertTimelogRaw db u s cat com mt = some (db', n)) :
    ∀ t ∈ db'.removed, t.1 ≠ u := by
  unfold sqlInsertTimelogRaw at h
  split at h
  · exact absurd h (by simp)
  · simp only [Option.some.injEq, Prod.mk.injEq] at h
    rw [← h.1]
    intro t ht
    rw [List.mem_filter] at ht
    simpa using ht.2

theorem sqlInsertRemoved_no_live (db : DB) (u : Nat) (mt : Int) (hInv : InvDB db) :
    ∀ r ∈ (sqlInsertRemoved db u mt).1.timelog, r.uuid ≠ u := by
  unfold sqlInsertRemoved
  split
  · next tm heq =>
    split
    · intro r hr
      unfold findTomb at heq
      cases hf : db.removed.find? (fun t => t.1 == u) with
      | none =>
        rw [hf] at heq
        simp at heq
      | some t =>
        have hmem := List.mem_of_find?_eq_some hf
        have ht1 : t.1 = u := by simpa using List.find?_some hf
        intro hru
        exact hInv.2.2.2.2 r hr t hmem (hru.trans ht1.symm)
    · intro r hr
      exact (sqlDeleteByUuid_ok db.timelog u hInv.1 hInv.2.1 hInv.2.2.1).2.2.2.1 r hr
  · intro r hr
    exact (sqlDeleteByUuid_ok db.timelog u hInv.1 hInv.2.1 hInv.2.2.1).2.2.2.1 r hr

/-- Claim C4: on every reachable state a uuid lives in at most one of the
two tables; mechanically, a successful raw insert deletes the uuid's
tombstone, and writing a tombstone deletes the uuid's live row. -/
theorem uuid_in_one_table (steps : List Step) (db : DB) (u : Nat) (s mt : Int)
    (cat com : String) (hInv : InvDB db) :
    (∀ r ∈ (execSteps steps).db.timelog, ∀ t ∈ (execSteps steps).db.removed, r.uuid ≠ t.1)
    ∧ (∀ db' n, sqlInsertTimelogRaw db u s cat com mt = some (db', n) →
        ∀ t ∈ db'.removed, t.1 ≠ u)
    ∧ (∀ r ∈ (sqlInsertRemoved db u mt).1.timelog, r.uuid ≠ u) :=
  ⟨(InvW_execSteps steps).1.2.2.2.2,
   fun _ _ h => sqlInsertTimelogRaw_no_tomb h,
   sqlInsertRemoved_no_live db u mt hInv⟩

/-- Witness for C4: after an insert of uuid 1 and a remove of uuid 2, the
live row's uuid differs from the tombstone's. -/
theorem uuid_in_one_table_witness :
    ((execSteps [⟨.cInsert ⟨1, some 10, "a", "", 0, 0⟩, 1000, []⟩,
        ⟨.cRemove ⟨2, none, "", "", 0, 0⟩, 1000, []⟩]).db.timelog.headD
      ⟨0, 0, "", "", 0, 0⟩).uuid
    ≠ ((execSteps [⟨.cInsert ⟨1, some 10, "a", "", 0, 0⟩, 1000, []⟩,
        ⟨.cRemove ⟨2, none, "", "", 0, 0⟩, 1000, []⟩]).db.removed.headD (0, 0)).1 :=
  (uuid_in_one_table [⟨.cInsert ⟨1, some 10, "a", "", 0, 0⟩, 1000, []⟩,
      ⟨.cRemove ⟨2, none, "", "", 0, 0⟩, 1000, []⟩]
    ⟨[], []⟩ 0 0 0 "" ""
    (by refine ⟨?_, ⟨?_, ?_⟩, ?_, ?_, ?_⟩ <;> simp [sortedT, durOk])).1
    _ (by decide) _ (by decide)


/-! Sync idempotence machinery: per-uuid projections of the tables. -/

theorem find?_eq_head?_filter {α : Type} (p : α → Bool) :
    ∀ l : List α, l.find? p = (l.filter p).head?
  | [] => rfl
  | a :: t => by
    by_cases ha : p a = true
    · rw [List.find?_cons_of_pos _ ha, List.filter_cons_of_pos ha]
      rfl
    · rw [List.find?_cons_of_neg _ ha, List.filter_cons_of_neg (by simpa using ha)]
      exact find?_eq_head?_filter p t

theorem find?_map_congr {tl tl' : List Row} {p : Row → Bool}
    (h : (tl'.filter p).map liveSync = (tl.filter p).map liveSync) :
    (tl'.find? p).map liveSync = (tl.find? p).map liveSync := by
  rw [find?_eq_head?_filter, find?_eq_head?_filter, ← List.head?_map, ← List.head?_map, h]

theorem filterLive_pointwise (g : Row → Row) (u : Nat)
    (hg : ∀ r, (g r).uuid = r.uuid ∧ liveSync (g r) = liveSync r) :
    ∀ tl : List Row, ((tl.map g).filter (fun r => r.uuid == u)).map liveSync
      = (tl.filter (fun r => r.uuid == u)).map liveSync
  | [] => rfl
  | a :: t => by
    rw [List.map_cons]
    by_cases ha : (a.uuid == u) = true
    · rw [List.filter_cons_of_pos (by rw [show (g a).uuid = a.uuid from (hg a).1]; exact ha)]
      rw [show (a :: t).filter (fun r => r.uuid == u) = a :: t.filter (fun r => r.uuid == u)
        from List.filter_cons_of_pos ha]
      rw [List.map_cons, List.map_cons, filterLive_pointwise g u hg t, (hg a).2]
    · rw [List.filter_cons_of_neg (by rw [show (g a).uuid = a.uuid from (hg a).1]; simpa using ha),
        List.filter_cons_of_neg (by simpa using ha), filterLive_pointwise g u hg t]

theorem filterLive_setDurAt (tl : List Row) (sv d : Int) (u : Nat) :
    ((setDurAt tl sv d).filter (fun r => r.uuid == u)).map liveSync
      = (tl.filter (fun r => r.uuid == u)).map liveSync := by
  apply filterLive_pointwise
  intro r
  constructor
  · dsimp only
    split <;> rfl
  · dsimp only
    split <;> rfl

theorem filterLive_predFix (tl : List Row) (sv : Int) (u : Nat) :
    ((predFix tl sv).filter (fun r => r.uuid == u)).map liveSync
      = (tl.filter (fun r => r.uuid == u)).map liveSync := by
  unfold predFix
  cases maxBelow tl sv with
  | none => rfl
  | some p => exact filterLive_setDurAt _ _ _ _

theorem filterLive_selfFix (tl : List Row) (sv : Int) (u : Nat) :
    ((selfFix tl sv).filter (fun r => r.uuid == u)).map liveSync
      = (tl.filter (fun r => r.uuid == u)).map liveSync := by
  unfold selfFix
  cases minAbove tl sv with
  | none => exact filterLive_setDurAt _ _ _ _
  | some nx => exact filterLive_setDurAt _ _ _ _

theorem filterLive_updStmt2 (tl : List Row) (oldS newS : Int) (u : Nat) :
    ((updStmt2 tl oldS newS).filter (fun r => r.uuid == u)).map liveSync
      = (tl.filter (fun r => r.uuid == u)).map liveSync := by
  unfold updStmt2
  cases (maxBelow tl oldS).map (·.start) with
  | none => rfl
  | some a =>
    cases (maxBelow tl newS).map (·.start) with
    | none =>
      cases minAbove tl oldS with
      | none => exact filterLive_setDurAt _ _ _ _
      | some nx => exact filterLive_setDurAt _ _ _ _
    | some b =>
      by_cases hab : a = b
      · simp only [if_pos hab]
      · simp only [if_neg hab]
        cases minAbove tl oldS with
        | none => exact filterLive_setDurAt _ _ _ _
        | some nx => exact filterLive_setDurAt _ _ _ _

theorem filterLive_insTrigRepair (tl : List Row) (sv : Int) (u : Nat) :
    ((insTrigRepair tl sv).filter (fun r => r.uuid == u)).map liveSync
      = (tl.filter (fun r => r.uuid == u)).map liveSync := by
  unfold insTrigRepair
  rw [filterLive_selfFix, filterLive_predFix]

theorem filterLive_delTrigRepair (tl : List Row) (sv : Int) (u : Nat) :
    ((delTrigRepair tl sv).filter (fun r => r.uuid == u)).map liveSync
      = (tl.filter (fun r => r.uuid == u)).map liveSync := by
  unfold delTrigRepair
  cases maxBelow tl sv with
  | none => rfl
  | some p =>
    cases minAbove tl sv with
    | none => exact filterLive_setDurAt _ _ _ _
    | some nx => exact filterLive_setDurAt _ _ _ _

theorem filterLive_updTrigRepair (tl : List Row) (oldS newS : Int) (u : Nat) :
    ((updTrigRepair tl oldS newS).filter (fun r => r.uuid == u)).map liveSync
      = (tl.filter (fun r => r.uuid == u)).map liveSync := by
  unfold updTrigRepair
  rw [filterLive_selfFix, filterLive_updStmt2, filterLive_predFix]

theorem filter_insertByStart (tl : List Row) (x : Row) (p : Row → Bool)
    (hx : p x = false) :
    (insertByStart tl x).filter p = tl.filter p := by
  unfold insertByStart
  rw [List.filter_append, List.filter_cons_of_neg (by simp [hx]), ← List.filter_append,
    List.takeWhile_append_dropWhile]

theorem filter_map_invariant {g : Row → Row} {p : Row → Bool}
    (hp : ∀ r, p (g r) = p r) (hid : ∀ r, p r = true → g r = r) :
    ∀ tl : List Row, (tl.map g).filter p = tl.filter p
  | [] => rfl
  | a :: t => by
    rw [List.map_cons]
    by_cases ha : p a = true
    · rw [List.filter_cons_of_pos (by rw [hp a]; exact ha), List.filter_cons_of_pos ha,
        hid a ha, filter_map_invariant hp hid t]
    · rw [List.filter_cons_of_neg (by rw [hp a]; simpa using ha),
        List.filter_cons_of_neg (by simpa using ha), filter_map_invariant hp hid t]

theorem findTomb_filter_ne (rem : List (Nat × Int)) (u0 u : Nat) (hne : u ≠ u0) :
    findTomb (rem.filter (fun t => !(t.1 == u0))) u = findTomb rem u := by
  unfold findTomb
  congr 1
  induction rem with
  | nil => rfl
  | cons t rs ih =>
    by_cases ht : t.1 = u0
    · rw [List.filter_cons_of_neg (by simp [ht]),
        List.find?_cons_of_neg _ (by simp [ht, hne.symm]), ih]
    · rw [List.filter_cons_of_pos (by simpa using ht)]
      by_cases htu : t.1 = u
      · rw [List.find?_cons_of_pos _ (by simpa using htu),
          List.find?_cons_of_pos _ (by simpa using htu)]
      · rw [List.find?_cons_of_neg _ (by simpa using htu),
          List.find?_cons_of_neg _ (by simpa using htu), ih]

theorem findTomb_map_ne (rem : List (Nat × Int)) (u0 : Nat) (mt : Int) (u : Nat)
    (hne : u ≠ u0) :
    findTomb (rem.map (fun t => if t.1 = u0 then (u0, mt) else t)) u = findTomb rem u := by
  unfold findTomb
  congr 1
  induction rem with
  | nil => rfl
  | cons t rs ih =>
    rw [List.map_cons]
    by_cases ht : t.1 = u0
    · rw [if_pos ht, List.find?_cons_of_neg _ (by simp [hne.symm]),
        List.find?_cons_of_neg _ (by simp [ht, hne.symm]), ih]
    · rw [if_neg ht]
      by_cases htu : t.1 = u
      · rw [List.find?_cons_of_pos _ (by simpa using htu),
          List.find?_cons_of_pos _ (by simpa using htu)]
      · rw [List.find?_cons_of_neg _ (by simpa using htu),
          List.find?_cons_of_neg _ (by simpa using htu), ih]

theorem findTomb_append_ne (rem : List (Nat × Int)) (u0 : Nat) (mt : Int) (u : Nat)
    (hne : u ≠ u0) :
    findTomb (rem ++ [(u0, mt)]) u = findTomb rem u := by
  unfold findTomb
  congr 1
  induction rem with
  | nil =>
    rw [List.nil_append, List.find?_cons_of_neg _ (by simp [hne.symm])]
  | cons t rs ih =>
    by_cases htu : t.1 = u
    · rw [List.cons_append, List.find?_cons_of_pos _ (by simpa using htu),
        List.find?_cons_of_pos _ (by simpa using htu)]
    · rw [List.cons_append, List.find?_cons_of_neg _ (by simpa using htu),
        List.find?_cons_of_neg _ (by simpa using htu), ih]

theorem findTomb_filter_self (rem : List (Nat × Int)) (u : Nat) :
    findTomb (rem.filter (fun t => !(t.1 == u))) u = none := by
  unfold findTomb
  rw [List.find?_eq_none.mpr]
  · rfl
  · intro t ht
    rw [List.mem_filter] at ht
    simpa using ht.2


theorem filter_middle_of_neg {p : Row → Bool} (l₁ l₂ : List Row) (x : Row)
    (hx : ¬ p x = true) :
    (l₁ ++ x :: l₂).filter p = (l₁ ++ l₂).filter p := by
  rw [List.filter_append, List.filter_append, List.filter_cons_of_neg hx]

theorem gsa_congr {db' db : DB} {u : Nat}
    (hl : (db'.timelog.find? (fun r => r.uuid == u)).map liveSync
      = (db.timelog.find? (fun r => r.uuid == u)).map liveSync)
    (ht : findTomb db'.removed u = findTomb db.removed u) :
    getSyncAffected db' u = getSyncAffected db u := by
  unfold getSyncAffected
  rw [hl, ht]

theorem filterLive_sqlDeleteByUuid (db : DB) (u0 u : Nat) (hne : u ≠ u0) :
    ((sqlDeleteByUuid db.timelog u0).filter (fun r => r.uuid == u)).map liveSync
      = (db.timelog.filter (fun r => r.uuid == u)).map liveSync := by
  unfold sqlDeleteByUuid
  cases hf : db.timelog.find? (fun r => r.uuid == u0) with
  | none => rfl
  | some x =>
    obtain ⟨P, Q, he, hP, her⟩ := find_eraseP_decomp db.timelog _ x hf
    have hxu : x.uuid = u0 := by simpa using List.find?_some hf
    rw [her, filterLive_delTrigRepair, he,
      filter_middle_of_neg P Q x (by simp [hxu]; exact fun hc => hne hc.symm)]

theorem frame_sqlInsertRemoved (db : DB) (u0 : Nat) (mt : Int) (u : Nat) (hne : u ≠ u0) :
    ((sqlInsertRemoved db u0 mt).1.timelog.find? (fun r => r.uuid == u)).map liveSync
      = (db.timelog.find? (fun r => r.uuid == u)).map liveSync
    ∧ findTomb (sqlInsertRemoved db u0 mt).1.removed u = findTomb db.removed u := by
  unfold sqlInsertRemoved
  split
  · split
    · exact ⟨rfl, rfl⟩
    · exact ⟨find?_map_congr (filterLive_sqlDeleteByUuid db u0 u hne),
        findTomb_map_ne _ _ _ _ hne⟩
  · exact ⟨find?_map_congr (filterLive_sqlDeleteByUuid db u0 u hne),
      findTomb_append_ne _ _ _ _ hne⟩

theorem frame_sqlInsertTimelog {db : DB} {u0 : Nat} {s : Int} {cat com : String}
    {mt : Int} {db' : DB} {n : Int}
    (h : sqlInsertTimelog db u0 s cat com mt = some (db', n)) (u : Nat) (hne : u ≠ u0) :
    (db'.timelog.find? (fun r => r.uuid == u)).map liveSync
      = (db.timelog.find? (fun r => r.uuid == u)).map liveSync
    ∧ findTomb db'.removed u = findTomb db.removed u := by
  have hraw : sqlInsertTimelogRaw db u0 s cat com mt = some (db', n) →
      ((db'.timelog.find? (fun r => r.uuid == u)).map liveSync
        = (db.timelog.find? (fun r => r.uuid == u)).map liveSync
      ∧ findTomb db'.removed u = findTomb db.removed u) := by
    intro h2
    unfold sqlInsertTimelogRaw at h2
    split at h2
    · exact absurd h2 (by simp)
    · simp only [Option.some.injEq, Prod.mk.injEq] at h2
      rw [← h2.1]
      refine ⟨find?_map_congr ?_, findTomb_filter_ne _ _ _ hne⟩
      rw [filterLive_insTrigRepair,
        filter_insertByStart _ _ _ (by simp; exact fun hc => hne hc.symm)]
  unfold sqlInsertTimelog at h
  split at h
  · split at h
    · simp only [Option.some.injEq, Prod.mk.injEq] at h
      rw [← h.1]
      exact ⟨rfl, rfl⟩
    · exact hraw h
  · exact hraw h

theorem frame_sqlUpdateTimelog {db : DB} {u0 : Nat} {f : Fields} {s : Int}
    {cat com : String} {mt : Int} {db' : DB} {n : Int}
    (h : sqlUpdateTimelog db u0 f s cat com mt = some (db', n)) (u : Nat) (hne : u ≠ u0) :
    (db'.timelog.find? (fun r => r.uuid == u)).map liveSync
      = (db.timelog.find? (fun r => r.uuid == u)).map liveSync
    ∧ findTomb db'.removed u = findTomb db.removed u := by
  unfold sqlUpdateTimelog at h
  split at h
  · simp only [Option.some.injEq, Prod.mk.injEq] at h
    rw [← h.1]
    exact ⟨rfl, rfl⟩
  · next x hfind =>
    have hxu : x.uuid = u0 := by simpa using List.find?_some hfind
    split at h
    · simp only [Option.some.injEq, Prod.mk.injEq] at h
      rw [← h.1]
      exact ⟨rfl, rfl⟩
    · by_cases hft : f.startTime = true
      · simp only [hft, eq_self_iff_true, if_true, true_and] at h
        by_cases hgd : s ≠ x.start ∧ (db.timelog.any fun r => r.start == s) = true
        · rw [if_pos hgd] at h
          exact absurd h (by simp)
        · rw [if_neg hgd] at h
          simp only [Option.some.injEq, Prod.mk.injEq] at h
          rw [← h.1]
          obtain ⟨P, Q, he, hP, her⟩ := find_eraseP_decomp db.timelog _ x hfind
          refine ⟨find?_map_congr ?_, rfl⟩
          rw [her, filterLive_updTrigRepair,
            filter_insertByStart _ _ _ (by simp [hxu]; exact fun hc => hne hc.symm), he,
            filter_middle_of_neg P Q x (by simp [hxu]; exact fun hc => hne hc.symm)]
      · simp only [Bool.not_eq_true] at hft
        simp only [hft, Bool.false_eq_true, if_false, false_and] at h
        simp only [Option.some.injEq, Prod.mk.injEq] at h
        rw [← h.1]
        refine ⟨?_, rfl⟩
        apply find?_map_congr
        rw [show (db.timelog.map (fun r => if r.uuid = u0 then
            ⟨x.uuid, x.start, if f.category = true then cat else x.category,
             if f.comment = true then com else x.comment, x.duration, mt⟩ else r)).filter
            (fun r => r.uuid == u) = db.timelog.filter (fun r => r.uuid == u) from
          filter_map_invariant ?_ ?_ db.timelog]
        · intro r
          dsimp only
          by_cases hq : r.uuid = u0
          · rw [if_pos hq]
            show (x.uuid == u) = (r.uuid == u)
            rw [hxu, hq]
          · rw [if_neg hq]
        · intro r hr
          dsimp only
          rw [if_neg ?_]
          intro hq
          apply hne
          have hru : r.uuid = u := by simpa using hr
          rw [← hru, hq]


theorem gsa_eval_live {db : DB} {u : Nat} {x : Row}
    (hf : db.timelog.find? (fun r => r.uuid == u) = some x)
    (ht : findTomb db.removed u = none) :
    getSyncAffected db u = some (liveSync x) := by
  unfold getSyncAffected
  rw [hf, ht]
  rfl

theorem gsa_eval_tomb {db : DB} {u : Nat} {tm : Int}
    (hf : db.timelog.find? (fun r => r.uuid == u) = none)
    (ht : findTomb db.removed u = some tm) :
    getSyncAffected db u = some (tombSync u tm) := by
  unfold getSyncAffected
  rw [hf, ht]
  rfl

theorem findTomb_mem {rem : List (Nat × Int)} {u : Nat} {tm : Int}
    (h : findTomb rem u = some tm) : (u, tm) ∈ rem := by
  unfold findTomb at h
  cases hf : rem.find? (fun t => t.1 == u) with
  | none =>
    rw [hf] at h
    simp at h
  | some t =>
    rw [hf] at h
    have hmem := List.mem_of_find?_eq_some hf
    have ht1 : t.1 = u := by simpa using List.find?_some hf
    simp only [Option.map_some', Option.some.injEq] at h
    have : t = (u, tm) := by
      rcases t with ⟨a, b⟩
      simp only at ht1 h
      rw [ht1, h]
    rw [← this]
    exact hmem

theorem no_tomb_of_live {db : DB} {u : Nat} {x : Row} (hInv : InvDB db)
    (hf : db.timelog.find? (fun r => r.uuid == u) = some x) :
    findTomb db.removed u = none := by
  have hxm := List.mem_of_find?_eq_some hf
  have hxu : x.uuid = u := by simpa using List.find?_some hf
  cases ht : findTomb db.removed u with
  | none => rfl
  | some tm =>
    exact absurd (hxu.trans rfl) (hInv.2.2.2.2 x hxm (u, tm) (findTomb_mem ht))

theorem no_live_of_tomb {db : DB} {u : Nat} {tm : Int} (hInv : InvDB db)
    (ht : findTomb db.removed u = some tm) :
    db.timelog.find? (fun r => r.uuid == u) = none := by
  cases hf : db.timelog.find? (fun r => r.uuid == u) with
  | none => rfl
  | some x =>
    have hxm := List.mem_of_find?_eq_some hf
    have hxu : x.uuid = u := by simpa using List.find?_some hf
    exact absurd (hxu.trans rfl) (hInv.2.2.2.2 x hxm (u, tm) (findTomb_mem ht))

/-- On the invariant states, the record `getSyncAffected` returns is the
live row (valid) or the tombstone (invalid), never a tie of both. -/
theorem gsa_cases (db : DB) (u : Nat) (hInv : InvDB db) :
    (db.timelog.find? (fun r => r.uuid == u) = none ∧ findTomb db.removed u = none
      ∧ getSyncAffected db u = none)
    ∨ (∃ x, db.timelog.find? (fun r => r.uuid == u) = some x ∧ x.uuid = u
      ∧ findTomb db.removed u = none ∧ getSyncAffected db u = some (liveSync x))
    ∨ (∃ tm, db.timelog.find? (fun r => r.uuid == u) = none
      ∧ findTomb db.removed u = some tm ∧ getSyncAffected db u = some (tombSync u tm)) := by
  cases hf : db.timelog.find? (fun r => r.uuid == u) with
  | some x =>
    have hxu : x.uuid = u := by simpa using List.find?_some hf
    have ht := no_tomb_of_live hInv hf
    exact Or.inr (Or.inl ⟨x, rfl, hxu, ht, gsa_eval_live hf ht⟩)
  | none =>
    cases ht : findTomb db.removed u with
    | none =>
      refine Or.inl ⟨rfl, rfl, ?_⟩
      unfold getSyncAffected
      rw [hf, ht]
      rfl
    | some tm =>
      exact Or.inr (Or.inr ⟨tm, rfl, rfl, gsa_eval_tomb hf ht⟩)

theorem gsa_post_sqlInsertRemoved (db : DB) (u : Nat) (mt : Int) (hInv : InvDB db) :
    ∃ a, getSyncAffected (sqlInsertRemoved db u mt).1 u = some a ∧ mt ≤ a.mtD := by
  have hdel := sqlDeleteByUuid_ok db.timelog u hInv.1 hInv.2.1 hInv.2.2.1
  have hfd : ∀ rem', findTomb rem' u = some mt →
      getSyncAffected (⟨sqlDeleteByUuid db.timelog u, rem'⟩ : DB) u
        = some (tombSync u mt) := by
    intro rem' ht
    apply gsa_eval_tomb _ ht
    exact List.find?_eq_none.mpr (fun r hr => by simpa using hdel.2.2.2.1 r hr)
  unfold sqlInsertRemoved
  split
  · next tm heq =>
    split
    · next hlt =>
      refine ⟨tombSync u tm, ?_, le_of_lt hlt⟩
      exact gsa_eval_tomb (no_live_of_tomb hInv heq) heq
    · refine ⟨tombSync u mt, ?_, le_refl _⟩
      exact hfd _ (findTomb_map_replace mt heq)
  · next heq =>
    refine ⟨tombSync u mt, ?_, le_refl _⟩
    exact hfd _ (findTomb_append_self mt heq)


theorem filter_insert_of_free {tl : List Row} {x : Row} {p : Row → Bool}
    (hfree : ∀ r ∈ tl, ¬ p r = true) (hx : p x = true) :
    (insertByStart tl x).filter p = [x] := by
  unfold insertByStart
  rw [List.filter_append, List.filter_cons_of_pos hx,
    List.filter_eq_nil_iff.mpr (fun r hr => hfree r ((List.takeWhile_sublist _).subset hr)),
    List.filter_eq_nil_iff.mpr (fun r hr => hfree r ((List.dropWhile_sublist _).subset hr))]
  rfl

theorem filter_uuid_eq_singleton {tl : List Row} {u : Nat} {x : Row}
    (hnd : (tl.map (·.uuid)).Nodup)
    (hf : tl.find? (fun r => r.uuid == u) = some x) :
    tl.filter (fun r => r.uuid == u) = [x] := by
  obtain ⟨P, Q, he, hP, her⟩ := find_eraseP_decomp tl _ x hf
  have hxu : x.uuid = u := by simpa using List.find?_some hf
  have hndM : ((P ++ x :: Q).map (·.uuid)).Nodup := he ▸ hnd
  obtain ⟨hxout, hndPQ⟩ := nodup_mid_of_nodup hndM
  rw [he, List.filter_append, List.filter_cons_of_pos (by simp [hxu]),
    List.filter_eq_nil_iff.mpr (fun r hr => by simpa using hP r hr),
    List.filter_eq_nil_iff.mpr ?_]
  · rfl
  · intro r hr hru
    apply hxout
    rw [hxu]
    have : r.uuid = u := by simpa using hru
    rw [← this]
    exact List.mem_map_of_mem _ (List.mem_append_right _ hr)

theorem filter_map_comm {g : Row → Row} {p : Row → Bool} (hp : ∀ r, p (g r) = p r) :
    ∀ tl : List Row, (tl.map g).filter p = (tl.filter p).map g
  | [] => rfl
  | a :: t => by
    rw [List.map_cons]
    by_cases ha : p a = true
    · rw [List.filter_cons_of_pos (by rw [hp a]; exact ha),
        List.filter_cons_of_pos ha, List.map_cons, filter_map_comm hp t]
    · rw [List.filter_cons_of_neg (by rw [hp a]; simpa using ha),
        List.filter_cons_of_neg (by simpa using ha), filter_map_comm hp t]

theorem gsa_post_sqlInsertTimelog {db : DB} {u : Nat} {s : Int} {cat com : String}
    {mt : Int} {db' : DB} {n : Int} (hInv : InvDB db)
    (h : sqlInsertTimelog db u s cat com mt = some (db', n)) :
    ∃ a, getSyncAffected db' u = some a ∧ mt ≤ a.mtD := by
  have hraw : sqlInsertTimelogRaw db u s cat com mt = some (db', n) →
      ∃ a, getSyncAffected db' u = some a ∧ mt ≤ a.mtD := by
    intro h2
    unfold sqlInsertTimelogRaw at h2
    split at h2
    · exact absurd h2 (by simp)
    · next hed =>
      simp only [Bool.or_eq_true, List.any_eq_true, beq_iff_eq, not_or, not_exists,
        not_and] at hed
      simp only [Option.some.injEq, Prod.mk.injEq] at h2
      rw [← h2.1]
      refine ⟨liveSync ⟨u, s, cat, com, 0, mt⟩, ?_, le_refl _⟩
      have hfl : ((insTrigRepair (insertByStart db.timelog ⟨u, s, cat, com, 0, mt⟩) s).find?
          (fun r => r.uuid == u)).map liveSync
          = some (liveSync ⟨u, s, cat, com, 0, mt⟩) := by
        rw [find?_eq_head?_filter, ← List.head?_map, filterLive_insTrigRepair,
          filter_insert_of_free (fun r hr => by simp; exact hed.1 r hr) (by simp)]
        rfl
      unfold getSyncAffected
      rw [hfl, findTomb_filter_self]
      rfl
  unfold sqlInsertTimelog at h
  split at h
  · next tm heq =>
    split at h
    · next hlt =>
      simp only [Option.some.injEq, Prod.mk.injEq] at h
      rw [← h.1]
      exact ⟨tombSync u tm, gsa_eval_tomb (no_live_of_tomb hInv heq) heq, le_of_lt hlt⟩
    · exact hraw h
  · exact hraw h

theorem gsa_post_sqlUpdateTimelog {db : DB} {u : Nat} {f : Fields} {s : Int}
    {cat com : String} {mt : Int} {db' : DB} {n : Int} (hInv : InvDB db)
    {x : Row} (hfind : db.timelog.find? (fun r => r.uuid == u) = some x)
    (h : sqlUpdateTimelog db u f s cat com mt = some (db', n)) :
    ∃ a, getSyncAffected db' u = some a ∧ mt ≤ a.mtD := by
  have hxu : x.uuid = u := by simpa using List.find?_some hfind
  have hnt := no_tomb_of_live hInv hfind
  unfold sqlUpdateTimelog at h
  rw [hfind] at h
  have h' : (if mt < x.mtime then some (db, 0) else _) = some (db', n) := h
  clear h
  by_cases hmt : mt < x.mtime
  · rw [if_pos hmt] at h'
    simp only [Option.some.injEq, Prod.mk.injEq] at h'
    rw [← h'.1]
    exact ⟨liveSync x, gsa_eval_live hfind hnt, le_of_lt hmt⟩
  · rw [if_neg hmt] at h'
    have hsingle := filter_uuid_eq_singleton hInv.2.2.1 hfind
    obtain ⟨P, Q, he, hP, her⟩ := find_eraseP_decomp db.timelog _ x hfind
    have hQnil : Q.filter (fun r => r.uuid == u) = [] := by
      have h2 := hsingle
      rw [he, List.filter_append, List.filter_cons_of_pos (by simp [hxu]),
        List.filter_eq_nil_iff.mpr (fun r hr => by simpa using hP r hr),
        List.nil_append] at h2
      injection h2 with _ h3
    have hfree : ∀ r ∈ P ++ Q, ¬ (r.uuid == u) = true := by
      intro r hr hru
      rcases List.mem_append.mp hr with hm | hm
      · exact absurd hru (by simpa using hP r hm)
      · have hmf : r ∈ Q.filter (fun r => r.uuid == u) := List.mem_filter.mpr ⟨hm, hru⟩
        rw [hQnil] at hmf
        simp at hmf
    by_cases hft : f.startTime = true
    · simp only [hft, eq_self_iff_true, if_true, true_and] at h'
      by_cases hgd : s ≠ x.start ∧ (db.timelog.any fun r => r.start == s) = true
      · rw [if_pos hgd] at h'
        exact absurd h' (by simp)
      · rw [if_neg hgd] at h'
        simp only [Option.some.injEq, Prod.mk.injEq] at h'
        rw [← h'.1]
        refine ⟨liveSync ⟨x.uuid, s, if f.category = true then cat else x.category,
          if f.comment = true then com else x.comment, x.duration, mt⟩, ?_, le_refl _⟩
        have hfl : ((updTrigRepair (insertByStart
            (List.eraseP (fun r => r.uuid == u) db.timelog)
            ⟨x.uuid, s, if f.category = true then cat else x.category,
             if f.comment = true then com else x.comment, x.duration, mt⟩) x.start s).find?
            (fun r => r.uuid == u)).map liveSync
            = some (liveSync ⟨x.uuid, s, if f.category = true then cat else x.category,
                if f.comment = true then com else x.comment, x.duration, mt⟩) := by
          rw [find?_eq_head?_filter, ← List.head?_map, filterLive_updTrigRepair, her,
            filter_insert_of_free hfree (by simp [hxu])]
          rfl
        unfold getSyncAffected
        rw [hfl, hnt]
        rfl
    · simp only [Bool.not_eq_true] at hft
      simp only [hft, Bool.false_eq_true, if_false, false_and] at h'
      simp only [Option.some.injEq, Prod.mk.injEq] at h'
      rw [← h'.1]
      refine ⟨liveSync ⟨x.uuid, x.start, if f.category = true then cat else x.category,
        if f.comment = true then com else x.comment, x.duration, mt⟩, ?_, le_refl _⟩
      have hpres : ∀ r : Row, ((if r.uuid = u then
          (⟨x.uuid, x.start, if f.category = true then cat else x.category,
            if f.comment = true then com else x.comment, x.duration, mt⟩ : Row)
          else r).uuid == u) = (r.uuid == u) := by
        intro r
        by_cases hq : r.uuid = u
        · rw [if_pos hq]
          show (x.uuid == u) = _
          rw [hxu, hq]
        · rw [if_neg hq]
      have hfl : ((db.timelog.map (fun r => if r.uuid = u then
          (⟨x.uuid, x.start, if f.category = true then cat else x.category,
            if f.comment = true then com else x.comment, x.duration, mt⟩ : Row)
          else r)).find? (fun r => r.uuid == u)).map liveSync
          = some (liveSync ⟨x.uuid, x.start, if f.category = true then cat else x.category,
              if f.comment = true then com else x.comment, x.duration, mt⟩) := by
        rw [find?_eq_head?_filter, ← List.head?_map, filter_map_comm hpres, hsingle]
        simp only [List.map_cons, List.map_nil, List.head?_cons, Option.map_some']
        rw [if_pos hxu]
      unfold getSyncAffected
      rw [hfl, hnt]
      rfl


theorem removeData_ok_db (w : W) (d : SyncData) (now : Int) (fs : List Bool)
    (hok : (removeData w d now fs).ok = true) :
    (removeData w d now fs).w.db = (sqlInsertRemoved w.db d.uuid (d.mtime.getD now)).1 := by
  by_cases hp : (stepFail fs).1 = true
  · exfalso
    unfold removeData at hok
    dsimp only at hok
    rw [if_pos hp] at hok
    simp at hok
  · rw [removeData_eval w d now fs (by rwa [Bool.not_eq_true] at hp)]
    dsimp only
    rw [setSize_db]

theorem insertData1_ok_sql (w : W) (d : SyncData) (now : Int) (fs : List Bool)
    (hok : (insertData1 w d now fs).ok = true) :
    ∃ db' n, sqlInsertTimelog w.db d.uuid (d.start.getD 0) d.category d.comment
        (d.mtime.getD now) = some (db', n)
      ∧ (insertData1 w d now fs).w.db = db' := by
  by_cases hp : (stepFail fs).1 = true
  · exfalso
    unfold insertData1 at hok
    dsimp only at hok
    rw [if_pos hp] at hok
    simp at hok
  · rw [Bool.not_eq_true] at hp
    cases hsql : sqlInsertTimelog w.db d.uuid (d.start.getD 0) d.category d.comment
        (d.mtime.getD now) with
    | none =>
      exfalso
      unfold insertData1 at hok
      dsimp only at hok
      rw [show (stepFail fs).1 = false from hp] at hok
      simp only [Bool.false_eq_true, if_false] at hok
      rw [hsql] at hok
      simp at hok
    | some p =>
      refine ⟨p.1, p.2, rfl, ?_⟩
      rw [insertData1_eval w d now fs hp hsql]
      dsimp only
      rw [addToCategories_db, setSize_db]

theorem editData_ok_sql (w : W) (d : SyncData) (f : Fields) (now : Int) (fs : List Bool)
    (hok : (editData w d f now fs).ok = true) :
    ∃ db' n, sqlUpdateTimelog w.db d.uuid f (d.start.getD 0) d.category d.comment
        (d.mtime.getD now) = some (db', n)
      ∧ (editData w d f now fs).w.db = db' := by
  by_cases hp : (stepFail fs).1 = true
  · exfalso
    unfold editData at hok
    dsimp only at hok
    rw [if_pos hp] at hok
    simp at hok
  · rw [Bool.not_eq_true] at hp
    cases hsql : sqlUpdateTimelog w.db d.uuid f (d.start.getD 0) d.category d.comment
        (d.mtime.getD now) with
    | none =>
      exfalso
      unfold editData at hok
      dsimp only at hok
      rw [show (stepFail fs).1 = false from hp] at hok
      simp only [Bool.false_eq_true, if_false] at hok
      rw [hsql] at hok
      simp at hok
    | some p =>
      refine ⟨p.1, p.2, rfl, ?_⟩
      unfold editData
      dsimp only
      rw [show (stepFail fs).1 = false from hp]
      simp only [Bool.false_eq_true, if_false]
      rw [hsql]
      dsimp only
      split
      · rw [addToCategories_db]
      · rfl

theorem frame_removeData (w : W) (d : SyncData) (now : Int) (fs : List Bool) (u : Nat)
    (hne : u ≠ d.uuid) (hok : (removeData w d now fs).ok = true) :
    ((removeData w d now fs).w.db.timelog.find? (fun r => r.uuid == u)).map liveSync
      = (w.db.timelog.find? (fun r => r.uuid == u)).map liveSync
    ∧ findTomb (removeData w d now fs).w.db.removed u = findTomb w.db.removed u := by
  rw [removeData_ok_db w d now fs hok]
  exact frame_sqlInsertRemoved w.db d.uuid (d.mtime.getD now) u hne

theorem frame_insertData1 (w : W) (d : SyncData) (now : Int) (fs : List Bool) (u : Nat)
    (hne : u ≠ d.uuid) (hok : (insertData1 w d now fs).ok = true) :
    ((insertData1 w d now fs).w.db.timelog.find? (fun r => r.uuid == u)).map liveSync
      = (w.db.timelog.find? (fun r => r.uuid == u)).map liveSync
    ∧ findTomb (insertData1 w d now fs).w.db.removed u = findTomb w.db.removed u := by
  obtain ⟨db', n, hsql, hdb⟩ := insertData1_ok_sql w d now fs hok
  rw [hdb]
  exact frame_sqlInsertTimelog hsql u hne

theorem frame_editData (w : W) (d : SyncData) (f : Fields) (now : Int) (fs : List Bool)
    (u : Nat) (hne : u ≠ d.uuid) (hok : (editData w d f now fs).ok = true) :
    ((editData w d f now fs).w.db.timelog.find? (fun r => r.uuid == u)).map liveSync
      = (w.db.timelog.find? (fun r => r.uuid == u)).map liveSync
    ∧ findTomb (editData w d f now fs).w.db.removed u = findTomb w.db.removed u := by
  obtain ⟨db', n, hsql, hdb⟩ := editData_ok_sql w d f now fs hok
  rw [hdb]
  exact frame_sqlUpdateTimelog hsql u hne

theorem gsa_post_removeData (w : W) (d : SyncData) (now : Int) (fs : List Bool)
    (hInv : InvDB w.db) (hok : (removeData w d now fs).ok = true) :
    ∃ a, getSyncAffected (removeData w d now fs).w.db d.uuid = some a
      ∧ d.mtime.getD now ≤ a.mtD := by
  rw [removeData_ok_db w d now fs hok]
  exact gsa_post_sqlInsertRemoved w.db d.uuid (d.mtime.getD now) hInv

theorem gsa_post_insertData1 (w : W) (d : SyncData) (now : Int) (fs : List Bool)
    (hInv : InvDB w.db) (hok : (insertData1 w d now fs).ok = true) :
    ∃ a, getSyncAffected (insertData1 w d now fs).w.db d.uuid = some a
      ∧ d.mtime.getD now ≤ a.mtD := by
  obtain ⟨db', n, hsql, hdb⟩ := insertData1_ok_sql w d now fs hok
  rw [hdb]
  exact gsa_post_sqlInsertTimelog hInv hsql

theorem gsa_post_editData (w : W) (d : SyncData) (f : Fields) (now : Int) (fs : List Bool)
    (hInv : InvDB w.db) {x : Row}
    (hfind : w.db.timelog.find? (fun r => r.uuid == d.uuid) = some x)
    (hok : (editData w d f now fs).ok = true) :
    ∃ a, getSyncAffected (editData w d f now fs).w.db d.uuid = some a
      ∧ d.mtime.getD now ≤ a.mtD := by
  obtain ⟨db', n, hsql, hdb⟩ := editData_ok_sql w d f now fs hok
  rw [hdb]
  exact gsa_post_sqlUpdateTimelog hInv hfind hsql


theorem syncRemLoop_gsa :
    ∀ (rs : List SyncData) (w : W) (now : Int) (fs : List Bool),
      InvW w → (rs.map (·.uuid)).Nodup →
      (syncRemLoop w rs now fs).ok = true →
      (∀ e ∈ rs, ∃ a, getSyncAffected (syncRemLoop w rs now fs).w.db e.uuid = some a
          ∧ e.mtime.getD now ≤ a.mtD)
      ∧ (∀ u, (∀ e ∈ rs, u ≠ e.uuid) →
          ((syncRemLoop w rs now fs).w.db.timelog.find? (fun r => r.uuid == u)).map liveSync
            = (w.db.timelog.find? (fun r => r.uuid == u)).map liveSync
          ∧ findTomb (syncRemLoop w rs now fs).w.db.removed u = findTomb w.db.removed u)
  | [], w, now, fs, _, _, _ => ⟨by simp, fun u _ => ⟨rfl, rfl⟩⟩
  | r :: rs', w, now, fs, hInv, hnd, hok => by
    have hoko : (removeData w r now fs).ok = true := by
      by_contra hno
      unfold syncRemLoop at hok
      dsimp only at hok
      rw [if_neg hno] at hok
      simp at hok
    have hstep : syncRemLoop w (r :: rs') now fs
        = ⟨(syncRemLoop (removeData w r now fs).w rs' now (removeData w r now fs).fs).ok,
           (syncRemLoop (removeData w r now fs).w rs' now (removeData w r now fs).fs).w,
           (removeData w r now fs).evs
             ++ (syncRemLoop (removeData w r now fs).w rs' now (removeData w r now fs).fs).evs,
           (syncRemLoop (removeData w r now fs).w rs' now (removeData w r now fs).fs).fs⟩ := by
      conv_lhs => unfold syncRemLoop
      dsimp only
      rw [if_pos hoko]
    have hw : (syncRemLoop w (r :: rs') now fs).w
        = (syncRemLoop (removeData w r now fs).w rs' now (removeData w r now fs).fs).w := by
      rw [hstep]
    have hokr : (syncRemLoop (removeData w r now fs).w rs' now
        (removeData w r now fs).fs).ok = true := by
      rw [hstep] at hok
      exact hok
    simp only [List.map_cons, List.nodup_cons] at hnd
    have IH := syncRemLoop_gsa rs' (removeData w r now fs).w now (removeData w r now fs).fs
      (InvW_removeData hInv) hnd.2 hokr
    rw [hw]
    constructor
    · intro e he
      rcases List.mem_cons.mp he with he | he
    
      · subst he
        obtain ⟨a, ha, hma⟩ := gsa_post_removeData w e now fs hInv.1 hoko
        have hfr := IH.2 e.uuid (fun e' he' heq => hnd.1 (heq ▸ List.mem_map_of_mem _ he'))
        exact ⟨a, (gsa_congr hfr.1 hfr.2).trans ha, hma⟩
      · exact IH.1 e he
    · intro u hu
      have h1 := frame_removeData w r now fs u (hu r (by simp)) hoko
      have h2 := IH.2 u (fun e he => hu e (List.mem_cons_of_mem _ he))
      exact ⟨h2.1.trans h1.1, h2.2.trans h1.2⟩

theorem syncInsLoop_gsa :
    ∀ (rs : List SyncData) (w : W) (now : Int) (fs : List Bool),
      InvW w → (rs.map (·.uuid)).Nodup →
      (syncInsLoop w rs now fs).ok = true →
      (∀ e ∈ rs, ∃ a, getSyncAffected (syncInsLoop w rs now fs).w.db e.uuid = some a
          ∧ e.mtime.getD now ≤ a.mtD)
      ∧ (∀ u, (∀ e ∈ rs, u ≠ e.uuid) →
          ((syncInsLoop w rs now fs).w.db.timelog.find? (fun r => r.uuid == u)).map liveSync
            = (w.db.timelog.find? (fun r => r.uuid == u)).map liveSync
          ∧ findTomb (syncInsLoop w rs now fs).w.db.removed u = findTomb w.db.removed u)
  | [], w, now, fs, _, _, _ => ⟨by simp, fun u _ => ⟨rfl, rfl⟩⟩
  | r :: rs', w, now, fs, hInv, hnd, hok => by
    have hoko : (insertData1 w r now fs).ok = true := by
      by_contra hno
      unfold syncInsLoop at hok
      dsimp only at hok
      rw [if_neg hno] at hok
      simp at hok
    have hstep : syncInsLoop w (r :: rs') now fs
        = ⟨(syncInsLoop (insertData1 w r now fs).w rs' now (insertData1 w r now fs).fs).ok,
           (syncInsLoop (insertData1 w r now fs).w rs' now (insertData1 w r now fs).fs).w,
           (insertData1 w r now fs).evs
             ++ (syncInsLoop (insertData1 w r now fs).w rs' now (insertData1 w r now fs).fs).evs,
           (syncInsLoop (insertData1 w r now fs).w rs' now (insertData1 w r now fs).fs).fs⟩ := by
      conv_lhs => unfold syncInsLoop
      dsimp only
      rw [if_pos hoko]
    have hw : (syncInsLoop w (r :: rs') now fs).w
        = (syncInsLoop (insertData1 w r now fs).w rs' now (insertData1 w r now fs).fs).w := by
      rw [hstep]
    have hokr : (syncInsLoop (insertData1 w r now fs).w rs' now
        (insertData1 w r now fs).fs).ok = true := by
      rw [hstep] at hok
      exact hok
    simp only [List.map_cons, List.nodup_cons] at hnd
    have IH := syncInsLoop_gsa rs' (insertData1 w r now fs).w now (insertData1 w r now fs).fs
      (InvW_insertData1 hInv) hnd.2 hokr
    rw [hw]
    constructor
    · intro e he
      rcases List.mem_cons.mp he with he | he
    
      · subst he
        obtain ⟨a, ha, hma⟩ := gsa_post_insertData1 w e now fs hInv.1 hoko
        have hfr := IH.2 e.uuid (fun e' he' heq => hnd.1 (heq ▸ List.mem_map_of_mem _ he'))
        exact ⟨a, (gsa_congr hfr.1 hfr.2).trans ha, hma⟩
      · exact IH.1 e he
    · intro u hu
      have h1 := frame_insertData1 w r now fs u (hu r (by simp)) hoko
      have h2 := IH.2 u (fun e he => hu e (List.mem_cons_of_mem _ he))
      exact ⟨h2.1.trans h1.1, h2.2.trans h1.2⟩

theorem syncUpdLoop_gsa :
    ∀ (rs : List SyncData) (w : W) (now : Int) (fs : List Bool),
      InvW w → (rs.map (·.uuid)).Nodup →
      (∀ e ∈ rs, ((w.db.timelog.find? (fun r => r.uuid == e.uuid)).map liveSync).isSome
        = true) →
      (syncUpdLoop w rs now fs).ok = true →
      (∀ e ∈ rs, ∃ a, getSyncAffected (syncUpdLoop w rs now fs).w.db e.uuid = some a
          ∧ e.mtime.getD now ≤ a.mtD)
      ∧ (∀ u, (∀ e ∈ rs, u ≠ e.uuid) →
          ((syncUpdLoop w rs now fs).w.db.timelog.find? (fun r => r.uuid == u)).map liveSync
            = (w.db.timelog.find? (fun r => r.uuid == u)).map liveSync
          ∧ findTomb (syncUpdLoop w rs now fs).w.db.removed u = findTomb w.db.removed u)
  | [], w, now, fs, _, _, _, _ => ⟨by simp, fun u _ => ⟨rfl, rfl⟩⟩
  | r :: rs', w, now, fs, hInv, hnd, hlive, hok => by
    have hoko : (editData w r allFields now fs).ok = true := by
      by_contra hno
      unfold syncUpdLoop at hok
      dsimp only at hok
      rw [if_neg hno] at hok
      simp at hok
    have hstep : syncUpdLoop w (r :: rs') now fs
        = ⟨(syncUpdLoop (editData w r allFields now fs).w rs' now
              (editData w r allFields now fs).fs).ok,
           (syncUpdLoop (editData w r allFields now fs).w rs' now
              (editData w r allFields now fs).fs).w,
           (editData w r allFields now fs).evs
             ++ (syncUpdLoop (editData w r allFields now fs).w rs' now
                  (editData w r allFields now fs).fs).evs,
           (syncUpdLoop (editData w r allFields now fs).w rs' now
              (editData w r allFields now fs).fs).fs⟩ := by
      conv_lhs => unfold syncUpdLoop
      dsimp only
      rw [if_pos hoko]
    have hw : (syncUpdLoop w (r :: rs') now fs).w
        = (syncUpdLoop (editData w r allFields now fs).w rs' now
            (editData w r allFields now fs).fs).w := by
      rw [hstep]
    have hokr : (syncUpdLoop (editData w r allFields now fs).w rs' now
        (editData w r allFields now fs).fs).ok = true := by
      rw [hstep] at hok
      exact hok
    simp only [List.map_cons, List.nodup_cons] at hnd
    have hlive' : ∀ e ∈ rs',
        (((editData w r allFields now fs).w.db.timelog.find?
          (fun r2 => r2.uuid == e.uuid)).map liveSync).isSome = true := by
      intro e he
      have hfr := frame_editData w r allFields now fs e.uuid
        (fun heq => hnd.1 (heq ▸ List.mem_map_of_mem _ he)) hoko
      rw [hfr.1]
      exact hlive e (List.mem_cons_of_mem _ he)
    have IH := syncUpdLoop_gsa rs' (editData w r allFields now fs).w now
      (editData w r allFields now fs).fs (InvW_editData hInv) hnd.2 hlive' hokr
    rw [hw]
    constructor
    · intro e he
      rcases List.mem_cons.mp he with he | he
    
      · subst he
        have hsm := hlive e (by simp)
        obtain ⟨y, hy⟩ := Option.isSome_iff_exists.mp hsm
        obtain ⟨x, hx, _⟩ := Option.map_eq_some'.mp hy
        obtain ⟨a, ha, hma⟩ := gsa_post_editData w e allFields now fs hInv.1 hx hoko
        have hfr := IH.2 e.uuid (fun e' he' heq => hnd.1 (heq ▸ List.mem_map_of_mem _ he'))
        exact ⟨a, (gsa_congr hfr.1 hfr.2).trans ha, hma⟩
      · exact IH.1 e he
    · intro u hu
      have h1 := frame_editData w r allFields now fs u (hu r (by simp)) hoko
      have h2 := IH.2 u (fun e he => hu e (List.mem_cons_of_mem _ he))
      exact ⟨h2.1.trans h1.1, h2.2.trans h1.2⟩

/-! Claim C3 support: the classification pass of `sync` and its behaviour
after a committed merge. -/

theorem classifyRemoved_sublist (db : DB) :
    ∀ rem : List SyncData, ((classifyRemoved db rem).1).Sublist rem
  | [] => List.Sublist.refl _
  | e :: es => by
    have IH := classifyRemoved_sublist db es
    unfold classifyRemoved
    dsimp only
    cases hg : getSyncAffected db e.uuid with
    | none => exact IH.cons₂ e
    | some a =>
      dsimp only
      split
      · exact IH.cons e
      · exact IH.cons₂ e

theorem classifyRemoved_len (db : DB) :
    ∀ rem : List SyncData,
      (classifyRemoved db rem).2.length = (classifyRemoved db rem).1.length
  | [] => rfl
  | e :: es => by
    have IH := classifyRemoved_len db es
    unfold classifyRemoved
    dsimp only
    cases hg : getSyncAffected db e.uuid with
    | none => simpa using IH
    | some a =>
      dsimp only
      split
      · exact IH
      · simpa using IH

theorem classifyUpdated_sublistI (db : DB) :
    ∀ upd : List SyncData, ((classifyUpdated db upd).1).Sublist upd
  | [] => List.Sublist.refl _
  | e :: es => by
    have IH := classifyUpdated_sublistI db es
    unfold classifyUpdated
    dsimp only
    cases hg : getSyncAffected db e.uuid with
    | none => exact IH.cons₂ e
    | some a =>
      dsimp only
      split
      · exact IH.cons e
      · split
        · exact IH.cons e
        · exact IH.cons₂ e

theorem classifyUpdated_sublistU (db : DB) :
    ∀ upd : List SyncData, ((classifyUpdated db upd).2.2.1).Sublist upd
  | [] => List.Sublist.refl _
  | e :: es => by
    have IH := classifyUpdated_sublistU db es
    unfold classifyUpdated
    dsimp only
    cases hg : getSyncAffected db e.uuid with
    | none => exact IH.cons e
    | some a =>
      dsimp only
      split
      · exact IH.cons e
      · split
        · exact IH.cons₂ e
        · exact IH.cons e

theorem classifyRemoved_classes (db : DB) :
    ∀ rem : List SyncData, (rem.map (·.uuid)).Nodup → ∀ e ∈ rem,
      e ∈ (classifyRemoved db rem).1
      ∨ ((∃ a, getSyncAffected db e.uuid = some a ∧ e.mtD ≤ a.mtD)
         ∧ ∀ e2 ∈ (classifyRemoved db rem).1, e.uuid ≠ e2.uuid)
  | [], _, e, he => absurd he (List.not_mem_nil e)
  | e0 :: es, hnd, e, he => by
    simp only [List.map_cons, List.nodup_cons] at hnd
    have hsub := classifyRemoved_sublist db es
    rcases List.mem_cons.mp he with he | he
    · subst he
      unfold classifyRemoved
      dsimp only
      cases hg : getSyncAffected db e.uuid with
      | none =>
        dsimp only
        exact Or.inl (List.mem_cons_self _ _)
      | some a =>
        dsimp only
        by_cases hle : e.mtD ≤ a.mtD
        · rw [if_pos hle]
          refine Or.inr ⟨⟨a, rfl, hle⟩, ?_⟩
          intro e2 he2 heq
          exact hnd.1 (by rw [heq]; exact List.mem_map_of_mem _ (hsub.subset he2))
        · rw [if_neg hle]
          exact Or.inl (List.mem_cons_self _ _)
    · have IH := classifyRemoved_classes db es hnd.2 e he
      have hne0 : e.uuid ≠ e0.uuid := by
        intro heq
        exact hnd.1 (by rw [← heq]; exact List.mem_map_of_mem _ he)
      unfold classifyRemoved
      dsimp only
      cases hg : getSyncAffected db e0.uuid with
      | none =>
        dsimp only
        rcases IH with IH | ⟨hsk, hdR⟩
        · exact Or.inl (List.mem_cons_of_mem _ IH)
        · refine Or.inr ⟨hsk, ?_⟩
          intro e2 he2
          rcases List.mem_cons.mp he2 with he2 | he2
          · subst he2
            exact hne0
          · exact hdR e2 he2
      | some a =>
        dsimp only
        by_cases hle : e0.mtD ≤ a.mtD
        · rw [if_pos hle]
          exact IH
        · rw [if_neg hle]
          rcases IH with IH | ⟨hsk, hdR⟩
          · exact Or.inl (List.mem_cons_of_mem _ IH)
          · refine Or.inr ⟨hsk, ?_⟩
            intro e2 he2
            rcases List.mem_cons.mp he2 with he2 | he2
            · subst he2
              exact hne0
            · exact hdR e2 he2

theorem classifyUpdated_classes (db : DB) :
    ∀ upd : List SyncData, (upd.map (·.uuid)).Nodup → ∀ e ∈ upd,
      ((e ∈ (classifyUpdated db upd).1
          ∧ ∀ e2 ∈ (classifyUpdated db upd).2.2.1, e.uuid ≠ e2.uuid)
        ∨ (e ∈ (classifyUpdated db upd).2.2.1
          ∧ ∀ e2 ∈ (classifyUpdated db upd).1, e.uuid ≠ e2.uuid))
      ∨ ((∃ a, getSyncAffected db e.uuid = some a ∧ e.mtD ≤ a.mtD)
         ∧ (∀ e2 ∈ (classifyUpdated db upd).1, e.uuid ≠ e2.uuid)
         ∧ ∀ e2 ∈ (classifyUpdated db upd).2.2.1, e.uuid ≠ e2.uuid)
  | [], _, e, he => absurd he (List.not_mem_nil e)
  | e0 :: es, hnd, e, he => by
    simp only [List.map_cons, List.nodup_cons] at hnd
    have hsubI := classifyUpdated_sublistI db es
    have hsubU := classifyUpdated_sublistU db es
    rcases List.mem_cons.mp he with he | he
    · subst he
      unfold classifyUpdated
      dsimp only
      cases hg : getSyncAffected db e.uuid with
      | none =>
        dsimp only
        refine Or.inl (Or.inl ⟨List.mem_cons_self _ _, ?_⟩)
        intro e2 he2 heq
        exact hnd.1 (by rw [heq]; exact List.mem_map_of_mem _ (hsubU.subset he2))
      | some a =>
        dsimp only
        by_cases hle : e.mtD ≤ a.mtD
        · rw [if_pos hle]
          refine Or.inr ⟨⟨a, rfl, hle⟩, ?_, ?_⟩
          · intro e2 he2 heq
            exact hnd.1 (by rw [heq]; exact List.mem_map_of_mem _ (hsubI.subset he2))
          · intro e2 he2 heq
            exact hnd.1 (by rw [heq]; exact List.mem_map_of_mem _ (hsubU.subset he2))
        · rw [if_neg hle]
          by_cases hval : a.isValid = true
          · rw [if_pos hval]
            dsimp only
            refine Or.inl (Or.inr ⟨List.mem_cons_self _ _, ?_⟩)
            intro e2 he2 heq
            exact hnd.1 (by rw [heq]; exact List.mem_map_of_mem _ (hsubI.subset he2))
          · rw [if_neg hval]
            dsimp only
            refine Or.inl (Or.inl ⟨List.mem_cons_self _ _, ?_⟩)
            intro e2 he2 heq
            exact hnd.1 (by rw [heq]; exact List.mem_map_of_mem _ (hsubU.subset he2))
    · have IH := classifyUpdated_classes db es hnd.2 e he
      have hne0 : e.uuid ≠ e0.uuid := by
        intro heq
        exact hnd.1 (by rw [← heq]; exact List.mem_map_of_mem _ he)
      unfold classifyUpdated
      dsimp only
      cases hg : getSyncAffected db e0.uuid with
      | none =>
        dsimp only
        rcases IH with (⟨hin, hdU⟩ | ⟨hin, hdI⟩) | ⟨hsk, hdI, hdU⟩
        · exact Or.inl (Or.inl ⟨List.mem_cons_of_mem _ hin, hdU⟩)
        · refine Or.inl (Or.inr ⟨hin, ?_⟩)
          intro e2 he2
          rcases List.mem_cons.mp he2 with he2 | he2
          · subst he2
            exact hne0
          · exact hdI e2 he2
        · refine Or.inr ⟨hsk, ?_, hdU⟩
          intro e2 he2
          rcases List.mem_cons.mp he2 with he2 | he2
          · subst he2
            exact hne0
          · exact hdI e2 he2
      | some a =>
        dsimp only
        by_cases hle : e0.mtD ≤ a.mtD
        · rw [if_pos hle]
          exact IH
        · rw [if_neg hle]
          by_cases hval : a.isValid = true
          · rw [if_pos hval]
            dsimp only
            rcases IH with (⟨hin, hdU⟩ | ⟨hin, hdI⟩) | ⟨hsk, hdI, hdU⟩
            · refine Or.inl (Or.inl ⟨hin, ?_⟩)
              intro e2 he2
              rcases List.mem_cons.mp he2 with he2 | he2
              · subst he2
                exact hne0
              · exact hdU e2 he2
            · exact Or.inl (Or.inr ⟨List.mem_cons_of_mem _ hin, hdI⟩)
            · refine Or.inr ⟨hsk, hdI, ?_⟩
              intro e2 he2
              rcases List.mem_cons.mp he2 with he2 | he2
              · subst he2
                exact hne0
              · exact hdU e2 he2
          · rw [if_neg hval]
            dsimp only
            rcases IH with (⟨hin, hdU⟩ | ⟨hin, hdI⟩) | ⟨hsk, hdI, hdU⟩
            · exact Or.inl (Or.inl ⟨List.mem_cons_of_mem _ hin, hdU⟩)
            · refine Or.inl (Or.inr ⟨hin, ?_⟩)
              intro e2 he2
              rcases List.mem_cons.mp he2 with he2 | he2
              · subst he2
                exact hne0
              · exact hdI e2 he2
            · refine Or.inr ⟨hsk, ?_, hdU⟩
              intro e2 he2
              rcases List.mem_cons.mp he2 with he2 | he2
              · subst he2
                exact hne0
              · exact hdI e2 he2

theorem classifyUpdated_live (db : DB) (hInv : InvDB db) :
    ∀ upd : List SyncData, ∀ e ∈ (classifyUpdated db upd).2.2.1,
      ((db.timelog.find? (fun r => r.uuid == e.uuid)).map liveSync).isSome = true
  | [], e, he => absurd he (List.not_mem_nil e)
  | e0 :: es, e, he => by
    have IH := classifyUpdated_live db hInv es
    revert he
    unfold classifyUpdated
    dsimp only
    cases hg : getSyncAffected db e0.uuid with
    | none =>
      dsimp only
      exact fun he => IH e he
    | some a =>
      dsimp only
      by_cases hle : e0.mtD ≤ a.mtD
      · rw [if_pos hle]
        exact fun he => IH e he
      · rw [if_neg hle]
        by_cases hval : a.isValid = true
        · rw [if_pos hval]
          dsimp only
          intro he
          rcases List.mem_cons.mp he with he | he
          · subst he
            rcases gsa_cases db e.uuid hInv with ⟨_, _, hnone⟩ | ⟨x, hx, _, _, _⟩
              | ⟨tm, _, _, htomb⟩
            · rw [hg] at hnone
              simp at hnone
            · rw [hx]
              rfl
            · rw [hg] at htomb
              have ha : a = tombSync e.uuid tm := by simpa using htomb
              rw [ha] at hval
              simp [SyncData.isValid, Entry.isValid, tombSync] at hval
          · exact IH e he
        · rw [if_neg hval]
          dsimp only
          exact fun he => IH e he

theorem classifyRemoved_nil (db : DB) :
    ∀ rem : List SyncData,
      (∀ e ∈ rem, ∃ a, getSyncAffected db e.uuid = some a ∧ e.mtD ≤ a.mtD) →
      classifyRemoved db rem = ([], [])
  | [], _ => rfl
  | e :: es, h => by
    obtain ⟨a, hga, hle⟩ := h e (List.mem_cons_self _ _)
    have IH := classifyRemoved_nil db es (fun e2 he2 => h e2 (List.mem_cons_of_mem _ he2))
    unfold classifyRemoved
    dsimp only
    rw [hga]
    dsimp only
    rw [if_pos hle]
    exact IH

theorem classifyUpdated_nil (db : DB) :
    ∀ upd : List SyncData,
      (∀ e ∈ upd, ∃ a, getSyncAffected db e.uuid = some a ∧ e.mtD ≤ a.mtD) →
      classifyUpdated db upd = ([], [], [], [])
  | [], _ => rfl
  | e :: es, h => by
    obtain ⟨a, hga, hle⟩ := h e (List.mem_cons_self _ _)
    have IH := classifyUpdated_nil db es (fun e2 he2 => h e2 (List.mem_cons_of_mem _ he2))
    unfold classifyUpdated
    dsimp only
    rw [hga]
    dsimp only
    rw [if_pos hle]
    exact IH

theorem removedMerged_uuids :
    ∀ (rNew rOld : List SyncData), rOld.length = rNew.length →
      (removedMerged rNew rOld).map (fun x => x.uuid) = rNew.map (fun x => x.uuid)
  | [], [], _ => rfl
  | [], _ :: _, h => by simp at h
  | _ :: _, [], h => by simp at h
  | n :: ns, o :: os, h => by
    have IH := removedMerged_uuids ns os (by simpa using h)
    unfold removedMerged at IH ⊢
    rw [List.zip_cons_cons, List.map_cons, List.map_cons, List.map_cons]
    exact congrArg (List.cons _) IH

theorem removedMerged_mem :
    ∀ (rNew rOld : List SyncData), rOld.length = rNew.length → ∀ e ∈ rNew,
      ∃ m ∈ removedMerged rNew rOld, m.uuid = e.uuid ∧ m.mtime = e.mtime
  | [], [], _, e, he => absurd he (List.not_mem_nil e)
  | [], _ :: _, h, _, _ => by simp at h
  | _ :: _, [], h, _, _ => by simp at h
  | n :: ns, o :: os, h, e, he => by
    rcases List.mem_cons.mp he with he | he
    · subst he
      unfold removedMerged
      rw [List.zip_cons_cons, List.map_cons]
      exact ⟨_, List.mem_cons_self _ _, rfl, rfl⟩
    · obtain ⟨m, hm, h1, h2⟩ := removedMerged_mem ns os (by simpa using h) e he
      refine ⟨m, ?_, h1, h2⟩
      unfold removedMerged at hm ⊢
      rw [List.zip_cons_cons, List.map_cons]
      exact List.mem_cons_of_mem _ hm

theorem removedMerged_nil : removedMerged [] [] = [] := rfl

theorem ds_setSize (w : W) (n : Int) : Ev.dataSynced ∉ (setSize w n).2 := by
  unfold setSize
  split <;> simp

theorem ds_addToCategories (w : W) (c : String) :
    Ev.dataSynced ∉ (addToCategories w c).2 := by
  unfold addToCategories
  split <;> simp

theorem ds_removeData (w : W) (d : SyncData) (now : Int) (fs : List Bool) :
    Ev.dataSynced ∉ (removeData w d now fs).evs := by
  unfold removeData
  dsimp only
  split
  · simp
  · exact ds_setSize _ _

theorem ds_insertData1 (w : W) (d : SyncData) (now : Int) (fs : List Bool) :
    Ev.dataSynced ∉ (insertData1 w d now fs).evs := by
  unfold insertData1
  dsimp only
  split
  · simp
  · split
    · simp
    · intro hm
      rcases List.mem_append.mp hm with hm | hm
      · exact ds_setSize _ _ hm
      · exact ds_addToCategories _ _ hm

theorem ds_editData (w : W) (d : SyncData) (f : Fields) (now : Int) (fs : List Bool) :
    Ev.dataSynced ∉ (editData w d f now fs).evs := by
  unfold editData
  dsimp only
  split
  · simp
  · split
    · simp
    · split
      · exact ds_addToCategories _ _
      · simp

theorem ds_syncRemLoop :
    ∀ (rs : List SyncData) (w : W) (now : Int) (fs : List Bool),
      Ev.dataSynced ∉ (syncRemLoop w rs now fs).evs
  | [], w, now, fs => by simp [syncRemLoop]
  | r :: rs', w, now, fs => by
    unfold syncRemLoop
    dsimp only
    split
    · intro hm
      rcases List.mem_append.mp hm with hm | hm
      · exact ds_removeData _ _ _ _ hm
      · exact ds_syncRemLoop rs' _ now _ hm
    · exact ds_removeData _ _ _ _

theorem ds_syncInsLoop :
    ∀ (rs : List SyncData) (w : W) (now : Int) (fs : List Bool),
      Ev.dataSynced ∉ (syncInsLoop w rs now fs).evs
  | [], w, now, fs => by simp [syncInsLoop]
  | r :: rs', w, now, fs => by
    unfold syncInsLoop
    dsimp only
    split
    · intro hm
      rcases List.mem_append.mp hm with hm | hm
      · exact ds_insertData1 _ _ _ _ hm
      · exact ds_syncInsLoop rs' _ now _ hm
    · exact ds_insertData1 _ _ _ _

theorem ds_syncUpdLoop :
    ∀ (rs : List SyncData) (w : W) (now : Int) (fs : List Bool),
      Ev.dataSynced ∉ (syncUpdLoop w rs now fs).evs
  | [], w, now, fs => by simp [syncUpdLoop]
  | r :: rs', w, now, fs => by
    unfold syncUpdLoop
    dsimp only
    split
    · intro hm
      rcases List.mem_append.mp hm with hm | hm
      · exact ds_editData _ _ _ _ _ hm
      · exact ds_syncUpdLoop rs' _ now _ hm
    · exact ds_editData _ _ _ _ _

theorem ds_notifyInsertUpdates (db : DB) (s : Int) :
    Ev.dataSynced ∉ notifyInsertUpdates db s := by
  unfold notifyInsertUpdates
  dsimp only
  split <;> simp

theorem ds_notifyRemoveUpdates (db : DB) (s : Int) :
    Ev.dataSynced ∉ notifyRemoveUpdates db s := by
  unfold notifyRemoveUpdates
  dsimp only
  split <;> simp

theorem ds_notifyEditUpdates (db : DB) (f : Fields) (s : Int) (oldS : Option Int) :
    Ev.dataSynced ∉ notifyEditUpdates db f s oldS := by
  unfold notifyEditUpdates
  dsimp only
  split
  · split <;> simp
  · split <;> simp

theorem ds_postSyncEvents (db : DB) (removed inserted updNew updOld : List SyncData) :
    Ev.dataSynced ∉ postSyncEvents db removed inserted updNew updOld := by
  intro hm
  unfold postSyncEvents at hm
  rcases List.mem_append.mp hm with hm | hm
  · rcases List.mem_append.mp hm with hm | hm
    · rcases List.mem_append.mp hm with hm | hm
      · rcases List.mem_append.mp hm with hm | hm
        · simp at hm
        · simp only [List.mem_flatten, List.mem_map] at hm
          obtain ⟨l, ⟨r, _, hlr⟩, hml⟩ := hm
          exact ds_notifyRemoveUpdates db (r.start.getD 0) (by rw [hlr]; exact hml)
      · simp at hm
    · simp only [List.mem_flatten, List.mem_map] at hm
      obtain ⟨l, ⟨r, _, hlr⟩, hml⟩ := hm
      exact ds_notifyInsertUpdates db (r.start.getD 0) (by rw [hlr]; exact hml)
  · simp only [List.mem_flatten, List.mem_map] at hm
    obtain ⟨l, ⟨p, _, hlr⟩, hml⟩ := hm
    exact ds_notifyEditUpdates db (diffFields p.1 p.2) (p.1.start.getD 0) p.2.start
      (by rw [hlr]; exact hml)

theorem ds_syncDataFn (w : W) (removed inserted updNew updOld : List SyncData)
    (now : Int) (fs : List Bool) :
    Ev.dataSynced ∉ (syncDataFn w removed inserted updNew updOld now fs).evs := by
  unfold syncDataFn
  dsimp only
  split
  · exact ds_syncRemLoop removed w now fs
  · split
    · intro hm
      rcases List.mem_append.mp hm with hm | hm
      · exact ds_syncRemLoop removed w now fs hm
      · exact ds_syncInsLoop inserted _ now _ hm
    · split
      · intro hm
        rcases List.mem_append.mp hm with hm | hm
        · rcases List.mem_append.mp hm with hm | hm
          · exact ds_syncRemLoop removed w now fs hm
          · exact ds_syncInsLoop inserted _ now _ hm
        · exact ds_syncUpdLoop updNew _ now _ hm
      · split
        · intro hm
          rcases List.mem_append.mp hm with hm | hm
          · rcases List.mem_append.mp hm with hm | hm
            · rcases List.mem_append.mp hm with hm | hm
              · exact ds_syncRemLoop removed w now fs hm
              · exact ds_syncInsLoop inserted _ now _ hm
            · exact ds_syncUpdLoop updNew _ now _ hm
          · simp at hm
        · intro hm
          rcases List.mem_append.mp hm with hm | hm
          · rcases List.mem_append.mp hm with hm | hm
            · rcases List.mem_append.mp hm with hm | hm
              · exact ds_syncRemLoop removed w now fs hm
              · exact ds_syncInsLoop inserted _ now _ hm
            · exact ds_syncUpdLoop updNew _ now _ hm
          · exact ds_postSyncEvents _ _ _ _ _ hm

theorem syncDataFn_ok_shape (w : W) (removed inserted updNew updOld : List SyncData)
    (now : Int) (fs : List Bool)
    (h : (syncDataFn w removed inserted updNew updOld now fs).ok = true) :
    (syncRemLoop w removed now fs).ok = true
    ∧ (syncInsLoop (syncRemLoop w removed now fs).w inserted now
        (syncRemLoop w removed now fs).fs).ok = true
    ∧ (syncUpdLoop (syncInsLoop (syncRemLoop w removed now fs).w inserted now
          (syncRemLoop w removed now fs).fs).w updNew now
        (syncInsLoop (syncRemLoop w removed now fs).w inserted now
          (syncRemLoop w removed now fs).fs).fs).ok = true
    ∧ (syncDataFn w removed inserted updNew updOld now fs).w
        = (syncUpdLoop (syncInsLoop (syncRemLoop w removed now fs).w inserted now
              (syncRemLoop w removed now fs).fs).w updNew now
            (syncInsLoop (syncRemLoop w removed now fs).w inserted now
              (syncRemLoop w removed now fs).fs).fs).w := by
  unfold syncDataFn at h ⊢
  dsimp only at h ⊢
  split at h
  · simp at h
  · next hc =>
    split at h
    · simp at h
    · next hc2 =>
      split at h
      · simp at h
      · next hc3 =>
        split at h
        · simp at h
        · next hc4 =>
          rw [if_neg hc, if_neg hc2, if_neg hc3, if_neg hc4]
          exact ⟨not_not.mp hc, not_not.mp hc2, not_not.mp hc3, rfl⟩

theorem syncDataFn_nil_db (w : W) (now : Int) (fs : List Bool) :
    (syncDataFn w [] [] [] [] now fs).w.db = w.db := by
  unfold syncDataFn syncRemLoop syncInsLoop syncUpdLoop
  dsimp only
  rw [if_neg (by simp), if_neg (by simp), if_neg (by simp)]
  split
  · rfl
  · rfl

theorem syncDataFn_post (w : W) (upd rem : List SyncData) (now : Int) (fs : List Bool)
    (hw : InvW w)
    (hnd : ((rem ++ upd).map (·.uuid)).Nodup)
    (hv : ∀ e ∈ rem ++ upd, e.mtime.isSome = true)
    (hok : (syncDataFn w (removedMerged (classifyRemoved w.db rem).1
        (classifyRemoved w.db rem).2) (classifyUpdated w.db upd).1
        (classifyUpdated w.db upd).2.2.1 (classifyUpdated w.db upd).2.2.2
        now fs).ok = true) :
    ∀ e ∈ rem ++ upd, ∃ a,
      getSyncAffected (syncDataFn w (removedMerged (classifyRemoved w.db rem).1
          (classifyRemoved w.db rem).2) (classifyUpdated w.db upd).1
          (classifyUpdated w.db upd).2.2.1 (classifyUpdated w.db upd).2.2.2
          now fs).w.db e.uuid = some a
      ∧ e.mtD ≤ a.mtD := by
  set cr1 := (classifyRemoved w.db rem).1 with hcr1def
  set cr2 := (classifyRemoved w.db rem).2 with hcr2def
  set cu1 := (classifyUpdated w.db upd).1 with hcu1def
  set cuU := (classifyUpdated w.db upd).2.2.1 with hcuUdef
  set RM := removedMerged cr1 cr2 with hRMdef
  obtain ⟨hok1, hok2, hok3, hwfin⟩ := syncDataFn_ok_shape w RM cu1 cuU
    (classifyUpdated w.db upd).2.2.2 now fs hok
  rw [hwfin]
  have hInv : InvDB w.db := hw.1
  rw [List.map_append] at hnd
  obtain ⟨hndr, hndu, hdisj⟩ := List.nodup_append.mp hnd
  have hsubR : cr1.Sublist rem := classifyRemoved_sublist w.db rem
  have hsubI : cu1.Sublist upd := classifyUpdated_sublistI w.db upd
  have hsubU : cuU.Sublist upd := classifyUpdated_sublistU w.db upd
  have hlen : cr2.length = cr1.length := classifyRemoved_len w.db rem
  have hRMuuid : RM.map (fun x => x.uuid) = cr1.map (fun x => x.uuid) :=
    removedMerged_uuids cr1 cr2 hlen
  have hndRM : (RM.map (·.uuid)).Nodup := by
    rw [hRMuuid]
    exact List.Nodup.sublist (hsubR.map _) hndr
  have hndI : (cu1.map (·.uuid)).Nodup := List.Nodup.sublist (hsubI.map _) hndu
  have hndU : (cuU.map (·.uuid)).Nodup := List.Nodup.sublist (hsubU.map _) hndu
  have hmemRM : ∀ m ∈ RM, m.uuid ∈ rem.map (fun x => x.uuid) := by
    intro m hm
    refine (hsubR.map (fun x => x.uuid)).subset ?_
    rw [← hRMuuid]
    exact List.mem_map_of_mem _ hm
  have hneRM_of_upd : ∀ e2 ∈ upd, ∀ m ∈ RM, e2.uuid ≠ m.uuid := by
    intro e2 he2 m hm heq
    exact hdisj (by rw [heq]; exact hmemRM m hm) (List.mem_map_of_mem _ he2)
  have hneI_of_rem : ∀ e2 ∈ rem, ∀ m ∈ cu1, e2.uuid ≠ m.uuid := by
    intro e2 he2 m hm heq
    exact hdisj (List.mem_map_of_mem _ he2)
      (by rw [heq]; exact List.mem_map_of_mem _ (hsubI.subset hm))
  have hneU_of_rem : ∀ e2 ∈ rem, ∀ m ∈ cuU, e2.uuid ≠ m.uuid := by
    intro e2 he2 m hm heq
    exact hdisj (List.mem_map_of_mem _ he2)
      (by rw [heq]; exact List.mem_map_of_mem _ (hsubU.subset hm))
  have hw1 : InvW (syncRemLoop w RM now fs).w := InvW_syncRemLoop RM w now fs hw
  have hw2 : InvW (syncInsLoop (syncRemLoop w RM now fs).w cu1 now
      (syncRemLoop w RM now fs).fs).w :=
    InvW_syncInsLoop cu1 (syncRemLoop w RM now fs).w now (syncRemLoop w RM now fs).fs hw1
  have hliveU : ∀ e2 ∈ cuU,
      (((syncInsLoop (syncRemLoop w RM now fs).w cu1 now
          (syncRemLoop w RM now fs).fs).w.db.timelog.find?
        (fun r => r.uuid == e2.uuid)).map liveSync).isSome = true := by
    intro e2 he2
    have h0 := classifyUpdated_live w.db hInv upd e2 he2
    have hne2I : ∀ m ∈ cu1, e2.uuid ≠ m.uuid := by
      rcases classifyUpdated_classes w.db upd hndu e2 (hsubU.subset he2)
        with (⟨hin, hdU2⟩ | ⟨hinU, hdI2⟩) | ⟨_, hdI2, _⟩
      · exact absurd rfl (hdU2 e2 he2)
      · exact hdI2
      · exact hdI2
    have hfr1 := (syncRemLoop_gsa RM w now fs hw hndRM hok1).2 e2.uuid
      (hneRM_of_upd e2 (hsubU.subset he2))
    have hfr2 := (syncInsLoop_gsa cu1 (syncRemLoop w RM now fs).w now
      (syncRemLoop w RM now fs).fs hw1 hndI hok2).2 e2.uuid hne2I
    rw [hfr2.1, hfr1.1]
    exact h0
  have hmtconv : ∀ x : SyncData, x.mtime.isSome = true → ∀ t0 : Int,
      x.mtime.getD now ≤ t0 → x.mtD ≤ t0 := by
    intro x hx t0 hle
    obtain ⟨t, ht⟩ := Option.isSome_iff_exists.mp hx
    have h1 : x.mtD = t := by simp [SyncData.mtD, ht]
    have h2 : x.mtime.getD now = t := by simp [ht]
    rw [h1]
    rw [h2] at hle
    exact hle
  intro e he
  rcases List.mem_append.mp he with her | heu
  · rcases classifyRemoved_classes w.db rem hndr e her with hproc | ⟨⟨a0, hga0, hle0⟩, hdR⟩
    · obtain ⟨m, hmRM, hmu, hmt⟩ := removedMerged_mem cr1 cr2 hlen e hproc
      obtain ⟨a, hga, hle⟩ := (syncRemLoop_gsa RM w now fs hw hndRM hok1).1 m hmRM
      rw [hmu] at hga
      have hfr2 := (syncInsLoop_gsa cu1 (syncRemLoop w RM now fs).w now
        (syncRemLoop w RM now fs).fs hw1 hndI hok2).2 e.uuid (hneI_of_rem e her)
      have hfr3 := (syncUpdLoop_gsa cuU (syncInsLoop (syncRemLoop w RM now fs).w cu1 now
          (syncRemLoop w RM now fs).fs).w now
          (syncInsLoop (syncRemLoop w RM now fs).w cu1 now
            (syncRemLoop w RM now fs).fs).fs hw2 hndU hliveU hok3).2
        e.uuid (hneU_of_rem e her)
      refine ⟨a, ?_, ?_⟩
      · rw [gsa_congr (hfr3.1.trans hfr2.1) (hfr3.2.trans hfr2.2)]
        exact hga
      · rw [hmt] at hle
        exact hmtconv e (hv e (List.mem_append_left _ her)) a.mtD hle
    · have hneRMe : ∀ m ∈ RM, e.uuid ≠ m.uuid := by
        intro m hm
        have hmm : m.uuid ∈ cr1.map (fun x => x.uuid) := by
          rw [← hRMuuid]
          exact List.mem_map_of_mem _ hm
        obtain ⟨e2, he2, heq⟩ := List.mem_map.mp hmm
        rw [← heq]
        exact hdR e2 he2
      have hfr1 := (syncRemLoop_gsa RM w now fs hw hndRM hok1).2 e.uuid hneRMe
      have hfr2 := (syncInsLoop_gsa cu1 (syncRemLoop w RM now fs).w now
        (syncRemLoop w RM now fs).fs hw1 hndI hok2).2 e.uuid (hneI_of_rem e her)
      have hfr3 := (syncUpdLoop_gsa cuU (syncInsLoop (syncRemLoop w RM now fs).w cu1 now
          (syncRemLoop w RM now fs).fs).w now
          (syncInsLoop (syncRemLoop w RM now fs).w cu1 now
            (syncRemLoop w RM now fs).fs).fs hw2 hndU hliveU hok3).2
        e.uuid (hneU_of_rem e her)
      refine ⟨a0, ?_, hle0⟩
      rw [gsa_congr (hfr3.1.trans (hfr2.1.trans hfr1.1)) (hfr3.2.trans (hfr2.2.trans hfr1.2))]
      exact hga0
  · rcases classifyUpdated_classes w.db upd hndu e heu
      with (⟨hinI, hdU2⟩ | ⟨hinU, hdI2⟩) | ⟨⟨a0, hga0, hle0⟩, hdI2, hdU2⟩
    · obtain ⟨a, hga, hle⟩ := (syncInsLoop_gsa cu1 (syncRemLoop w RM now fs).w now
        (syncRemLoop w RM now fs).fs hw1 hndI hok2).1 e hinI
      have hfr3 := (syncUpdLoop_gsa cuU (syncInsLoop (syncRemLoop w RM now fs).w cu1 now
          (syncRemLoop w RM now fs).fs).w now
          (syncInsLoop (syncRemLoop w RM now fs).w cu1 now
            (syncRemLoop w RM now fs).fs).fs hw2 hndU hliveU hok3).2
        e.uuid hdU2
      refine ⟨a, ?_, hmtconv e (hv e (List.mem_append_right _ heu)) a.mtD hle⟩
      rw [gsa_congr hfr3.1 hfr3.2]
      exact hga
    · obtain ⟨a, hga, hle⟩ := (syncUpdLoop_gsa cuU
        (syncInsLoop (syncRemLoop w RM now fs).w cu1 now
          (syncRemLoop w RM now fs).fs).w now
        (syncInsLoop (syncRemLoop w RM now fs).w cu1 now
          (syncRemLoop w RM now fs).fs).fs hw2 hndU hliveU hok3).1 e hinU
      exact ⟨a, hga, hmtconv e (hv e (List.mem_append_right _ heu)) a.mtD hle⟩
    · have hfr1 := (syncRemLoop_gsa RM w now fs hw hndRM hok1).2 e.uuid
        (hneRM_of_upd e heu)
      have hfr2 := (syncInsLoop_gsa cu1 (syncRemLoop w RM now fs).w now
        (syncRemLoop w RM now fs).fs hw1 hndI hok2).2 e.uuid hdI2
      have hfr3 := (syncUpdLoop_gsa cuU (syncInsLoop (syncRemLoop w RM now fs).w cu1 now
          (syncRemLoop w RM now fs).fs).w now
          (syncInsLoop (syncRemLoop w RM now fs).w cu1 now
            (syncRemLoop w RM now fs).fs).fs hw2 hndU hliveU hok3).2
        e.uuid hdU2
      refine ⟨a0, ?_, hle0⟩
      rw [gsa_congr (hfr3.1.trans (hfr2.1.trans hfr1.1)) (hfr3.2.trans (hfr2.2.trans hfr1.2))]
      exact hga0

/-- Claim C3: applying `sync(U, R)` twice with the same arguments is
equivalent to applying it once.  After a committed first sync (the uuids of
the peer lists distinct, their mtimes present, `dataSynced` observed), the
second call's classification pass produces empty removed, inserted and
updated lists — every peer record is skipped because the locally
authoritative record's mtime is greater or equal — and the second merge
leaves the database unchanged. -/
theorem sync_idempotent (w : W) (upd rem : List SyncData) (now now2 : Int)
    (fs fs2 : List Bool) (hw : InvW w)
    (hnd : ((rem ++ upd).map (·.uuid)).Nodup)
    (hv : ∀ e ∈ rem ++ upd, e.mtime.isSome = true)
    (hsync : Ev.dataSynced ∈ (runCmd w (.cSync upd rem) now fs).2) :
    classifyRemoved (runCmd w (.cSync upd rem) now fs).1.db rem = ([], [])
    ∧ classifyUpdated (runCmd w (.cSync upd rem) now fs).1.db upd = ([], [], [], [])
    ∧ (runCmd (runCmd w (.cSync upd rem) now fs).1 (.cSync upd rem) now2 fs2).1.db
        = (runCmd w (.cSync upd rem) now fs).1.db := by
  have hok : (syncDataFn w
      (removedMerged (classifyRemoved w.db rem).1 (classifyRemoved w.db rem).2)
      (classifyUpdated w.db upd).1 (classifyUpdated w.db upd).2.2.1
      (classifyUpdated w.db upd).2.2.2 now fs).ok = true := by
    by_contra hno
    simp only [runCmd, hno, if_false] at hsync
    rcases List.mem_append.mp hsync with hm | hm
    · simp at hm
    · exact ds_syncDataFn _ _ _ _ _ _ _ hm
  have hrun1 : (runCmd w (.cSync upd rem) now fs).1
      = (syncDataFn w
          (removedMerged (classifyRemoved w.db rem).1 (classifyRemoved w.db rem).2)
          (classifyUpdated w.db upd).1 (classifyUpdated w.db upd).2.2.1
          (classifyUpdated w.db upd).2.2.2 now fs).w := by
    simp only [runCmd, hok, eq_self_iff_true, if_true]
  have hpost := syncDataFn_post w upd rem now fs hw hnd hv hok
  have hA : ∀ e ∈ rem, ∃ a,
      getSyncAffected (runCmd w (.cSync upd rem) now fs).1.db e.uuid = some a
        ∧ e.mtD ≤ a.mtD := by
    intro e he
    rw [hrun1]
    exact hpost e (List.mem_append_left _ he)
  have hB : ∀ e ∈ upd, ∃ a,
      getSyncAffected (runCmd w (.cSync upd rem) now fs).1.db e.uuid = some a
        ∧ e.mtD ≤ a.mtD := by
    intro e he
    rw [hrun1]
    exact hpost e (List.mem_append_right _ he)
  have hcr0 : classifyRemoved (runCmd w (.cSync upd rem) now fs).1.db rem = ([], []) :=
    classifyRemoved_nil _ rem hA
  have hcu0 : classifyUpdated (runCmd w (.cSync upd rem) now fs).1.db upd
      = ([], [], [], []) :=
    classifyUpdated_nil _ upd hB
  refine ⟨hcr0, hcu0, ?_⟩
  have h2 : ∀ w1 : W, classifyRemoved w1.db rem = ([], []) →
      classifyUpdated w1.db upd = ([], [], [], []) →
      (runCmd w1 (.cSync upd rem) now2 fs2).1.db = w1.db := by
    intro w1 hcr hcu
    simp only [runCmd, hcr, hcu, removedMerged_nil]
    split
    · exact syncDataFn_nil_db w1 now2 fs2
    · exact syncDataFn_nil_db w1 now2 fs2
  exact h2 _ hcr0 hcu0

/-- Witness for C3: a committed sync of one fresh peer record leaves a state
whose second identical sync classifies nothing and rewrites nothing. -/
theorem sync_idempotent_witness :
    Ev.dataSynced ∈ (runCmd initW
        (.cSync [⟨⟨1, some 100, "c", "", 0, 0⟩, some 5⟩] []) 1000 []).2
    ∧ (classifyRemoved (runCmd initW
          (.cSync [⟨⟨1, some 100, "c", "", 0, 0⟩, some 5⟩] []) 1000 []).1.db [] = ([], [])
        ∧ classifyUpdated (runCmd initW
            (.cSync [⟨⟨1, some 100, "c", "", 0, 0⟩, some 5⟩] []) 1000 []).1.db
            [⟨⟨1, some 100, "c", "", 0, 0⟩, some 5⟩] = ([], [], [], [])
        ∧ (runCmd (runCmd initW
              (.cSync [⟨⟨1, some 100, "c", "", 0, 0⟩, some 5⟩] []) 1000 []).1
            (.cSync [⟨⟨1, some 100, "c", "", 0, 0⟩, some 5⟩] []) 2000 []).1.db
          = (runCmd initW (.cSync [⟨⟨1, some 100, "c", "", 0, 0⟩, some 5⟩] []) 1000 []).1.db) :=
  ⟨by decide, sync_idempotent initW [⟨⟨1, some 100, "c", "", 0, 0⟩, some 5⟩] [] 1000 2000 [] []
    InvW_initW (by decide) (by decide) (by decide)⟩

end GTT
